import Mathlib

/-!
# MediMind: reminder building, calendar export and adherence

A shallow embedding of the scheduling core of the MediMind prescription
analyser (`src/public/app.js`, `src/server.js`) together with theorems about it.

Conventions of the embedding

* A JavaScript string is a Lean `String`; string functions are defined on the
  list of its characters.
* A property that may be `undefined` is an `Option`.
* Whole numbers are `Nat`/`Int`; `NaN` is `none`.
* An instant is its JavaScript time value: milliseconds since the epoch, an
  `Int`.  The host's local zone is a fixed offset `tz` (milliseconds east of
  UTC), so a calendar day has 86 400 000 ms.
* The current instant (`new Date()`, `Date.now()`) is the explicit argument `now`.
-/

namespace MediMind

/-! ## Strings -/

/-- Whether `pat` occurs in the character list as a contiguous block, scanning left to right. -/
def includesChars (pat : List Char) : List Char → Bool
  | [] => pat.isPrefixOf []
  | c :: cs => pat.isPrefixOf (c :: cs) || includesChars pat cs

/-- The method `String.prototype.includes`: `s.includes(pat)`. -/
def includes (s pat : String) : Bool :=
  includesChars pat.toList s.toList

/-- The method `String.prototype.toLowerCase` on the ASCII letters.  The
lower-cased text is only searched for `food` and compared with the keys of
`timeMap`: no character outside ASCII lower-cases to a letter of `food`, and
the lower-case form of a text with such a character is none of the keys. -/
def toLowerCase (s : String) : String :=
  String.mk (s.toList.map Char.toLower)

/-- The class `\d` of a JavaScript regular expression: the ten ASCII digits. -/
def isDigit (c : Char) : Bool :=
  c.isDigit

/-- The pattern `\d+` tried at the start of the input: greedy, at least one digit. -/
def matchDigitsHere (cs : List Char) : Option (List Char) :=
  match cs.takeWhile isDigit with
  | [] => none
  | d :: ds => some (d :: ds)

/-- The expression `cs.match(/\d+/)?.[0]`: the pattern is tried at each start position from
the left and the first position that matches wins; `none` is `null`. -/
def matchDigits : List Char → Option (List Char)
  | [] => none
  | c :: cs =>
    match matchDigitsHere (c :: cs) with
    | some run => some run
    | none => matchDigits cs

/-! ## The fallback reminder builder (`displayResults`, `basicReminders`) -/

/-- A medication as extracted from the prescription (`extractedData.medications[i]`). -/
structure MedicationRecord where
  name : Option String
  dosage : Option String
  frequency : Option String
  duration : Option String
  instructions : Option String
  deriving DecidableEq

/-- A reminder (`explanation.reminders[i]`, `prescription.reminders[i]`).
`times = none` stands for a `times` property that is missing; a `times` that is
present is an array of strings. -/
structure Reminder where
  medicine : Option String
  times : Option (List String)
  withFood : Bool
  duration : Option String
  deriving DecidableEq

/-- The `times` of a basic reminder:
`med.frequency?.includes('twice') ? ['08:00', '20:00'] :
 med.frequency?.includes('three') ? ['08:00', '14:00', '20:00'] : ['08:00']`. -/
def basicTimes (frequency : Option String) : List String :=
  if (frequency.map fun f => includes f "twice") = some true then ["08:00", "20:00"]
  else if (frequency.map fun f => includes f "three") = some true then ["08:00", "14:00", "20:00"]
  else ["08:00"]

/-- The `withFood` of a basic reminder:
`med.instructions?.toLowerCase().includes('food') || false`. -/
def basicWithFood (instructions : Option String) : Bool :=
  match instructions with
  | none => false
  | some s => includes (toLowerCase s) "food"

/-- The `duration` of a basic reminder: `med.duration?.match(/\d+/)?.[0] || '7'`.
A match is a non-empty string, hence truthy. -/
def basicDuration (duration : Option String) : String :=
  match duration with
  | none => "7"
  | some s =>
    match matchDigits s.toList with
    | none => "7"
    | some run => String.mk run

/-- One element of `basicReminders`: the object literal built from `med`. -/
def basicReminder (med : MedicationRecord) : Reminder where
  medicine := med.name
  times := some (basicTimes med.frequency)
  withFood := basicWithFood med.instructions
  duration := some (basicDuration med.duration)

/-- The list `extractedData.medications.map(med => ...)`. -/
def basicReminders (meds : List MedicationRecord) : List Reminder :=
  meds.map basicReminder

/-- The first maximal run of decimal digits of a text, as the specification
words it: skip everything that is not a digit, then take digits while they last. -/
def firstDigitRun (cs : List Char) : List Char :=
  (cs.dropWhile fun c => !isDigit c).takeWhile isDigit

/-- The duration the specification asks of the builder: the first digit run
when the text has a digit, and `7` otherwise or when the text is missing. -/
def specDuration (duration : Option String) : String :=
  match duration with
  | none => "7"
  | some s => if s.toList.any isDigit then String.mk (firstDigitRun s.toList) else "7"

/-! ## Numbers and dates of the host language -/

/-- The argument of a template literal or of `parseInt`, converted to a string:
a missing value reads `undefined`. -/
def jsToString (v : Option String) : String :=
  match v with
  | none => "undefined"
  | some s => s

/-- White space and line terminators, which `parseInt` skips at the start. -/
def isJsWhiteSpace (c : Char) : Bool :=
  let n := c.toNat
  n == 0x09 || n == 0x0A || n == 0x0B || n == 0x0C || n == 0x0D || n == 0x20 ||
  n == 0xA0 || n == 0x1680 || (0x2000 ≤ n && n ≤ 0x200A) || n == 0x2028 ||
  n == 0x2029 || n == 0x202F || n == 0x205F || n == 0x3000 || n == 0xFEFF

/-- The value of a character as a digit in the given radix, if it is one. -/
def digitValue (radix : Nat) (c : Char) : Option Nat :=
  let n := c.toNat
  let v : Option Nat :=
    if 48 ≤ n && n ≤ 57 then some (n - 48)
    else if 97 ≤ n && n ≤ 122 then some (n - 87)
    else if 65 ≤ n && n ≤ 90 then some (n - 55)
    else none
  match v with
  | some d => if d < radix then some d else none
  | none => none

/-- Reads digits while they last, continuing the value `acc`. -/
def readDigits (radix : Nat) : Nat → List Char → Nat
  | acc, [] => acc
  | acc, c :: cs =>
    match digitValue radix c with
    | some d => readDigits radix (acc * radix + d) cs
    | none => acc

/-- The longest prefix of digits as a number; `none` when there is no digit. -/
def parseDigits (radix : Nat) : List Char → Option Nat
  | [] => none
  | c :: cs =>
    match digitValue radix c with
    | some d => some (readDigits radix d cs)
    | none => none

/-- After the sign: an `0x`/`0X` prefix selects radix 16, otherwise radix 10. -/
def parseMagnitude : List Char → Option Nat
  | '0' :: 'x' :: cs => parseDigits 16 cs
  | '0' :: 'X' :: cs => parseDigits 16 cs
  | cs => parseDigits 10 cs

/-- The function `parseInt` on the characters of its argument: skip leading white space,
read a sign, then the digits; `none` is `NaN`. -/
def parseIntChars (cs : List Char) : Option Int :=
  match cs.dropWhile isJsWhiteSpace with
  | '-' :: rest => (parseMagnitude rest).map fun n => - (n : Int)
  | '+' :: rest => (parseMagnitude rest).map fun n => (n : Int)
  | rest => (parseMagnitude rest).map fun n => (n : Int)

/-- The call `parseInt(v)` with no radix.  The result is the integer the digits
denote.  JavaScript returns the binary64 number nearest to it, which is that
integer itself up to `2 ^ 53` in size; what `parseInt` does with a larger number
is not part of the embedding, and the theorems that read a parsed value bound it. -/
def parseInt (v : Option String) : Option Int :=
  parseIntChars (jsToString v).toList

/-- The call `s.split(':')` on characters: the pieces between colons (never empty). -/
def splitColon : List Char → List (List Char)
  | [] => [[]]
  | c :: cs =>
    match splitColon cs with
    | [] => [[]]
    | p :: ps => if c = ':' then [] :: p :: ps else (c :: p) :: ps

/-- The statement `const [hours, minutes] = time.split(':')`: the first two pieces, the second
one `undefined` when the text has no colon. -/
def splitHoursMinutes (time : String) : Option String × Option String :=
  let parts := splitColon time.toList
  (parts[0]?.map String.mk, parts[1]?.map String.mk)

/-- Milliseconds in a day. -/
def msPerDay : Int := 86400000

/-- The operation `TimeClip`: a time value beyond 8.64e15 ms from the epoch is `NaN`
(an invalid date). -/
def timeClip (t : Int) : Option Int :=
  if -8640000000000000 ≤ t ∧ t ≤ 8640000000000000 then some t else none

/-- The calendar day (days since the epoch) of an instant in the host's zone. -/
def localDay (tz t : Int) : Int :=
  (t + tz) / msPerDay

/-- The call `d.setDate(d.getDate() + i)` for a whole number `i` (possibly negative):
the same local time of day `i` calendar days later. -/
def addDays (d : Option Int) (i : Int) : Option Int :=
  match d with
  | none => none
  | some t => timeClip (t + i * msPerDay)

/-- The call `d.setHours(h, m, 0, 0)`: the given time of day on the local calendar day
of `d`; `NaN` when `d`, `h` or `m` is `NaN`. -/
def setHours (tz : Int) (d : Option Int) (h m : Option Int) : Option Int :=
  match d, h, m with
  | some t, some h, some m =>
    timeClip (localDay tz t * msPerDay + (h * 3600000 + m * 60000) - tz)
  | _, _, _ => none

/-- The call `d.toISOString()`: throws a `RangeError` on an invalid date.  The text
produced for a valid date is represented by the instant itself. -/
def toISOString (d : Option Int) : Except String Int :=
  match d with
  | none => .error "RangeError: Invalid time value"
  | some t => .ok t

/-! ## Calendar export
`GET /api/calendar/:prescriptionId/download` and `GET /api/calendar/:id` -/

/-- A stored prescription, as far as the calendar routes read it.  The path
`reminders` of the schema has type `Array`, whose default is the empty array. -/
structure Prescription where
  id : String
  reminders : List Reminder
  deriving DecidableEq

/-- The reply of a route: a body sent with status 200, or an error status with
its message. -/
inductive Response (α : Type) where
  | ok (body : α)
  | error (status : Nat) (message : String)
  deriving DecidableEq

/-- The expression `parseInt(reminder.duration) || 7`: `NaN` and `0` are falsy. -/
def dayCount (duration : Option String) : Int :=
  match parseInt duration with
  | none => 7
  | some n => if n = 0 then 7 else n

/-- The loop `for (let i = start; i < bound; i++) body(i)` with `remaining = bound - start`
iterations left; an exception thrown by the body ends the loop. -/
def forLoop {σ : Type} (body : Nat → σ → Except String σ) : Nat → Nat → σ → Except String σ
  | 0, _, s => .ok s
  | remaining + 1, i, s =>
    match body i s with
    | .error e => .error e
    | .ok s1 => forLoop body remaining (i + 1) s1

/-- The loop `xs.forEach((x, index) => body(x, index))`, `index` counting from `start`. -/
def forEachIdx {α σ : Type} (body : α → Nat → σ → Except String σ) :
    List α → Nat → σ → Except String σ
  | [], _, s => .ok s
  | x :: xs, index, s =>
    match body x index s with
    | .error e => .error e
    | .ok s1 => forEachIdx body xs (index + 1) s1

/-- The loop `xs.forEach(x => body(x))`. -/
def forEach {α σ : Type} (body : α → σ → Except String σ) : List α → σ → Except String σ
  | [], s => .ok s
  | x :: xs, s =>
    match body x s with
    | .error e => .error e
    | .ok s1 => forEach body xs s1

/-- The date of an event, as both routes compute it:
`d = new Date(); d.setDate(d.getDate() + i);
 [hours, minutes] = time.split(':'); d.setHours(parseInt(hours), parseInt(minutes), 0, 0)`. -/
def eventDate (now tz : Int) (time : String) (i : Nat) : Option Int :=
  let d := addDays (some now) i
  let hm := splitHoursMinutes time
  setHours tz d (parseInt hm.1) (parseInt hm.2)

/-- One `VEVENT` component with its `VALARM`.  The three indices are the loop
variables the UID is made of. -/
structure VEvent where
  uid : String
  reminderIndex : Nat
  timeIndex : Nat
  dayIndex : Nat
  dtstamp : Int
  dtstart : Int
  dtend : Int
  summary : String
  description : String
  alarmTrigger : String
  alarmDescription : String
  deriving DecidableEq

/-- The body of the innermost loop of the download route, up to the text appended
to `icsContent`.  `toISOString` throws on an invalid date. -/
def buildVEvent (id : String) (now tz : Int) (reminder : Reminder) (reminderIndex : Nat)
    (time : String) (timeIndex : Nat) (duration : Int) (i : Nat) : Except String VEvent :=
  match toISOString (eventDate now tz time i) with
  | .error e => .error e
  | .ok startTime =>
    match toISOString (timeClip (startTime + 15 * 60000)) with
    | .error e => .error e
    | .ok endTime =>
      .ok {
        uid := id ++ "-" ++ toString reminderIndex ++ "-" ++ toString timeIndex ++ "-" ++
          toString i ++ "@medimind.com"
        reminderIndex := reminderIndex
        timeIndex := timeIndex
        dayIndex := i
        dtstamp := now / 1000 * 1000
        dtstart := startTime
        dtend := endTime
        summary := "💊 Take " ++ jsToString reminder.medicine
        description := "Medication: " ++ jsToString reminder.medicine ++
          "\nDosage: Take as prescribed\nWith food: " ++
          (if reminder.withFood then "Yes" else "No") ++
          "\nDay " ++ toString (i + 1) ++ " of " ++ toString duration
        alarmTrigger := "-PT15M"
        alarmDescription := "Time to take " ++ jsToString reminder.medicine }

/-- The three nested loops of the download route; the state is the list of
`VEVENT` blocks appended to `icsContent` so far. -/
def downloadEvents (now tz : Int) (p : Prescription) : Except String (List VEvent) :=
  forEachIdx (fun reminder reminderIndex ics =>
    match reminder.times with
    | none => .ok ics
    | some times =>
      forEachIdx (fun time timeIndex ics =>
        let duration := dayCount reminder.duration
        forLoop (fun i ics =>
          match buildVEvent p.id now tz reminder reminderIndex time timeIndex duration i with
          | .error e => .error e
          | .ok ev => .ok (ics ++ [ev])) duration.toNat 0 ics) times 0 ics) p.reminders 0 []

/-- The route `GET /api/calendar/:prescriptionId/download`; `found` is the result of
`Prescription.findById`.  The body is the list of `VEVENT` components between
the `VCALENDAR` header and footer. -/
def calendarDownload (now tz : Int) (found : Option Prescription) : Response (List VEvent) :=
  match found with
  | none => .error 404 "Not found"
  | some p =>
    if p.reminders.length = 0 then .error 400 "No reminders found"
    else
      match downloadEvents now tz p with
      | .ok ics => .ok ics
      | .error _ => .error 500 "Failed to generate calendar"

/-- One element of the `events` array of the JSON route. -/
structure CalendarEvent where
  title : String
  start : Int
  description : String
  deriving DecidableEq

/-- The body of the innermost loop of the JSON route, up to `events.push`. -/
def buildCalendarEvent (now tz : Int) (reminder : Reminder) (time : String) (duration : Int)
    (i : Nat) : Except String CalendarEvent :=
  match toISOString (eventDate now tz time i) with
  | .error e => .error e
  | .ok start =>
    .ok {
      title := "💊 Take " ++ jsToString reminder.medicine
      start := start
      description := "Medication: " ++ jsToString reminder.medicine ++
        "\nWith food: " ++ (if reminder.withFood then "Yes" else "No") ++
        "\nDay " ++ toString (i + 1) ++ " of " ++ toString duration }

/-- The three nested loops of the JSON route; the state is the array `events`. -/
def jsonEvents (now tz : Int) (p : Prescription) : Except String (List CalendarEvent) :=
  forEach (fun reminder events =>
    match reminder.times with
    | none => .ok events
    | some times =>
      forEach (fun time events =>
        let duration := dayCount reminder.duration
        forLoop (fun i events =>
          match buildCalendarEvent now tz reminder time duration i with
          | .error e => .error e
          | .ok ev => .ok (events ++ [ev])) duration.toNat 0 events) times events) p.reminders []

/-- The route `GET /api/calendar/:id`; the body is the array `events`. -/
def calendarJson (now tz : Int) (found : Option Prescription) : Response (List CalendarEvent) :=
  match found with
  | none => .error 404 "Not found"
  | some p =>
    match jsonEvents now tz p with
    | .ok events => .ok events
    | .error _ => .error 500 "Failed to generate events"

/-- One pass of the innermost loop: reminder and time with their positions, and
the day offset. -/
structure Occurrence where
  reminderIndex : Nat
  reminder : Reminder
  timeIndex : Nat
  time : String
  dayIndex : Nat
  deriving DecidableEq

/-- The passes of the innermost loop in the order the loops make them. -/
def occurrences (p : Prescription) : List Occurrence :=
  (p.reminders.enumFrom 0).flatMap fun ir =>
    match ir.2.times with
    | none => []
    | some times =>
      (times.enumFrom 0).flatMap fun it =>
        (List.range' 0 (dayCount ir.2.duration).toNat).map fun i =>
          { reminderIndex := ir.1, reminder := ir.2, timeIndex := it.1, time := it.2,
            dayIndex := i }

/-- Runs `f` on every element in order and collects the results; the first
exception ends the run. -/
def traverse {α β : Type} (f : α → Except String β) : List α → Except String (List β)
  | [] => .ok []
  | x :: xs =>
    match f x with
    | .error e => .error e
    | .ok y =>
      match traverse f xs with
      | .error e => .error e
      | .ok ys => .ok (y :: ys)

/-- The event of the download route for one pass of the loops. -/
def Occurrence.vevent (id : String) (now tz : Int) (o : Occurrence) : Except String VEvent :=
  buildVEvent id now tz o.reminder o.reminderIndex o.time o.timeIndex
    (dayCount o.reminder.duration) o.dayIndex

/-- The event of the JSON route for one pass of the loops. -/
def Occurrence.calendarEvent (now tz : Int) (o : Occurrence) : Except String CalendarEvent :=
  buildCalendarEvent now tz o.reminder o.time (dayCount o.reminder.duration) o.dayIndex

/-- Both dates of an event exist: the start, and the end a quarter of an hour later. -/
def schedulable (now tz : Int) (time : String) (i : Nat) : Bool :=
  match eventDate now tz time i with
  | none => false
  | some t => (timeClip (t + 15 * 60000)).isSome

/-- Order of the loops: by reminder index, then by time index, then by day offset. -/
def loopOrder (a b : Nat × Nat × Nat) : Prop :=
  a.1 < b.1 ∨ (a.1 = b.1 ∧ (a.2.1 < b.2.1 ∨ (a.2.1 = b.2.1 ∧ a.2.2 < b.2.2)))

/-- The loop variables of a component. -/
def VEvent.key (e : VEvent) : Nat × Nat × Nat :=
  (e.reminderIndex, e.timeIndex, e.dayIndex)

/-- The loop variables of a pass. -/
def Occurrence.key (o : Occurrence) : Nat × Nat × Nat :=
  (o.reminderIndex, o.timeIndex, o.dayIndex)

/-! ## Double-precision arithmetic of the adherence rate

`totalTaken / totalExpected` and the product with `100` are operations on IEEE 754
binary64 numbers, each rounded to the nearest number with a 53-bit significand,
ties to even.  The operands are array lengths and small products of them, so the
results are normal numbers and the exponent range plays no part. -/

/-- The number of binary digits of `n`, by halving at most `fuel` times. -/
def bitLengthAux : Nat → Nat → Nat
  | 0, _ => 0
  | fuel + 1, n => if n = 0 then 0 else bitLengthAux fuel (n / 2) + 1

/-- The number of binary digits of `n` (`0` has none). -/
def bitLength (n : Nat) : Nat :=
  bitLengthAux n n

/-- A non-negative binary64 number: `mant × 2 ^ exp`. -/
structure Binary64 where
  mant : Nat
  exp : Int
  deriving DecidableEq

/-- Numerator of the value `num / den`. -/
def Binary64.num (x : Binary64) : Nat :=
  x.mant * 2 ^ x.exp.toNat

/-- Denominator of the value `num / den`, a power of two. -/
def Binary64.den (x : Binary64) : Nat :=
  2 ^ (-x.exp).toNat

/-- The value of a binary64 number as a rational. -/
def Binary64.val (x : Binary64) : ℚ :=
  (x.num : ℚ) / (x.den : ℚ)

/-- The integer nearest to `n / d`, the even one of the two when `n / d` lies
halfway between them. -/
def roundHalfEven (n d : Nat) : Nat :=
  let q := n / d
  let r := n % d
  if 2 * r < d then q
  else if d < 2 * r then q + 1
  else if q % 2 = 0 then q else q + 1

/-- The exponent of the leading binary digit of `n / d`: the integer `l` with
`2 ^ l ≤ n / d < 2 ^ (l + 1)`, for positive `n` and `d`. -/
def floorLog2 (n d : Nat) : Int :=
  let s : Int := (bitLength n : Int) - (bitLength d : Int)
  if d * 2 ^ s.toNat ≤ n * 2 ^ (-s).toNat then s else s - 1

/-- The binary64 number nearest to `n / d`: the significand keeps 53 binary
digits, the rest is rounded half to even. -/
def roundToDouble (n d : Nat) : Binary64 :=
  if n = 0 then ⟨0, 0⟩
  else
    let e := floorLog2 n d - 52
    ⟨roundHalfEven (n * 2 ^ (-e).toNat) (d * 2 ^ e.toNat), e⟩

/-- The quotient `a / b` of two whole numbers (`b` positive). -/
def fdiv (a b : Nat) : Binary64 :=
  roundToDouble a b

/-- The product `x * k` of a number and a whole number. -/
def fmul (x : Binary64) (k : Nat) : Binary64 :=
  roundToDouble (x.num * k) x.den

/-- The call `Math.round(x)`: the integer `⌊x + 1/2⌋`. -/
def mathRound (x : Binary64) : Nat :=
  (2 * x.num + x.den) / (2 * x.den)

/-! ## Adherence tracker (`updateAdherenceTracker`, `getDailyExpectedDoses`) -/

/-- An entry of the adherence log as the route `/api/adherence/:prescriptionId`
returns it. -/
structure TakenEvent where
  prescriptionId : String
  medicine : Option String
  scheduledTime : Option String
  takenAt : Int
  deriving DecidableEq

/-- The part of `this.currentAnalysis` the tracker reads: `timestamp` and
`explanation.reminders`. -/
structure Analysis where
  timestamp : Option Int
  reminders : Option (List Reminder)
  deriving DecidableEq

/-- The method `getDailyExpectedDoses`:
`if (!reminders) return 1;
 total = reminders.reduce((sum, r) => sum + (r.times ? r.times.length : 1), 0);
 return Math.max(total, 1)`. -/
def getDailyExpectedDoses (analysis : Option Analysis) : Nat :=
  match analysis.bind Analysis.reminders with
  | none => 1
  | some reminders =>
    let total := reminders.foldl (fun sum reminder =>
      sum + (match reminder.times with
        | some times => times.length
        | none => 1)) 0
    max total 1

/-- The call `d.setHours(0, 0, 0, 0)`: the local midnight that starts the day of `t`.
The dates of the tracker lie within a week of the clock or are stored
timestamps, far from the ends of the range of `Date`, where `TimeClip` changes
nothing. -/
def startOfDay (tz t : Int) : Int :=
  localDay tz t * msPerDay - tz

/-- The call `d.toDateString()`: a text that names the local calendar day of `d`; two
such texts are equal exactly when the days are, so the day stands for the text. -/
def toDateString (tz t : Int) : Int :=
  localDay tz t

/-- One dot of the seven-day strip. -/
structure DayCell where
  date : Int
  isValidDay : Bool
  dayTakenCount : Nat
  deriving DecidableEq

/-- The variables the loop of the tracker updates. -/
structure Tally where
  totalTaken : Nat
  totalExpected : Nat
  validDaysCount : Nat
  cells : List DayCell
  deriving DecidableEq

/-- The body of the loop for the day `i` days before today. -/
def adherenceStep (tz now prescriptionDate today : Int) (dailyExpectedDoses : Nat)
    (adherenceData : List TakenEvent) (i : Nat) (st : Tally) : Tally :=
  let date := startOfDay tz (now - (i : Int) * msPerDay)
  let dateStr := toDateString tz date
  let isValidDay := decide (date ≥ prescriptionDate) && decide (date ≤ today)
  let dayTakenCount :=
    (adherenceData.filter fun entry => toDateString tz entry.takenAt == dateStr).length
  let st1 : Tally :=
    if isValidDay then
      { st with
        validDaysCount := st.validDaysCount + 1
        totalExpected := st.totalExpected + dailyExpectedDoses
        totalTaken := st.totalTaken + dayTakenCount }
    else st
  { st1 with cells := st1.cells ++ [⟨date, isValidDay, dayTakenCount⟩] }

/-- The loop `for (let i = start; i >= 0; i--) body(i)`. -/
def adherenceLoop (tz now prescriptionDate today : Int) (dailyExpectedDoses : Nat)
    (adherenceData : List TakenEvent) : Nat → Tally → Tally
  | 0, st => adherenceStep tz now prescriptionDate today dailyExpectedDoses adherenceData 0 st
  | i + 1, st =>
    adherenceLoop tz now prescriptionDate today dailyExpectedDoses adherenceData i
      (adherenceStep tz now prescriptionDate today dailyExpectedDoses adherenceData (i + 1) st)

/-- The rate computed after the loop:
`rate = 0; if (totalExpected > 0) rate = Math.round((totalTaken / totalExpected) * 100);
 rate = Math.min(rate, 100)` (the two other branches also leave `0`). -/
def adherenceRate (totalTaken totalExpected validDaysCount : Nat) : Nat :=
  let rate :=
    if totalExpected > 0 then mathRound (fmul (fdiv totalTaken totalExpected) 100)
    else if validDaysCount = 0 then 0
    else 0
  min rate 100

/-- Whether the day `i` days before today counts: `isValidDay` of the loop. -/
def windowValid (tz now prescriptionDate today : Int) (i : Nat) : Bool :=
  decide (startOfDay tz (now - (i : Int) * msPerDay) ≥ prescriptionDate) &&
    decide (startOfDay tz (now - (i : Int) * msPerDay) ≤ today)

/-- The entries taken on the day `i` days before today: `dayTakenCount` of the loop. -/
def windowTaken (tz now : Int) (adherenceData : List TakenEvent) (i : Nat) : Nat :=
  (adherenceData.filter fun entry =>
    toDateString tz entry.takenAt ==
      toDateString tz (startOfDay tz (now - (i : Int) * msPerDay))).length

/-- The same analysis with the duration of every reminder replaced. -/
def Analysis.withDurations (f : Reminder → Option String) (a : Analysis) : Analysis :=
  { a with reminders := a.reminders.map fun rs => rs.map fun r => { r with duration := f r } }

/-- The instant the tracker takes as the start of the prescription:
`this.currentAnalysis?.timestamp || Date.now()`. -/
def prescriptionStart (now : Int) (analysis : Option Analysis) : Int :=
  (analysis.bind Analysis.timestamp).getD now

/-- What `updateAdherenceTracker` computes: the totals, the seven dots and the
rate shown as the adherence score. -/
structure Adherence where
  totalTaken : Nat
  totalExpected : Nat
  validDaysCount : Nat
  cells : List DayCell
  adherenceRate : Nat
  deriving DecidableEq

/-- The method `updateAdherenceTracker(adherenceData)` with the host's zone `tz`, the clock
`now` and `this.currentAnalysis`. -/
def updateAdherenceTracker (tz now : Int) (analysis : Option Analysis)
    (adherenceData : List TakenEvent) : Adherence :=
  let dailyExpectedDoses := getDailyExpectedDoses analysis
  let prescriptionDate := startOfDay tz (prescriptionStart now analysis)
  let today := startOfDay tz now
  let st := adherenceLoop tz now prescriptionDate today dailyExpectedDoses adherenceData 6
    ⟨0, 0, 0, []⟩
  { totalTaken := st.totalTaken
    totalExpected := st.totalExpected
    validDaysCount := st.validDaysCount
    cells := st.cells
    adherenceRate := adherenceRate st.totalTaken st.totalExpected st.validDaysCount }

/-- The exact rate the specification words: `100 × taken / expected` rounded to
the nearest integer, halves up, and at most 100. -/
def exactRate (totalTaken totalExpected : Nat) : Nat :=
  min ((200 * totalTaken + totalExpected) / (2 * totalExpected)) 100

/-- A log of 23 doses over five days: five on each of the last three days, four
on each of the two days before. -/
def log23 : List TakenEvent :=
  List.replicate 5 ⟨"p1", some "Paracetamol", some "08:00", 1700000000000⟩ ++
  List.replicate 5 ⟨"p1", some "Paracetamol", some "08:00", 1700000000000 - 86400000⟩ ++
  List.replicate 5 ⟨"p1", some "Paracetamol", some "08:00", 1700000000000 - 2 * 86400000⟩ ++
  List.replicate 4 ⟨"p1", some "Paracetamol", some "08:00", 1700000000000 - 3 * 86400000⟩ ++
  List.replicate 4 ⟨"p1", some "Paracetamol", some "08:00", 1700000000000 - 4 * 86400000⟩

/-- An analysis made four days before the instant `1700000000000`, with four
reminders of two times each: eight doses a day. -/
def eightADay : Analysis :=
  { timestamp := some (1700000000000 - 4 * 86400000)
    reminders := some (List.replicate 4 ⟨some "Paracetamol", some ["08:00", "20:00"], true, some "5"⟩) }

/-- An analysis made at the instant `1700000000000` with one reminder of two times. -/
def startsToday : Analysis :=
  { timestamp := some 1700000000000
    reminders := some [⟨some "Paracetamol", some ["08:00", "20:00"], true, some "5"⟩] }

/-- A reminder list in which one reminder has no times list. -/
def oneWithoutTimes : Analysis :=
  { timestamp := none
    reminders := some [⟨some "Ibuprofen", none, false, some "3"⟩,
      ⟨some "Paracetamol", some ["08:00", "20:00"], true, some "5"⟩] }

/-- The events of a reply; an error reply carries none. -/
def Response.events {α : Type} (r : Response (List α)) : List α :=
  match r with
  | .ok body => body
  | .error _ _ => []

/-- A prescription of one medicine taken at two clock times for two days. -/
def twoByTwo : Prescription :=
  ⟨"p1", [⟨some "Paracetamol", some ["08:00", "20:00"], true, some "2"⟩]⟩

/-- A prescription whose single reminder gives a phrase instead of a clock time. -/
def asNeeded : Prescription :=
  ⟨"p2", [⟨some "Ibuprofen", some ["as needed"], false, some "7"⟩]⟩

/-! ## Time slots of the today view (`convertToTimeFormat`) -/

/-- A value `convertToTimeFormat` can return: a string, or one of the two
objects that the lookup `timeMap[key]` finds on the prototype of the object
literal `timeMap` under an all-lower-case key. -/
inductive TimeFormat where
  | text (s : String)
  | objectConstructor
  | objectPrototype
  deriving DecidableEq

/-- The lookup `timeMap[key]` for a lower-cased key: the four own properties of
the literal, and the properties `constructor` and `__proto__` it inherits from
`Object.prototype` (the other inherited names contain a capital letter, which a
lower-cased key never does); `none` is `undefined`. -/
def timeMapLookup (key : String) : Option TimeFormat :=
  if key = "morning" then some (.text "08:00")
  else if key = "afternoon" then some (.text "14:00")
  else if key = "evening" then some (.text "18:00")
  else if key = "night" then some (.text "20:00")
  else if key = "constructor" then some .objectConstructor
  else if key = "__proto__" then some .objectPrototype
  else none

/-- The method `convertToTimeFormat(time)`:
`if (!time) return '08:00'; if (time.includes(':')) return time;
 return timeMap[time.toLowerCase()] || time`.  Every value found by the lookup
is truthy. -/
def convertToTimeFormat (time : Option String) : TimeFormat :=
  match time with
  | none => .text "08:00"
  | some t =>
    if t = "" then .text "08:00"
    else if includes t ":" then .text t
    else
      match timeMapLookup (toLowerCase t) with
      | some v => v
      | none => .text t

/-- The UID of a component as a text made of the prescription id and the three
loop variables. -/
def uidOf (id : String) (k : Nat × Nat × Nat) : String :=
  id ++ "-" ++ toString k.1 ++ "-" ++ toString k.2.1 ++ "-" ++ toString k.2.2 ++ "@medimind.com"

/-- A prescription whose single reminder names a time slot. -/
def namedSlot : Prescription :=
  ⟨"p3", [⟨some "Ibuprofen", some ["morning"], false, some "7"⟩]⟩

/-- A prescription whose single reminder has the duration 0. -/
def zeroDuration : Prescription :=
  ⟨"p4", [⟨some "Cetirizine", some ["08:00"], false, some "0"⟩]⟩

/-- A stored prescription without reminders. -/
def noReminders : Prescription :=
  ⟨"p5", []⟩

/-- The first component of the document of `twoByTwo` generated at the instant
`1700000000000` in the zone UTC. -/
def firstComponent : VEvent where
  uid := "p1-0-0-0@medimind.com"
  reminderIndex := 0
  timeIndex := 0
  dayIndex := 0
  dtstamp := 1700000000000
  dtstart := 1699948800000
  dtend := 1699949700000
  summary := "💊 Take Paracetamol"
  description := "Medication: Paracetamol\nDosage: Take as prescribed\nWith food: Yes\nDay 1 of 2"
  alarmTrigger := "-PT15M"
  alarmDescription := "Time to take Paracetamol"

/-! ## Labels of the today view and of the medication list -/

/-- The label of a reminder in `displayReminders`:
`reminder.medicine || 'Unknown Medicine'`; an empty name is falsy too. -/
def reminderLabel (reminder : Reminder) : String :=
  match reminder.medicine with
  | none => "Unknown Medicine"
  | some name => if name = "" then "Unknown Medicine" else name

/-- The heading of a medication in `displayMedications`: `med.name || 'Medication'`. -/
def medicationLabel (med : MedicationRecord) : String :=
  match med.name with
  | none => "Medication"
  | some name => if name = "" then "Medication" else name

/-- Whether a text is a 24-hour clock time `HH:MM`: two digits, a colon, two
digits, the hour below 24 and the minute below 60. -/
def isClockTime (s : String) : Bool :=
  match s.toList with
  | [a, b, ':', c, d] =>
    isDigit a && isDigit b && isDigit c && isDigit d &&
      decide ((a.toNat - 48) * 10 + (b.toNat - 48) < 24) &&
      decide ((c.toNat - 48) * 10 + (d.toNat - 48) < 60)
  | _ => false

/-- The number a run of decimal digits denotes. -/
def decimalValue (cs : List Char) : Nat :=
  cs.foldl (fun acc c => acc * 10 + (c.toNat - 48)) 0

/-- Whether a text starts with an integer as `parseInt` looks for one: after
leading white space and one optional sign comes a decimal digit. -/
def startsWithInteger (cs : List Char) : Bool :=
  match cs.dropWhile isJsWhiteSpace with
  | '-' :: rest => rest.head?.any isDigit
  | '+' :: rest => rest.head?.any isDigit
  | rest => rest.head?.any isDigit

/-- A medication record without a name. -/
def unnamed : MedicationRecord :=
  ⟨none, some "500 mg", some "twice daily", some "5 days", some "after food"⟩

/-! ## Clock labels and notifications of the today view
(`formatTime`, `scheduleNotification`) -/

/-- The conversion `String(v)` of a value `convertToTimeFormat` returns: a string is
itself, the constructor `Object` prints as its source text and the prototype
object as `[object Object]`. -/
def timeFormatToString : TimeFormat → String
  | .text s => s
  | .objectConstructor => "function Object() \x7b [native code] \x7d"
  | .objectPrototype => "[object Object]"

/-- The method `formatTime(time24)`:
`if (!time24) return '8:00 AM';
 [hours, minutes] = String(this.convertToTimeFormat(time24)).split(':');
 if (!hours || !minutes) return '8:00 AM';
 hour = parseInt(hours); ampm = hour >= 12 ? 'PM' : 'AM'; hour12 = hour % 12 || 12`
and the text `hour12:minutes ampm`.  The remainder `%` takes the sign of `hour`;
with `NaN` the comparison is false and the remainder is `NaN`, which is falsy. -/
def formatTime (time24 : Option String) : String :=
  match time24 with
  | none => "8:00 AM"
  | some t =>
    if t = "" then "8:00 AM"
    else
      let hm := splitHoursMinutes (timeFormatToString (convertToTimeFormat (some t)))
      match hm.1, hm.2 with
      | some hours, some minutes =>
        if hours = "" ∨ minutes = "" then "8:00 AM"
        else
          let hour := parseInt (some hours)
          let ampm :=
            match hour with
            | some h => if h ≥ 12 then "PM" else "AM"
            | none => "AM"
          let hour12 : Int :=
            match hour with
            | some h => if h.tmod 12 = 0 then 12 else h.tmod 12
            | none => 12
          toString hour12 ++ ":" ++ minutes ++ " " ++ ampm
      | _, _ => "8:00 AM"

/-- The method `scheduleNotification(medicine, time)` up to the delay handed to
`setTimeout`: `none` when the method returns at once (notifications are off or
the browser has none), otherwise the delay `timeUntilNotification`, itself
`none` when it is `NaN`.
`notificationTime.setHours(parseInt(hours), parseInt(minutes), 0, 0);
 if (notificationTime <= now) notificationTime.setDate(notificationTime.getDate() + 1);
 timeUntilNotification = notificationTime.getTime() - now.getTime()`. -/
def scheduleNotification (notificationsEnabled : Bool) (tz now : Int) (time : String) :
    Option (Option Int) :=
  if !notificationsEnabled then none
  else
    let hm := splitHoursMinutes time
    let notificationTime := setHours tz (some now) (parseInt hm.1) (parseInt hm.2)
    let notificationTime :=
      match notificationTime with
      | some t => if t ≤ now then addDays (some t) 1 else some t
      | none => none
    some (notificationTime.map fun t => t - now)

/-! ## Access to stored records
(`authenticateToken`, `GET /api/prescriptions/:id`, `POST /api/cleanup-all`) -/

/-- The call `s.split(' ')` on characters: the pieces between spaces. -/
def splitSpace : List Char → List (List Char)
  | [] => [[]]
  | c :: cs =>
    match splitSpace cs with
    | [] => [[]]
    | p :: ps => if c = ' ' then [] :: p :: ps else (c :: p) :: ps

/-- The middleware `authenticateToken`, applied to every route under `/api`: the
value it leaves in `req.user`, as the id of the user, `none` for `null`.
`token = authHeader && authHeader.split(' ')[1];
 if (!token) { req.user = null; return next(); }
 jwt.verify(token, secret, (err, user) => { req.user = err ? null : user; next(); })`.
The function `verify` stands for `jwt.verify`: the id in the payload of a token
it accepts (the server signs `{ id: user._id }`), `none` for a token it rejects.
The request always goes on to the route. -/
def authenticateToken (verify : String → Option String) (authorization : Option String) :
    Option String :=
  match authorization with
  | none => none
  | some authHeader =>
    if authHeader = "" then none
    else
      match (splitSpace authHeader.toList)[1]? with
      | none => none
      | some token => if token = [] then none else verify (String.mk token)

/-- A stored prescription with the path `userId` of the schema, which has no
default and may be missing. -/
structure StoredPrescription where
  userId : Option String
  prescription : Prescription
  deriving DecidableEq

/-- The route `GET /api/prescriptions/:id` with `req.user` and the result of
`Prescription.findById(req.params.id)`:
`if (!prescription) return res.status(404).json(...);
 if (req.user && prescription.userId && prescription.userId.toString() !== req.user.id)
   return res.status(403).json({ error: 'Access denied' });
 res.json(prescription)`. -/
def getPrescription (user : Option String) (found : Option StoredPrescription) :
    Response StoredPrescription :=
  match found with
  | none => .error 404 "Prescription not found"
  | some prescription =>
    if user.isSome && prescription.userId.isSome && decide (prescription.userId ≠ user) then
      .error 403 "Access denied"
    else .ok prescription

/-- The two collections the clean-up route empties. -/
structure Database where
  prescriptions : List StoredPrescription
  adherence : List TakenEvent
  deriving DecidableEq

/-- The body of the reply of the clean-up route. -/
structure CleanupReport where
  success : Bool
  deletedPrescriptions : Nat
  deletedAdherence : Nat
  deriving DecidableEq

/-- The route `POST /api/cleanup-all` with `req.user` and the database before the
request; the result is the database after it and the reply.
`result = await Prescription.deleteMany({});
 adherenceResult = await Adherence.deleteMany({});
 res.json({ success: true, deletedPrescriptions: result.deletedCount,
            deletedAdherence: adherenceResult.deletedCount })`.
The handler never reads `req.user`. -/
def cleanupAll (_user : Option String) (db : Database) : Database × Response CleanupReport :=
  ({ prescriptions := [], adherence := [] },
    .ok ⟨true, db.prescriptions.length, db.adherence.length⟩)

/-- A verifier that knows one token, issued to the user `u2`. -/
def verifyOne (token : String) : Option String :=
  if token = "token-of-u2" then some "u2" else none

/-- A database with one prescription of the user `u1` and a log of 23 doses. -/
def oneOwner : Database :=
  { prescriptions := [⟨some "u1", twoByTwo⟩], adherence := log23 }

/-! # Theorems -/

/-! ## Loops as traversals -/

theorem traverse_append {α β : Type} (f : α → Except String β) (xs ys : List α) :
    traverse f (xs ++ ys) =
      match traverse f xs with
      | .error e => .error e
      | .ok as =>
        match traverse f ys with
        | .error e => .error e
        | .ok bs => .ok (as ++ bs) := by
  induction xs with
  | nil => simp only [List.nil_append, traverse]; cases traverse f ys <;> simp
  | cons x xs ih =>
    rw [List.cons_append]
    simp only [traverse]
    rw [ih]
    cases f x <;> cases traverse f xs <;> cases traverse f ys <;> simp

theorem traverse_map {α β γ : Type} (f : β → Except String γ) (h : α → β) (xs : List α) :
    traverse f (xs.map h) = traverse (fun x => f (h x)) xs := by
  induction xs with
  | nil => rfl
  | cons x xs ih => simp only [List.map_cons, traverse, ih]

theorem traverse_flatMap {α β γ : Type} (f : β → Except String γ) (h : α → List β)
    (xs : List α) :
    (traverse (fun x => traverse f (h x)) xs).map List.flatten = traverse f (xs.flatMap h) := by
  induction xs with
  | nil => rfl
  | cons x xs ih =>
    simp only [List.flatMap_cons, traverse, traverse_append, ← ih]
    cases traverse f (h x) with
    | error e => rfl
    | ok as =>
      cases traverse (fun x => traverse f (h x)) xs with
      | error e => rfl
      | ok bs => simp [Except.map]

theorem forLoop_push {β : Type} (f : Nat → Except String β) (k i : Nat) (s : List β) :
    forLoop (fun i s =>
        match f i with
        | .error e => .error e
        | .ok y => .ok (s ++ [y])) k i s
      = (traverse f (List.range' i k)).map fun ys => s ++ ys := by
  induction k generalizing i s with
  | zero => simp [forLoop, traverse, Except.map]
  | succ k ih =>
    simp only [forLoop, List.range', traverse]
    cases f i with
    | error e => rfl
    | ok y =>
      simp only [ih]
      cases traverse f (List.range' (i + 1) k) <;> simp [Except.map]

theorem forEachIdx_append {α β : Type} (body : α → Nat → List β → Except String (List β))
    (g : α → Nat → Except String (List β))
    (hbody : ∀ x j s, body x j s = (g x j).map fun ys => s ++ ys)
    (xs : List α) (j : Nat) (s : List β) :
    forEachIdx body xs j s
      = (traverse (fun jx : Nat × α => g jx.2 jx.1) (xs.enumFrom j)).map
          fun yss => s ++ yss.flatten := by
  induction xs generalizing j s with
  | nil => simp [forEachIdx, traverse, Except.map]
  | cons x xs ih =>
    simp only [forEachIdx, List.enumFrom, traverse, hbody]
    cases g x j with
    | error e => rfl
    | ok ys =>
      simp only [Except.map, ih]
      cases traverse (fun jx : Nat × α => g jx.2 jx.1) (xs.enumFrom (j + 1)) <;>
        simp [Except.map]

theorem forEach_eq_forEachIdx {α σ : Type} (body : α → σ → Except String σ)
    (xs : List α) (j : Nat) (s : σ) :
    forEach body xs s = forEachIdx (fun x _ s => body x s) xs j s := by
  induction xs generalizing j s with
  | nil => rfl
  | cons x xs ih =>
    simp only [forEach, forEachIdx]
    cases body x s with
    | error e => rfl
    | ok s1 => exact ih (j + 1) s1

/-- The download route runs the component builder over the passes in loop order. -/
theorem downloadEvents_eq_traverse (now tz : Int) (p : Prescription) :
    downloadEvents now tz p = traverse (Occurrence.vevent p.id now tz) (occurrences p) := by
  unfold downloadEvents occurrences
  rw [forEachIdx_append _ (fun r ri =>
    traverse (Occurrence.vevent p.id now tz)
      (match r.times with
       | none => []
       | some times =>
         (times.enumFrom 0).flatMap fun it =>
           (List.range' 0 (dayCount r.duration).toNat).map fun i =>
             { reminderIndex := ri, reminder := r, timeIndex := it.1, time := it.2,
               dayIndex := i }))]
  · rw [← traverse_flatMap]
    cases traverse _ (p.reminders.enumFrom 0) <;> simp [Except.map]
  · intro r ri s
    cases hts : r.times with
    | none => simp [traverse, Except.map]
    | some times =>
      simp only
      rw [forEachIdx_append _ (fun t ti =>
        traverse (Occurrence.vevent p.id now tz)
          ((List.range' 0 (dayCount r.duration).toNat).map fun i =>
            { reminderIndex := ri, reminder := r, timeIndex := ti, time := t, dayIndex := i }))]
      · rw [← traverse_flatMap]
        cases traverse _ (times.enumFrom 0) <;> simp [Except.map]
      · intro t ti s1
        rw [traverse_map]
        simp only [Occurrence.vevent]
        refine Eq.trans ?_ (forLoop_push
          (fun i => buildVEvent p.id now tz r ri t ti (dayCount r.duration) i)
          (dayCount r.duration).toNat 0 s1)
        congr 1
        funext i ics
        cases buildVEvent p.id now tz r ri t ti (dayCount r.duration) i <;> rfl

/-- The JSON route runs the event builder over the passes in loop order. -/
theorem jsonEvents_eq_traverse (now tz : Int) (p : Prescription) :
    jsonEvents now tz p = traverse (Occurrence.calendarEvent now tz) (occurrences p) := by
  unfold jsonEvents occurrences
  rw [forEach_eq_forEachIdx _ _ 0, forEachIdx_append _ (fun r ri =>
    traverse (Occurrence.calendarEvent now tz)
      (match r.times with
       | none => []
       | some times =>
         (times.enumFrom 0).flatMap fun it =>
           (List.range' 0 (dayCount r.duration).toNat).map fun i =>
             { reminderIndex := ri, reminder := r, timeIndex := it.1, time := it.2,
               dayIndex := i }))]
  · rw [← traverse_flatMap]
    cases traverse _ (p.reminders.enumFrom 0) <;> simp [Except.map]
  · intro r ri s
    cases hts : r.times with
    | none => simp [traverse, Except.map]
    | some times =>
      simp only
      rw [forEach_eq_forEachIdx _ _ 0, forEachIdx_append _ (fun t ti =>
        traverse (Occurrence.calendarEvent now tz)
          ((List.range' 0 (dayCount r.duration).toNat).map fun i =>
            { reminderIndex := ri, reminder := r, timeIndex := ti, time := t, dayIndex := i }))]
      · rw [← traverse_flatMap]
        cases traverse _ (times.enumFrom 0) <;> simp [Except.map]
      · intro t ti s1
        rw [traverse_map]
        simp only [Occurrence.calendarEvent]
        refine Eq.trans ?_ (forLoop_push
          (fun i => buildCalendarEvent now tz r t (dayCount r.duration) i)
          (dayCount r.duration).toNat 0 s1)
        congr 1
        funext i events
        cases buildCalendarEvent now tz r t (dayCount r.duration) i <;> rfl


/-! ## Results of a traversal -/

theorem traverse_forall₂ {α β : Type} (f : α → Except String β) :
    ∀ (xs : List α) (ys : List β), traverse f xs = .ok ys →
      List.Forall₂ (fun x y => f x = .ok y) xs ys
  | [], ys, h => by
    simp only [traverse, Except.ok.injEq] at h
    subst h
    exact List.Forall₂.nil
  | x :: xs, ys, h => by
    simp only [traverse] at h
    cases hx : f x with
    | error e => rw [hx] at h; cases h
    | ok y =>
      rw [hx] at h
      cases hxs : traverse f xs with
      | error e => rw [hxs] at h; cases h
      | ok ys1 =>
        rw [hxs] at h
        simp only [Except.ok.injEq] at h
        subst h
        exact List.Forall₂.cons hx (traverse_forall₂ f xs ys1 hxs)

theorem traverse_ok_of_forall {α β : Type} (f : α → Except String β) (xs : List α)
    (h : ∀ x ∈ xs, ∃ y, f x = .ok y) : ∃ ys, traverse f xs = .ok ys := by
  induction xs with
  | nil => exact ⟨[], rfl⟩
  | cons x xs ih =>
    obtain ⟨y, hy⟩ := h x (List.mem_cons_self x xs)
    obtain ⟨ys, hys⟩ := ih fun z hz => h z (List.mem_cons_of_mem x hz)
    exact ⟨y :: ys, by simp only [traverse, hy, hys]⟩

theorem traverse_length {α β : Type} (f : α → Except String β) (xs : List α) (ys : List β)
    (h : traverse f xs = .ok ys) : ys.length = xs.length :=
  (traverse_forall₂ f xs ys h).length_eq.symm

/-! ## The passes of the loops -/

theorem length_flatMap_enumFrom {α β : Type} (F : Nat × α → List β) (G : α → Nat)
    (h : ∀ ix, (F ix).length = G ix.2) (l : List α) (n : Nat) :
    ((l.enumFrom n).flatMap F).length = (l.map G).sum := by
  induction l generalizing n with
  | nil => rfl
  | cons x xs ih =>
    simp only [List.enumFrom, List.flatMap_cons, List.length_append, List.map_cons,
      List.sum_cons, ih, h]

theorem sum_map_const_nat {α : Type} (l : List α) (d : Nat) :
    (l.map fun _ => d).sum = d * l.length := by
  induction l with
  | nil => simp
  | cons x xs ih => simp only [List.map_cons, List.sum_cons, ih, List.length_cons]; ring

/-- The number of passes: for each reminder, its day count times its number of times. -/
theorem occurrences_length (p : Prescription) :
    (occurrences p).length =
      (p.reminders.map fun r => (dayCount r.duration).toNat * (r.times.getD []).length).sum := by
  unfold occurrences
  apply length_flatMap_enumFrom
  intro ix
  cases hts : ix.2.times with
  | none => simp
  | some times =>
    simp only [Option.getD_some]
    rw [length_flatMap_enumFrom _ (fun _ => (dayCount ix.2.duration).toNat)]
    · exact sum_map_const_nat _ _
    · intro it
      simp

/-- Every pass belongs to a reminder of the prescription, a time of that reminder
and a day below its day count. -/
theorem mem_occurrences (p : Prescription) (o : Occurrence) (h : o ∈ occurrences p) :
    o.reminder ∈ p.reminders ∧ ∃ ts, o.reminder.times = some ts ∧ o.time ∈ ts ∧
      o.dayIndex < (dayCount o.reminder.duration).toNat := by
  unfold occurrences at h
  rw [List.mem_flatMap] at h
  obtain ⟨ir, hir, ho⟩ := h
  have hr := List.snd_mem_of_mem_enumFrom hir
  cases hts : ir.2.times with
  | none => rw [hts] at ho; cases ho
  | some times =>
    rw [hts] at ho
    simp only [List.mem_flatMap, List.mem_map, List.mem_range'_1] at ho
    obtain ⟨it, hit, i, hi, rfl⟩ := ho
    refine ⟨hr, times, hts, List.snd_mem_of_mem_enumFrom hit, ?_⟩
    show i < (dayCount ir.2.duration).toNat
    omega

theorem pairwise_fst_enumFrom {α : Type} (l : List α) (n : Nat) :
    (l.enumFrom n).Pairwise fun a b => a.1 < b.1 := by
  have h := List.pairwise_lt_range' n l.length
  rw [← List.enumFrom_map_fst, List.pairwise_map] at h
  exact h

/-- The passes are listed in strictly increasing loop order. -/
theorem occurrences_pairwise (p : Prescription) :
    (occurrences p).Pairwise fun a b => loopOrder a.key b.key := by
  unfold occurrences
  rw [List.pairwise_flatMap]
  constructor
  · intro ir _
    cases hts : ir.2.times with
    | none => exact List.Pairwise.nil
    | some times =>
      simp only
      rw [List.pairwise_flatMap]
      constructor
      · intro it _
        rw [List.pairwise_map]
        refine (List.pairwise_lt_range' 0 _).imp ?_
        intro a b hab
        exact Or.inr ⟨rfl, Or.inr ⟨rfl, hab⟩⟩
      · refine (pairwise_fst_enumFrom times 0).imp ?_
        intro a b hab x hx y hy
        simp only [List.mem_map] at hx hy
        obtain ⟨i, _, rfl⟩ := hx
        obtain ⟨j, _, rfl⟩ := hy
        exact Or.inr ⟨rfl, Or.inl hab⟩
  · refine (pairwise_fst_enumFrom p.reminders 0).imp ?_
    intro a b hab x hx y hy
    have hxa : x.reminderIndex = a.1 := by
      cases hts : a.2.times with
      | none => rw [hts] at hx; cases hx
      | some times =>
        rw [hts] at hx
        simp only [List.mem_flatMap, List.mem_map] at hx
        obtain ⟨_, _, _, _, rfl⟩ := hx
        rfl
    have hyb : y.reminderIndex = b.1 := by
      cases hts : b.2.times with
      | none => rw [hts] at hy; cases hy
      | some times =>
        rw [hts] at hy
        simp only [List.mem_flatMap, List.mem_map] at hy
        obtain ⟨_, _, _, _, rfl⟩ := hy
        rfl
    exact Or.inl (by show x.reminderIndex < y.reminderIndex; omega)

/-- A clock time `hours:minutes` is schedulable on each of the first ten million
days from a clock between 1970 and the year 128 000, whatever the zone. -/
theorem schedulable_of_clock (now tz : Int) (time : String) (i : Nat) (h m : Int)
    (hh : parseInt (splitHoursMinutes time).1 = some h)
    (hm : parseInt (splitHoursMinutes time).2 = some m)
    (hh24 : 0 ≤ h ∧ h < 24) (hm60 : 0 ≤ m ∧ m < 60)
    (hnow : 0 ≤ now ∧ now ≤ 4000000000000000) (hi : i ≤ 10000000) :
    schedulable now tz time i = true := by
  unfold schedulable eventDate addDays
  simp only [hh, hm]
  have h1 : timeClip (now + (i : Int) * msPerDay) = some (now + (i : Int) * msPerDay) := by
    unfold timeClip msPerDay
    rw [if_pos (by omega)]
  rw [h1]
  simp only [setHours]
  have h2 : timeClip (localDay tz (now + (i : Int) * msPerDay) * msPerDay +
      (h * 3600000 + m * 60000) - tz) = some (localDay tz (now + (i : Int) * msPerDay) * msPerDay +
      (h * 3600000 + m * 60000) - tz) := by
    unfold timeClip localDay msPerDay
    rw [if_pos (by omega)]
  rw [h2]
  simp only
  unfold timeClip localDay msPerDay
  rw [if_pos (by omega)]
  rfl

/-! ## Building one event -/

theorem buildVEvent_ok (id : String) (now tz : Int) (r : Reminder) (ri : Nat) (t : String)
    (ti : Nat) (d : Int) (i : Nat) (h : schedulable now tz t i = true) :
    ∃ ev, buildVEvent id now tz r ri t ti d i = .ok ev := by
  unfold schedulable at h
  unfold buildVEvent toISOString
  cases hd : eventDate now tz t i with
  | none => rw [hd] at h; cases h
  | some start =>
    rw [hd] at h
    simp only
    cases he : timeClip (start + 15 * 60000) with
    | none => simp only [he] at h; cases h
    | some stop => exact ⟨_, rfl⟩

theorem buildCalendarEvent_ok (now tz : Int) (r : Reminder) (t : String) (d : Int) (i : Nat)
    (h : schedulable now tz t i = true) :
    ∃ ev, buildCalendarEvent now tz r t d i = .ok ev := by
  unfold schedulable at h
  unfold buildCalendarEvent toISOString
  cases hd : eventDate now tz t i with
  | none => rw [hd] at h; cases h
  | some start => exact ⟨_, rfl⟩

theorem buildVEvent_key (id : String) (now tz : Int) (o : Occurrence) (ev : VEvent)
    (h : o.vevent id now tz = .ok ev) : ev.key = o.key := by
  unfold Occurrence.vevent buildVEvent at h
  cases h1 : toISOString (eventDate now tz o.time o.dayIndex) with
  | error e => rw [h1] at h; cases h
  | ok start =>
    rw [h1] at h
    simp only at h
    cases h2 : toISOString (timeClip (start + 15 * 60000)) with
    | error e => rw [h2] at h; cases h
    | ok stop =>
      rw [h2] at h
      simp only [Except.ok.injEq] at h
      subst h
      rfl


theorem map_key_of_forall₂ (id : String) (now tz : Int) (os : List Occurrence)
    (evs : List VEvent) (h : List.Forall₂ (fun o e => o.vevent id now tz = .ok e) os evs) :
    evs.map VEvent.key = os.map Occurrence.key := by
  induction h with
  | nil => rfl
  | cons hab _ ih => simp only [List.map_cons, ih, buildVEvent_key _ _ _ _ _ hab]

/-! ## The loop of the adherence tracker -/

theorem localDay_startOfDay (tz t : Int) : localDay tz (startOfDay tz t) = localDay tz t := by
  unfold startOfDay localDay msPerDay
  omega

theorem localDay_sub_days (tz t : Int) (i : Nat) :
    localDay tz (t - (i : Int) * msPerDay) = localDay tz t - i := by
  unfold localDay msPerDay
  omega

theorem startOfDay_le_iff (tz a b : Int) :
    startOfDay tz a ≤ startOfDay tz b ↔ localDay tz a ≤ localDay tz b := by
  unfold startOfDay msPerDay
  omega

/-- A day of the strip counts exactly when it is not before the day of the start. -/
theorem windowValid_iff (tz now start : Int) (i : Nat) :
    windowValid tz now (startOfDay tz start) (startOfDay tz now) i = true ↔
      localDay tz start ≤ localDay tz now - i := by
  unfold windowValid
  simp only [Bool.and_eq_true, decide_eq_true_eq, ge_iff_le, startOfDay_le_iff,
    localDay_sub_days]
  omega

theorem adherenceStep_eq (tz now pd today : Int) (daily : Nat) (data : List TakenEvent)
    (i : Nat) (st : Tally) :
    adherenceStep tz now pd today daily data i st =
      { totalTaken := st.totalTaken +
          (if windowValid tz now pd today i then windowTaken tz now data i else 0)
        totalExpected := st.totalExpected + (if windowValid tz now pd today i then daily else 0)
        validDaysCount := st.validDaysCount + (if windowValid tz now pd today i then 1 else 0)
        cells := st.cells ++ [⟨startOfDay tz (now - (i : Int) * msPerDay),
          windowValid tz now pd today i, windowTaken tz now data i⟩] } := by
  unfold adherenceStep windowValid windowTaken
  by_cases h1 : startOfDay tz (now - (i : Int) * msPerDay) ≥ pd <;>
    by_cases h2 : startOfDay tz (now - (i : Int) * msPerDay) ≤ today <;>
    simp [h1, h2]

/-- The totals after the loop has run from `n` days ago to today. -/
theorem adherenceLoop_totals (tz now pd today : Int) (daily : Nat) (data : List TakenEvent)
    (n : Nat) (st : Tally) :
    (adherenceLoop tz now pd today daily data n st).validDaysCount =
        st.validDaysCount + (List.range (n + 1)).countP (windowValid tz now pd today) ∧
    (adherenceLoop tz now pd today daily data n st).totalExpected =
        st.totalExpected + daily * (List.range (n + 1)).countP (windowValid tz now pd today) ∧
    (adherenceLoop tz now pd today daily data n st).totalTaken =
        st.totalTaken + (((List.range (n + 1)).filter (windowValid tz now pd today)).map
          (windowTaken tz now data)).sum := by
  induction n generalizing st with
  | zero =>
    have hr : List.range (0 + 1) = [0] := rfl
    simp only [adherenceLoop, adherenceStep_eq, hr,
      List.countP_cons, List.countP_nil, List.filter_cons, List.filter_nil]
    cases windowValid tz now pd today 0 <;> simp
  | succ n ih =>
    have hs := adherenceStep_eq tz now pd today daily data (n + 1) st
    obtain ⟨h1, h2, h3⟩ := ih (adherenceStep tz now pd today daily data (n + 1) st)
    rw [hs] at h1 h2 h3
    simp only [adherenceLoop, hs]
    rw [h1, h2, h3, List.range_succ (n := n + 1)]
    simp only [List.countP_append, List.filter_append, List.map_append, List.sum_append,
      List.countP_cons, List.countP_nil, List.filter_cons, List.filter_nil]
    cases windowValid tz now pd today (n + 1)
    · simp
    · simp only [if_true, List.map_cons, List.map_nil, List.sum_cons, List.sum_nil]
      refine ⟨by omega, by ring, by omega⟩

/-- The number of days of the strip that count, from the days of start and clock. -/
theorem countP_windowValid (tz now start : Int) :
    (((List.range 7).countP (windowValid tz now (startOfDay tz start) (startOfDay tz now))
        : Nat) : Int) = min 7 (max 0 (localDay tz now - localDay tz start + 1)) := by
  have h : ∀ i : Nat, windowValid tz now (startOfDay tz start) (startOfDay tz now) i
      = decide (localDay tz start ≤ localDay tz now - i) := by
    intro i
    rw [Bool.eq_iff_iff, windowValid_iff, decide_eq_true_eq]
  have hr : List.range 7 = [0, 1, 2, 3, 4, 5, 6] := by decide
  simp only [hr, List.countP_cons, List.countP_nil, h, decide_eq_true_eq]
  split_ifs <;> omega

theorem foldl_add_eq_sum {α : Type} (g : α → Nat) (l : List α) (acc : Nat) :
    l.foldl (fun sum x => sum + g x) acc = acc + (l.map g).sum := by
  induction l generalizing acc with
  | nil => simp
  | cons x xs ih => simp only [List.foldl_cons, ih, List.map_cons, List.sum_cons]; omega

theorem getDailyExpectedDoses_withDurations (f : Reminder → Option String)
    (analysis : Option Analysis) :
    getDailyExpectedDoses (analysis.map (Analysis.withDurations f))
      = getDailyExpectedDoses analysis := by
  cases analysis with
  | none => rfl
  | some a =>
    cases hr : a.reminders with
    | none => simp [getDailyExpectedDoses, Analysis.withDurations, hr]
    | some rs =>
      simp only [getDailyExpectedDoses, Analysis.withDurations, hr, Option.map_some',
        Option.some_bind, foldl_add_eq_sum, List.map_map]
      rfl

theorem prescriptionStart_withDurations (f : Reminder → Option String) (now : Int)
    (analysis : Option Analysis) :
    prescriptionStart now (analysis.map (Analysis.withDurations f))
      = prescriptionStart now analysis := by
  cases analysis <;> rfl

/-- The entries of a log with one more entry that were taken on a given day of
the strip. -/
theorem windowTaken_append (tz now : Int) (data : List TakenEvent) (e : TakenEvent) (i : Nat) :
    windowTaken tz now (data ++ [e]) i = windowTaken tz now data i +
      (if localDay tz e.takenAt = localDay tz now - i then 1 else 0) := by
  unfold windowTaken toDateString
  simp only [List.filter_append, List.length_append, localDay_startOfDay, localDay_sub_days,
    List.filter_cons, List.filter_nil, beq_iff_eq]
  split <;> simp

/-- The count of a day of the strip reads the log only through the days of its entries. -/
theorem windowTaken_eq_count (tz now : Int) (data : List TakenEvent) (i : Nat) :
    windowTaken tz now data i =
      (data.map fun e => toDateString tz e.takenAt).count
        (toDateString tz (startOfDay tz (now - (i : Int) * msPerDay))) := by
  unfold windowTaken
  rw [List.count, List.countP_map, List.countP_eq_length_filter]
  rfl

theorem adherenceLoop_congr (tz now pd today : Int) (daily : Nat) (d1 d2 : List TakenEvent)
    (h : ∀ i, windowTaken tz now d1 i = windowTaken tz now d2 i) (n : Nat) (st : Tally) :
    adherenceLoop tz now pd today daily d1 n st = adherenceLoop tz now pd today daily d2 n st := by
  induction n generalizing st with
  | zero => simp only [adherenceLoop, adherenceStep_eq, h]
  | succ n ih => simp only [adherenceLoop, adherenceStep_eq, h, ih]

/-! ## Rounding to binary64 -/

theorem bitLengthAux_zero (fuel : Nat) : bitLengthAux fuel 0 = 0 := by
  cases fuel <;> simp [bitLengthAux]

theorem bitLengthAux_spec : ∀ (fuel n : Nat), 0 < n → n ≤ fuel →
    n < 2 ^ bitLengthAux fuel n ∧ 2 ^ bitLengthAux fuel n ≤ 2 * n
  | 0, n, h0, h1 => by omega
  | fuel + 1, n, h0, h1 => by
    rw [bitLengthAux, if_neg (by omega)]
    by_cases h2 : n / 2 = 0
    · rw [h2, bitLengthAux_zero]
      have : n = 1 := by omega
      subst this
      simp
    · obtain ⟨ih1, ih2⟩ := bitLengthAux_spec fuel (n / 2) (by omega) (by omega)
      rw [pow_succ]
      constructor <;> omega

theorem bitLength_spec (n : Nat) (h : 0 < n) :
    n < 2 ^ bitLength n ∧ 2 ^ bitLength n ≤ 2 * n :=
  bitLengthAux_spec n n h le_rfl

theorem two_zpow_split (e : ℤ) : (2 : ℚ) ^ e = (2 : ℚ) ^ e.toNat / (2 : ℚ) ^ (-e).toNat := by
  rcases le_total 0 e with h | h
  · have h1 : (-e).toNat = 0 := by omega
    rw [h1, pow_zero, div_one]
    conv_lhs => rw [← Int.toNat_of_nonneg h]
    rw [zpow_natCast]
  · have h1 : e.toNat = 0 := by omega
    rw [h1, pow_zero, one_div]
    have h2 : e = -((-e).toNat : ℤ) := by omega
    conv_lhs => rw [h2]
    rw [zpow_neg, zpow_natCast]

theorem roundHalfEven_spec (n d : Nat) (hd : 0 < d) :
    2 * roundHalfEven n d * d ≤ 2 * n + d ∧ 2 * n ≤ 2 * roundHalfEven n d * d + d := by
  have h1 := Nat.div_add_mod n d
  have h2 := Nat.mod_lt n hd
  have e1 : 2 * (n / d) * d = 2 * (d * (n / d)) := by ring
  have e2 : 2 * (n / d + 1) * d = 2 * (d * (n / d)) + 2 * d := by ring
  unfold roundHalfEven
  simp only
  split_ifs <;> simp only [e1, e2] <;> constructor <;> omega

theorem floorLog2_cond (n d : Nat) (hd : 0 < d) (s : ℤ) :
    d * 2 ^ s.toNat ≤ n * 2 ^ (-s).toNat ↔ (2 : ℚ) ^ s ≤ (n : ℚ) / d := by
  have hdq : (0 : ℚ) < d := by exact_mod_cast hd
  have hA : (0 : ℚ) < 2 ^ (-s).toNat := by positivity
  rw [two_zpow_split s, div_le_div_iff₀ hA hdq]
  constructor
  · intro h
    have h1 : ((d * 2 ^ s.toNat : ℕ) : ℚ) ≤ ((n * 2 ^ (-s).toNat : ℕ) : ℚ) := by exact_mod_cast h
    push_cast at h1
    linarith
  · intro h
    have h1 : ((d * 2 ^ s.toNat : ℕ) : ℚ) ≤ ((n * 2 ^ (-s).toNat : ℕ) : ℚ) := by
      push_cast
      linarith
    exact_mod_cast h1

theorem floorLog2_spec (n d : Nat) (hn : 0 < n) (hd : 0 < d) :
    (2 : ℚ) ^ floorLog2 n d ≤ (n : ℚ) / d ∧ (n : ℚ) / d < (2 : ℚ) ^ (floorLog2 n d + 1) := by
  obtain ⟨n1, n2⟩ := bitLength_spec n hn
  obtain ⟨d1, d2⟩ := bitLength_spec d hd
  have hnq : (0 : ℚ) < n := by exact_mod_cast hn
  have hdq : (0 : ℚ) < d := by exact_mod_cast hd
  have n1q : (n : ℚ) < 2 ^ bitLength n := by exact_mod_cast n1
  have n2q : (2 : ℚ) ^ bitLength n ≤ 2 * n := by exact_mod_cast n2
  have d1q : (d : ℚ) < 2 ^ bitLength d := by exact_mod_cast d1
  have d2q : (2 : ℚ) ^ bitLength d ≤ 2 * d := by exact_mod_cast d2
  have hBn : (0 : ℚ) < 2 ^ bitLength n := by positivity
  have hBd : (0 : ℚ) < 2 ^ bitLength d := by positivity
  have hs : (2 : ℚ) ^ ((bitLength n : ℤ) - (bitLength d : ℤ))
      = 2 ^ bitLength n / 2 ^ bitLength d := by
    rw [zpow_sub₀ (by norm_num), zpow_natCast, zpow_natCast]
  unfold floorLog2
  simp only
  split_ifs with hc
  · rw [floorLog2_cond n d hd] at hc
    refine ⟨hc, ?_⟩
    rw [zpow_add₀ (by norm_num), hs, zpow_one, div_mul_eq_mul_div, div_lt_div_iff₀ hdq hBd]
    nlinarith
  · rw [floorLog2_cond n d hd, not_le] at hc
    refine ⟨?_, ?_⟩
    · rw [zpow_sub₀ (by norm_num), hs, zpow_one, div_div, div_le_div_iff₀ (by positivity) hdq]
      nlinarith
    · rw [sub_add_cancel]
      exact hc

theorem roundToDouble_bounds (n d : Nat) (hn : 0 < n) (hd : 0 < d) :
    (n : ℚ) / d * (1 - 1 / 2 ^ 53) ≤ (roundToDouble n d).val ∧
    (roundToDouble n d).val ≤ (n : ℚ) / d * (1 + 1 / 2 ^ 53) := by
  obtain ⟨l1, _⟩ := floorLog2_spec n d hn hd
  have hnq : (0 : ℚ) < n := by exact_mod_cast hn
  have hdq : (0 : ℚ) < d := by exact_mod_cast hd
  unfold roundToDouble
  rw [if_neg (by omega)]
  simp only [Binary64.val, Binary64.num, Binary64.den]
  generalize he : floorLog2 n d - 52 = e
  have hL : floorLog2 n d = e + 52 := by omega
  rw [hL, zpow_add₀ (by norm_num), two_zpow_split e] at l1
  have h52 : (2 : ℚ) ^ (52 : ℤ) = 2 ^ (52 : ℕ) := by norm_cast
  rw [h52] at l1
  obtain ⟨r1, r2⟩ := roundHalfEven_spec (n * 2 ^ (-e).toNat) (d * 2 ^ e.toNat) (by positivity)
  generalize roundHalfEven (n * 2 ^ (-e).toNat) (d * 2 ^ e.toNat) = m at r1 r2
  have r1q : (2 : ℚ) * m * (d * 2 ^ e.toNat) ≤ 2 * (n * 2 ^ (-e).toNat) + d * 2 ^ e.toNat := by
    exact_mod_cast r1
  have r2q : (2 : ℚ) * (n * 2 ^ (-e).toNat) ≤ 2 * m * (d * 2 ^ e.toNat) + d * 2 ^ e.toNat := by
    exact_mod_cast r2
  generalize hA : (2 : ℚ) ^ (-e).toNat = A at *
  generalize hB : (2 : ℚ) ^ e.toNat = B at *
  have hApos : 0 < A := by rw [← hA]; positivity
  have hBpos : 0 < B := by rw [← hB]; positivity
  push_cast
  rw [hA, hB]
  have hr : (n : ℚ) = (n : ℚ) / d * d := by field_simp
  generalize (n : ℚ) / d = r at *
  have hrpos : 0 < r := by
    by_contra hneg
    push_neg at hneg
    nlinarith
  have hBA : B / A * 2 ^ 52 ≤ r := l1
  have hBA2 : B * 2 ^ 52 ≤ r * A := by
    rw [div_mul_eq_mul_div, div_le_iff₀ hApos] at hBA
    exact hBA
  rw [hr] at r1q r2q
  have k1 : 2 * (m : ℚ) * B ≤ 2 * r * A + B := by
    have := r1q
    nlinarith
  have k2 : 2 * r * A ≤ 2 * (m : ℚ) * B + B := by
    nlinarith
  constructor
  · rw [le_div_iff₀ hApos]
    nlinarith
  · rw [div_le_iff₀ hApos]
    nlinarith

theorem mathRound_ge_iff (x : Binary64) (K : Nat) :
    K ≤ mathRound x ↔ (K : ℚ) ≤ x.val + 1 / 2 := by
  have hden : 0 < x.den := by unfold Binary64.den; positivity
  have hdq : (0 : ℚ) < x.den := by exact_mod_cast hden
  unfold mathRound Binary64.val
  rw [Nat.le_div_iff_mul_le (by omega), div_add_div _ _ (ne_of_gt hdq) two_ne_zero,
    le_div_iff₀ (by positivity)]
  constructor
  · intro h
    have h1 : ((K * (2 * x.den) : ℕ) : ℚ) ≤ ((2 * x.num + x.den : ℕ) : ℚ) := by exact_mod_cast h
    push_cast at h1
    linarith
  · intro h
    have h1 : ((K * (2 * x.den) : ℕ) : ℚ) ≤ ((2 * x.num + x.den : ℕ) : ℚ) := by
      push_cast
      linarith
    exact_mod_cast h1

theorem mathRound_lt_iff (x : Binary64) (K : Nat) :
    mathRound x < K ↔ x.val + 1 / 2 < (K : ℚ) := by
  rw [← not_le, mathRound_ge_iff, not_le]

/-- The computed product lies within two roundings of the exact `100 × a / b`. -/
theorem product_bounds (a b : Nat) (ha : 0 < a) (hb : 0 < b) :
    (100 : ℚ) * ((a : ℚ) / b) * (1 - 1 / 2 ^ 53) ^ 2 ≤ (fmul (fdiv a b) 100).val ∧
    (fmul (fdiv a b) 100).val ≤ (100 : ℚ) * ((a : ℚ) / b) * (1 + 1 / 2 ^ 53) ^ 2 := by
  obtain ⟨p1, p2⟩ := roundToDouble_bounds a b ha hb
  have haq : (0 : ℚ) < a := by exact_mod_cast ha
  have hbq : (0 : ℚ) < b := by exact_mod_cast hb
  have hr : (0 : ℚ) < (a : ℚ) / b := by positivity
  have hu : (0 : ℚ) < 1 - 1 / 2 ^ 53 := by norm_num
  have hv : 0 < (roundToDouble a b).val := lt_of_lt_of_le (by positivity) p1
  have hden : 0 < (roundToDouble a b).den := by unfold Binary64.den; positivity
  have hnum : 0 < (roundToDouble a b).num := by
    by_contra h
    have h0 : (roundToDouble a b).num = 0 := by omega
    rw [Binary64.val, h0] at hv
    simp at hv
  obtain ⟨q1, q2⟩ := roundToDouble_bounds ((roundToDouble a b).num * 100)
    (roundToDouble a b).den (by positivity) hden
  have hratio : (((roundToDouble a b).num * 100 : ℕ) : ℚ) / (roundToDouble a b).den
      = 100 * (roundToDouble a b).val := by
    unfold Binary64.val
    push_cast
    ring
  rw [hratio] at q1 q2
  unfold fmul fdiv
  generalize (roundToDouble ((roundToDouble a b).num * 100) (roundToDouble a b).den).val = y at *
  generalize (roundToDouble a b).val = x at *
  generalize (a : ℚ) / b = r at *
  generalize hc1 : (1 : ℚ) - 1 / 2 ^ 53 = c1 at *
  generalize hc2 : (1 : ℚ) + 1 / 2 ^ 53 = c2 at *
  have hc2pos : 0 < c2 := by rw [← hc2]; norm_num
  constructor
  · calc 100 * r * c1 ^ 2 = 100 * (r * c1) * c1 := by ring
      _ ≤ 100 * x * c1 := by
        apply mul_le_mul_of_nonneg_right _ hu.le
        linarith
      _ ≤ y := q1
  · calc y ≤ 100 * x * c2 := q2
      _ ≤ 100 * (r * c2) * c2 := by
        apply mul_le_mul_of_nonneg_right _ hc2pos.le
        linarith
      _ = 100 * r * c2 ^ 2 := by ring

/-- With at least as many doses taken as expected the rate is 100. -/
theorem adherenceRate_full (a b v : Nat) (hb : 0 < b) (hab : b ≤ a) :
    adherenceRate a b v = 100 := by
  have ha : 0 < a := by omega
  obtain ⟨p1, _⟩ := product_bounds a b ha hb
  have hbq : (0 : ℚ) < b := by exact_mod_cast hb
  have hq : (1 : ℚ) ≤ (a : ℚ) / b := by
    rw [le_div_iff₀ hbq, one_mul]
    exact_mod_cast hab
  have hc : (199 : ℚ) / 200 ≤ (1 - 1 / 2 ^ 53) ^ 2 := by norm_num
  have h100 : (100 : ℕ) ≤ mathRound (fmul (fdiv a b) 100) := by
    rw [mathRound_ge_iff]
    have h2 : (100 : ℚ) * 1 * (199 / 200) ≤ 100 * ((a : ℚ) / b) * (1 - 1 / 2 ^ 53) ^ 2 := by
      apply mul_le_mul _ hc (by norm_num) (by positivity)
      linarith
    push_cast
    linarith
  unfold adherenceRate
  simp only [gt_iff_lt, hb, if_true]
  exact Nat.min_eq_right h100

/-- With no more doses taken than expected the rate is the exact rate, except
that it may be one less when `100 × a / b` lies halfway between two integers. -/
theorem adherenceRate_near_exact (a b v : Nat) (hb : 0 < b) (hab : a ≤ b) (hbig : b ≤ 2 ^ 43) :
    adherenceRate a b v = exactRate a b ∨
      ((200 * a + b) % (2 * b) = 0 ∧ adherenceRate a b v + 1 = exactRate a b) := by
  have hdm := Nat.div_add_mod (200 * a + b) (2 * b)
  have hmod := Nat.mod_lt (200 * a + b) (show 0 < 2 * b by omega)
  have hK100 : (200 * a + b) / (2 * b) ≤ 100 := by
    have : (200 * a + b) / (2 * b) < 101 := by
      rw [Nat.div_lt_iff_lt_mul (by omega)]
      omega
    omega
  have hexact : exactRate a b = (200 * a + b) / (2 * b) := by
    unfold exactRate
    exact Nat.min_eq_left hK100
  have hrate : adherenceRate a b v = min (mathRound (fmul (fdiv a b) 100)) 100 := by
    unfold adherenceRate
    simp only [gt_iff_lt, hb, if_true]
  rcases Nat.eq_zero_or_pos a with ha0 | ha
  · left
    subst ha0
    have h0 : (0 + b) / (2 * b) = 0 := Nat.div_eq_of_lt (by omega)
    rw [hrate, hexact]
    simp only [Nat.mul_zero, h0]
    have hz : mathRound (fmul (fdiv 0 b) 100) = 0 := by
      simp [fdiv, fmul, roundToDouble, Binary64.num, Binary64.den, mathRound]
    rw [hz]
    rfl
  · obtain ⟨p1, p2⟩ := product_bounds a b ha hb
    have hbq : (0 : ℚ) < b := by exact_mod_cast hb
    have haq : (0 : ℚ) < a := by exact_mod_cast ha
    have hq0 : (0 : ℚ) < (a : ℚ) / b := by positivity
    have hq1 : (a : ℚ) / b ≤ 1 := by
      rw [div_le_iff₀ hbq, one_mul]
      exact_mod_cast hab
    have hc1 : (1 : ℚ) - 2 / 2 ^ 53 ≤ (1 - 1 / 2 ^ 53) ^ 2 := by norm_num
    have hc2 : (1 + 1 / 2 ^ 53 : ℚ) ^ 2 ≤ 1 + 3 / 2 ^ 53 := by norm_num
    obtain ⟨y, hyd⟩ : ∃ y, (fmul (fdiv a b) 100).val = y := ⟨_, rfl⟩
    rw [hyd] at p1 p2
    have hy1 : 100 * ((a : ℚ) / b) - 200 / 2 ^ 53 ≤ y := by
      have h := mul_le_mul_of_nonneg_left hc1 (show (0 : ℚ) ≤ 100 * ((a : ℚ) / b) by positivity)
      nlinarith
    have hy2 : y ≤ 100 * ((a : ℚ) / b) + 300 / 2 ^ 53 := by
      have h := mul_le_mul_of_nonneg_left hc2 (show (0 : ℚ) ≤ 100 * ((a : ℚ) / b) by positivity)
      nlinarith
    have hbq43 : (b : ℚ) ≤ 2 ^ 43 := by exact_mod_cast hbig
    -- the exact value, split into its integer part and the remainder
    have hsplit : 100 * ((a : ℚ) / b) + 1 / 2 =
        ((200 * a + b) / (2 * b) : ℕ) + (((200 * a + b) % (2 * b) : ℕ) : ℚ) / (2 * b) := by
      have h1 : ((2 * b * ((200 * a + b) / (2 * b)) + (200 * a + b) % (2 * b) : ℕ) : ℚ)
          = ((200 * a + b : ℕ) : ℚ) := by exact_mod_cast hdm
      push_cast at h1
      have e1 : 100 * ((a : ℚ) / b) + 1 / 2 = (200 * a + b) / (2 * b) := by
        field_simp
        ring
      have e2 : (((200 * a + b) / (2 * b) : ℕ) : ℚ) + (((200 * a + b) % (2 * b) : ℕ) : ℚ) / (2 * b)
          = (2 * b * (((200 * a + b) / (2 * b) : ℕ) : ℚ) + (((200 * a + b) % (2 * b) : ℕ) : ℚ))
            / (2 * b) := by
        field_simp
        ring
      rw [e1, e2, h1]
    generalize hKdef : (200 * a + b) / (2 * b) = K at *
    generalize hRdef : (200 * a + b) % (2 * b) = R at *
    have hgap : (300 : ℚ) / 2 ^ 53 < 1 / (2 * b) := by
      rw [div_lt_div_iff₀ (by positivity) (by positivity)]
      have : (600 : ℚ) * b ≤ 600 * 2 ^ 43 := by linarith
      norm_num at this ⊢
      linarith
    have hlt : mathRound (fmul (fdiv a b) 100) < K + 1 := by
      rw [mathRound_lt_iff, hyd]
      have hR1 : ((R : ℕ) : ℚ) / (2 * b) ≤ 1 - 1 / (2 * b) := by
        rw [le_sub_iff_add_le, div_add_div_same, div_le_one (by positivity)]
        have : R + 1 ≤ 2 * b := by omega
        exact_mod_cast this
      push_cast
      linarith
    rcases Nat.eq_zero_or_pos R with hR0 | hRpos
    · have hKpos : 0 < K := by
        rcases Nat.eq_zero_or_pos K with hK0 | hK
        · rw [hK0, hR0] at hdm
          omega
        · exact hK
      have hge : K - 1 ≤ mathRound (fmul (fdiv a b) 100) := by
        rw [mathRound_ge_iff, hyd]
        rw [hR0] at hsplit
        have hcast : ((K - 1 : ℕ) : ℚ) = (K : ℚ) - 1 := by
          rw [Nat.cast_sub hKpos]
          simp
        rw [hcast]
        have : (0 : ℚ) < 1 / (2 * b) := by positivity
        simp only [Nat.cast_zero, zero_div, add_zero] at hsplit
        linarith
      rcases Nat.lt_or_ge (mathRound (fmul (fdiv a b) 100)) K with hlow | hhigh
      · right
        refine ⟨hR0, ?_⟩
        rw [hrate, hexact]
        have : mathRound (fmul (fdiv a b) 100) = K - 1 := by omega
        rw [this]
        omega
      · left
        rw [hrate, hexact]
        have : mathRound (fmul (fdiv a b) 100) = K := by omega
        rw [this]
        omega
    · left
      have hge : K ≤ mathRound (fmul (fdiv a b) 100) := by
        rw [mathRound_ge_iff, hyd]
        have hR1 : (1 : ℚ) / (2 * b) ≤ ((R : ℕ) : ℚ) / (2 * b) := by
          apply div_le_div_of_nonneg_right _ (by positivity)
          exact_mod_cast hRpos
        linarith
      rw [hrate, hexact]
      have : mathRound (fmul (fdiv a b) 100) = K := by omega
      rw [this]
      omega

/-! ## The duration of a basic reminder -/

theorem matchDigits_eq (cs : List Char) :
    matchDigits cs = if cs.any isDigit then some (firstDigitRun cs) else none := by
  induction cs with
  | nil => rfl
  | cons c cs ih =>
    cases hc : isDigit c with
    | true =>
      simp [matchDigits, matchDigitsHere, firstDigitRun, List.takeWhile, List.dropWhile, hc]
    | false =>
      simp only [matchDigits, matchDigitsHere, List.takeWhile, hc, ih, firstDigitRun,
        List.dropWhile, List.any_cons, Bool.not_false, Bool.false_or]

/-- The run named by `firstDigitRun` is a block of digits of the text, nothing
before it is a digit, and the character after it is not a digit. -/
theorem firstDigitRun_spec (cs : List Char) :
    ∃ pre post, cs = pre ++ firstDigitRun cs ++ post ∧ (∀ c ∈ pre, isDigit c = false) ∧
      (∀ c ∈ firstDigitRun cs, isDigit c = true) ∧ (∀ c, post.head? = some c → isDigit c = false) := by
  refine ⟨cs.takeWhile fun c => !isDigit c,
    (cs.dropWhile fun c => !isDigit c).dropWhile isDigit, ?_, ?_, ?_, ?_⟩
  · unfold firstDigitRun
    rw [List.append_assoc, List.takeWhile_append_dropWhile, List.takeWhile_append_dropWhile]
  · intro c hc
    simpa using List.mem_takeWhile_imp hc
  · intro c hc
    exact List.mem_takeWhile_imp hc
  · intro c hc
    have h := List.head?_dropWhile_not isDigit (cs.dropWhile fun c => !isDigit c)
    rw [hc] at h
    simpa using h

/-! ## Reading a run of digits -/

theorem isDigit_iff (c : Char) : isDigit c = true ↔ 48 ≤ c.toNat ∧ c.toNat ≤ 57 := by
  unfold isDigit Char.isDigit
  simp only [Bool.and_eq_true, decide_eq_true_eq, ge_iff_le]
  exact Iff.rfl

theorem isJsWhiteSpace_digit (c : Char) (hc : isDigit c = true) : isJsWhiteSpace c = false := by
  rw [isDigit_iff] at hc
  unfold isJsWhiteSpace
  simp only [Bool.or_eq_false_iff, beq_eq_false_iff_ne, Bool.and_eq_false_iff, decide_eq_false_iff_not]
  omega

theorem digitValue_digit (c : Char) (hc : isDigit c = true) :
    digitValue 10 c = some (c.toNat - 48) := by
  rw [isDigit_iff] at hc
  unfold digitValue
  have h1 : (decide (48 ≤ c.toNat) && decide (c.toNat ≤ 57)) = true := by simp [hc.1, hc.2]
  simp only [h1, if_true]
  rw [if_pos (by omega)]

theorem parseDigits_digit (c : Char) (cs : List Char) (hc : isDigit c = true) :
    parseDigits 10 (c :: cs) = some (readDigits 10 (c.toNat - 48) cs) := by
  simp only [parseDigits, digitValue_digit c hc]

/-- The function `parseInt` on a text that starts with a digit and goes on with
digits only: the decimal value. -/
theorem parseIntChars_digits (c : Char) (cs : List Char) (hc : isDigit c = true)
    (hcs : ∀ x ∈ cs, isDigit x = true) :
    parseIntChars (c :: cs) = some ((readDigits 10 (c.toNat - 48) cs : Nat) : Int) := by
  have hmag : parseMagnitude (c :: cs) = some (readDigits 10 (c.toNat - 48) cs) := by
    unfold parseMagnitude
    split
    · rename_i rest heq
      simp only [List.cons.injEq] at heq
      have hx := hcs 'x' (by rw [heq.2]; exact List.mem_cons_self _ _)
      exact absurd hx (by decide)
    · rename_i rest heq
      simp only [List.cons.injEq] at heq
      have hx := hcs 'X' (by rw [heq.2]; exact List.mem_cons_self _ _)
      exact absurd hx (by decide)
    · exact parseDigits_digit c cs hc
  unfold parseIntChars
  simp only [List.dropWhile, isJsWhiteSpace_digit c hc]
  split
  · rename_i rest heq
    simp only [List.cons.injEq] at heq
    rw [heq.1] at hc
    exact absurd hc (by decide)
  · rename_i rest heq
    simp only [List.cons.injEq] at heq
    rw [heq.1] at hc
    exact absurd hc (by decide)
  · rw [hmag]
    rfl

theorem readDigits_eq_zero (cs : List Char) (hcs : ∀ x ∈ cs, isDigit x = true) (acc : Nat) :
    readDigits 10 acc cs = 0 ↔ acc = 0 ∧ ∀ x ∈ cs, x = '0' := by
  induction cs generalizing acc with
  | nil => simp [readDigits]
  | cons c cs ih =>
    have hc := hcs c (List.mem_cons_self _ _)
    simp only [readDigits, digitValue_digit c hc]
    rw [ih (fun x hx => hcs x (List.mem_cons_of_mem _ hx))]
    rw [isDigit_iff] at hc
    have h0 : c = '0' ↔ c.toNat = 48 := by
      constructor
      · intro h
        rw [h]
        rfl
      · intro h
        rw [← Char.ofNat_toNat c, h]
    simp only [List.mem_cons, forall_eq_or_imp, h0]
    constructor
    · rintro ⟨h1, h2⟩
      exact ⟨by omega, by omega, h2⟩
    · rintro ⟨h1, h2, h3⟩
      exact ⟨by omega, h3⟩

/-- The duration text of a basic reminder is a non-empty run of digits. -/
theorem basicDuration_digits (duration : Option String) :
    ∃ c cs, (basicDuration duration).toList = c :: cs ∧ isDigit c = true ∧
      ∀ x ∈ cs, isDigit x = true := by
  unfold basicDuration
  cases duration with
  | none => exact ⟨'7', [], rfl, by decide, by simp⟩
  | some s =>
    simp only [matchDigits_eq]
    cases hany : s.toList.any isDigit with
    | false => exact ⟨'7', [], rfl, by decide, by simp⟩
    | true =>
      simp only [if_true]
      have hall : ∀ x ∈ firstDigitRun s.toList, isDigit x = true :=
        fun x hx => List.mem_takeWhile_imp hx
      cases hrun : firstDigitRun s.toList with
      | nil =>
        exfalso
        unfold firstDigitRun at hrun
        rw [List.takeWhile_eq_nil_iff] at hrun
        simp only [List.any_eq_true] at hany
        obtain ⟨d, hd, hdd⟩ := hany
        have h1 := List.head?_dropWhile_not (fun c => !isDigit c) s.toList
        cases hl : (s.toList.dropWhile fun c => !isDigit c) with
        | nil =>
          rw [List.dropWhile_eq_nil_iff] at hl
          have := hl d hd
          simp [hdd] at this
        | cons y ys =>
          rw [hl] at h1 hrun
          simp only [List.head?_cons, Bool.not_eq_false'] at h1
          simp [h1] at hrun
      | cons c cs =>
        rw [hrun] at hall
        exact ⟨c, cs, rfl, hall c (List.mem_cons_self _ _),
          fun x hx => hall x (List.mem_cons_of_mem _ hx)⟩

/-! ## Decimal texts of the loop variables -/

/-- The number a list of decimal digits stands for. -/
theorem foldl_decimal (l : List Char) (a : Nat) :
    l.foldl (fun acc c => acc * 10 + (c.toNat - 48)) a
      = a * 10 ^ l.length + l.foldl (fun acc c => acc * 10 + (c.toNat - 48)) 0 := by
  induction l generalizing a with
  | nil => simp
  | cons c cs ih =>
    simp only [List.foldl_cons, List.length_cons]
    rw [ih (a * 10 + (c.toNat - 48)), ih (0 * 10 + (c.toNat - 48))]
    ring

theorem digitChar_toNat (k : Nat) (hk : k < 10) : (Nat.digitChar k).toNat - 48 = k := by
  interval_cases k <;> rfl

theorem digitChar_isDigit (k : Nat) (hk : k < 10) : isDigit (Nat.digitChar k) = true := by
  interval_cases k <;> rfl

theorem toDigitsCore_value (fuel n : Nat) (ds : List Char) (h : n < fuel) :
    (Nat.toDigitsCore 10 fuel n ds).foldl (fun acc c => acc * 10 + (c.toNat - 48)) 0
      = n * 10 ^ ds.length + ds.foldl (fun acc c => acc * 10 + (c.toNat - 48)) 0 := by
  induction fuel generalizing n ds with
  | zero => omega
  | succ fuel ih =>
    have hd := digitChar_toNat (n % 10) (Nat.mod_lt _ (by norm_num))
    have hn := Nat.div_add_mod n 10
    simp only [Nat.toDigitsCore]
    split
    · rename_i h0
      simp only [List.foldl_cons]
      rw [foldl_decimal, hd]
      have : n % 10 = n := by omega
      rw [this]
      ring
    · rename_i h0
      rw [ih (n / 10) _ (by omega)]
      simp only [List.foldl_cons, List.length_cons]
      rw [foldl_decimal ds (0 * 10 + _), hd]
      have hn' : n = 10 * (n / 10) + n % 10 := by omega
      conv_rhs => rw [hn']
      ring

theorem toDigitsCore_isDigit (fuel n : Nat) (ds : List Char)
    (hds : ∀ c ∈ ds, isDigit c = true) :
    ∀ c ∈ Nat.toDigitsCore 10 fuel n ds, isDigit c = true := by
  induction fuel generalizing n ds with
  | zero => simpa [Nat.toDigitsCore] using hds
  | succ fuel ih =>
    have hd := digitChar_isDigit (n % 10) (Nat.mod_lt _ (by norm_num))
    simp only [Nat.toDigitsCore]
    split
    · intro c hc
      rcases List.mem_cons.1 hc with h | h
      · rw [h]; exact hd
      · exact hds c h
    · apply ih
      intro c hc
      rcases List.mem_cons.1 hc with h | h
      · rw [h]; exact hd
      · exact hds c h

/-- Two numbers with the same decimal text are equal. -/
theorem toString_nat_injective (a b : Nat) (h : toString a = toString b) : a = b := by
  have h1 : Nat.toDigits 10 a = Nat.toDigits 10 b := by
    have := congrArg String.toList h
    exact this
  have ha := toDigitsCore_value (a + 1) a [] (by omega)
  have hb := toDigitsCore_value (b + 1) b [] (by omega)
  unfold Nat.toDigits at h1
  rw [h1] at ha
  rw [ha] at hb
  simpa using hb

/-- The decimal text of a number has digits only. -/
theorem toString_nat_isDigit (a : Nat) : ∀ c ∈ (toString a).toList, isDigit c = true :=
  toDigitsCore_isDigit (a + 1) a [] (by simp)

/-- Two texts cut at the first occurrence of a separator: equal wholes have
equal parts. -/
theorem append_sep_inj (sep : Char) :
    ∀ (l1 l2 r1 r2 : List Char), sep ∉ l1 → sep ∉ l2 →
      l1 ++ sep :: r1 = l2 ++ sep :: r2 → l1 = l2 ∧ r1 = r2
  | [], [], r1, r2, _, _, h => by
    simp only [List.nil_append, List.cons.injEq, true_and] at h
    exact ⟨rfl, h⟩
  | [], y :: l2, r1, r2, _, h2, h => by
    simp only [List.nil_append, List.cons_append, List.cons.injEq] at h
    exact absurd (h.1 ▸ List.mem_cons_self _ _) h2
  | x :: l1, [], r1, r2, h1, _, h => by
    simp only [List.nil_append, List.cons_append, List.cons.injEq] at h
    exact absurd (h.1 ▸ List.mem_cons_self _ _) h1
  | x :: l1, y :: l2, r1, r2, h1, h2, h => by
    simp only [List.cons_append, List.cons.injEq] at h
    obtain ⟨ha, hb⟩ := append_sep_inj sep l1 l2 r1 r2
      (fun hm => h1 (List.mem_cons_of_mem _ hm)) (fun hm => h2 (List.mem_cons_of_mem _ hm)) h.2
    exact ⟨by rw [h.1, ha], hb⟩

/-! ## Documents and event lists as traversals -/

theorem calendarDownload_ok (now tz : Int) (p : Prescription) (doc : List VEvent)
    (h : calendarDownload now tz (some p) = .ok doc) :
    traverse (Occurrence.vevent p.id now tz) (occurrences p) = .ok doc := by
  unfold calendarDownload at h
  simp only at h
  split at h
  · cases h
  · rw [downloadEvents_eq_traverse] at h
    cases ht : traverse (Occurrence.vevent p.id now tz) (occurrences p) with
    | error e => rw [ht] at h; cases h
    | ok ics =>
      rw [ht] at h
      simp only [Response.ok.injEq] at h
      rw [h]

theorem calendarJson_ok (now tz : Int) (p : Prescription) (events : List CalendarEvent)
    (h : calendarJson now tz (some p) = .ok events) :
    traverse (Occurrence.calendarEvent now tz) (occurrences p) = .ok events := by
  unfold calendarJson at h
  simp only at h
  rw [jsonEvents_eq_traverse] at h
  cases ht : traverse (Occurrence.calendarEvent now tz) (occurrences p) with
  | error e => rw [ht] at h; cases h
  | ok evs =>
    rw [ht] at h
    simp only [Response.ok.injEq] at h
    rw [h]

theorem forall₂_mem_right {α β : Type} {R : α → β → Prop} {xs : List α} {ys : List β}
    (h : List.Forall₂ R xs ys) : ∀ y ∈ ys, ∃ x ∈ xs, R x y := by
  induction h with
  | nil => intro y hy; cases hy
  | cons hab _ ih =>
    intro y hy
    rcases List.mem_cons.1 hy with h1 | h1
    · subst h1
      exact ⟨_, List.mem_cons_self _ _, hab⟩
    · obtain ⟨x, hx, hr⟩ := ih y h1
      exact ⟨x, List.mem_cons_of_mem _ hx, hr⟩

/-- Every component of a document is the component of a pass of the loops. -/
theorem mem_document (now tz : Int) (p : Prescription) (doc : List VEvent)
    (h : calendarDownload now tz (some p) = .ok doc) (ev : VEvent) (hev : ev ∈ doc) :
    ∃ o ∈ occurrences p, o.vevent p.id now tz = .ok ev :=
  forall₂_mem_right (traverse_forall₂ _ _ _ (calendarDownload_ok now tz p doc h)) ev hev

/-! ## Component identifiers -/

theorem buildVEvent_uid (id : String) (now tz : Int) (o : Occurrence) (ev : VEvent)
    (h : o.vevent id now tz = .ok ev) : ev.uid = uidOf id o.key := by
  unfold Occurrence.vevent buildVEvent at h
  cases h1 : toISOString (eventDate now tz o.time o.dayIndex) with
  | error e => rw [h1] at h; cases h
  | ok start =>
    rw [h1] at h
    simp only at h
    cases h2 : toISOString (timeClip (start + 15 * 60000)) with
    | error e => rw [h2] at h; cases h
    | ok stop =>
      rw [h2] at h
      simp only [Except.ok.injEq] at h
      subst h
      rfl

theorem map_uid_of_forall₂ (id : String) (now tz : Int) (os : List Occurrence)
    (evs : List VEvent) (h : List.Forall₂ (fun o e => o.vevent id now tz = .ok e) os evs) :
    evs.map VEvent.uid = os.map fun o => uidOf id o.key := by
  induction h with
  | nil => rfl
  | cons hab _ ih => simp only [List.map_cons, ih, buildVEvent_uid _ _ _ _ _ hab]

theorem uidOf_toList (id : String) (k : Nat × Nat × Nat) :
    (uidOf id k).toList = id.toList ++ '-' :: ((toString k.1).toList ++
      '-' :: ((toString k.2.1).toList ++ '-' :: ((toString k.2.2).toList ++
        "@medimind.com".toList))) := by
  unfold uidOf
  simp only [String.toList, String.data_append, List.append_assoc]
  rfl

theorem dash_not_mem_toString (n : Nat) : '-' ∉ (toString n).toList := by
  intro h
  exact absurd (toString_nat_isDigit n '-' h) (by decide)

/-- The UID determines the three loop variables. -/
theorem uidOf_key_inj (id : String) (k1 k2 : Nat × Nat × Nat) (h : uidOf id k1 = uidOf id k2) :
    k1 = k2 := by
  have h1 := congrArg String.toList h
  rw [uidOf_toList, uidOf_toList] at h1
  have h2 := List.append_cancel_left h1
  simp only [List.cons.injEq, true_and] at h2
  obtain ⟨a1, h3⟩ := append_sep_inj '-' _ _ _ _ (dash_not_mem_toString _)
    (dash_not_mem_toString _) h2
  obtain ⟨a2, h4⟩ := append_sep_inj '-' _ _ _ _ (dash_not_mem_toString _)
    (dash_not_mem_toString _) h3
  have a3 := List.append_cancel_right h4
  have e1 := toString_nat_injective _ _ (String.ext a1)
  have e2 := toString_nat_injective _ _ (String.ext a2)
  have e3 := toString_nat_injective _ _ (String.ext a3)
  exact Prod.ext e1 (Prod.ext e2 e3)

/-- The UID determines a prescription id that has no dash. -/
theorem uidOf_id_inj (id1 id2 : String) (k1 k2 : Nat × Nat × Nat)
    (h1 : '-' ∉ id1.toList) (h2 : '-' ∉ id2.toList) (h : uidOf id1 k1 = uidOf id2 k2) :
    id1 = id2 := by
  have h3 := congrArg String.toList h
  rw [uidOf_toList, uidOf_toList] at h3
  exact String.ext (append_sep_inj '-' _ _ _ _ h1 h2 h3).1

theorem loopOrder_ne (a b : Nat × Nat × Nat) (h : loopOrder a b) : a ≠ b := by
  intro hab
  subst hab
  unfold loopOrder at h
  omega

/-! ## The instants of a component -/

theorem timeClip_some (t u : Int) (h : timeClip t = some u) : u = t := by
  unfold timeClip at h
  split at h
  · simp only [Option.some.injEq] at h
    exact h.symm
  · cases h

/-- The date of an event, when it exists: local midnight of the clock's day,
plus the day offset, plus the hours and minutes read from the time. -/
theorem eventDate_some (now tz : Int) (time : String) (i : Nat) (start : Int)
    (h : eventDate now tz time i = some start) :
    ∃ hours minutes, parseInt (splitHoursMinutes time).1 = some hours ∧
      parseInt (splitHoursMinutes time).2 = some minutes ∧
      start = startOfDay tz now + (i : Int) * msPerDay + hours * 3600000 + minutes * 60000 := by
  unfold eventDate addDays at h
  simp only at h
  cases h1 : timeClip (now + (i : Int) * msPerDay) with
  | none => rw [h1] at h; simp [setHours] at h
  | some t1 =>
    rw [h1] at h
    have ht1 := timeClip_some _ _ h1
    subst ht1
    cases h2 : parseInt (splitHoursMinutes time).1 with
    | none => rw [h2] at h; simp [setHours] at h
    | some hours =>
      cases h3 : parseInt (splitHoursMinutes time).2 with
      | none => rw [h2, h3] at h; simp [setHours] at h
      | some minutes =>
        rw [h2, h3] at h
        simp only [setHours] at h
        have h4 := timeClip_some _ _ h
        refine ⟨hours, minutes, rfl, rfl, ?_⟩
        rw [h4]
        unfold startOfDay localDay msPerDay
        omega

/-- The fields of a component of the download route. -/
theorem vevent_fields (id : String) (now tz : Int) (o : Occurrence) (ev : VEvent)
    (h : o.vevent id now tz = .ok ev) :
    eventDate now tz o.time o.dayIndex = some ev.dtstart ∧
    ev.dtend = ev.dtstart + 15 * 60000 ∧ ev.alarmTrigger = "-PT15M" ∧
    ev.summary = "💊 Take " ++ jsToString o.reminder.medicine ∧
    ev.description = "Medication: " ++ jsToString o.reminder.medicine ++
      "\nDosage: Take as prescribed\nWith food: " ++
      (if o.reminder.withFood then "Yes" else "No") ++
      "\nDay " ++ toString (o.dayIndex + 1) ++ " of " ++ toString (dayCount o.reminder.duration) := by
  unfold Occurrence.vevent buildVEvent toISOString at h
  cases h1 : eventDate now tz o.time o.dayIndex with
  | none => rw [h1] at h; cases h
  | some start =>
    rw [h1] at h
    simp only at h
    cases h2 : timeClip (start + 15 * 60000) with
    | none => rw [h2] at h; cases h
    | some stop =>
      rw [h2] at h
      simp only [Except.ok.injEq] at h
      subst h
      exact ⟨rfl, timeClip_some _ _ h2, rfl, rfl, rfl⟩

/-- The fields of an event of the JSON route. -/
theorem calendarEvent_of_eventDate (now tz : Int) (o : Occurrence) (start : Int)
    (h : eventDate now tz o.time o.dayIndex = some start) :
    o.calendarEvent now tz = .ok
      { title := "💊 Take " ++ jsToString o.reminder.medicine
        start := start
        description := "Medication: " ++ jsToString o.reminder.medicine ++
          "\nWith food: " ++ (if o.reminder.withFood then "Yes" else "No") ++
          "\nDay " ++ toString (o.dayIndex + 1) ++ " of " ++
          toString (dayCount o.reminder.duration) } := by
  unfold Occurrence.calendarEvent buildCalendarEvent toISOString
  rw [h]

/-- A pass of the loops names the reminder and the time at its two positions. -/
theorem mem_occurrences_index (p : Prescription) (o : Occurrence) (h : o ∈ occurrences p) :
    p.reminders[o.reminderIndex]? = some o.reminder ∧
      ∃ ts, o.reminder.times = some ts ∧ ts[o.timeIndex]? = some o.time := by
  unfold occurrences at h
  rw [List.mem_flatMap] at h
  obtain ⟨ir, hir, ho⟩ := h
  have hr := (List.mk_mem_enumFrom_iff_le_and_getElem?_sub (x := ir.2) (i := ir.1)).1 hir
  cases hts : ir.2.times with
  | none => rw [hts] at ho; cases ho
  | some times =>
    rw [hts] at ho
    simp only [List.mem_flatMap, List.mem_map, List.mem_range'_1] at ho
    obtain ⟨it, hit, i, hi, rfl⟩ := ho
    have ht := (List.mk_mem_enumFrom_iff_le_and_getElem?_sub (x := it.2) (i := it.1)).1 hit
    exact ⟨by simpa using hr.2, times, hts, by simpa using ht.2⟩

/-! ## The passes of one reminder -/

theorem countP_flatMap_enumFrom {α β : Type} (F : Nat × α → List β) (idx : β → Nat)
    (G : α → Nat) (hidx : ∀ ix, ∀ b ∈ F ix, idx b = ix.1) (hlen : ∀ ix, (F ix).length = G ix.2)
    (k : Nat) (l : List α) (n : Nat) :
    ((l.enumFrom n).flatMap F).countP (fun b => idx b == k)
      = if n ≤ k then ((l[k - n]?).map G).getD 0 else 0 := by
  induction l generalizing n with
  | nil => simp
  | cons x xs ih =>
    simp only [List.enumFrom, List.flatMap_cons, List.countP_append, ih]
    have hblock : (F (n, x)).countP (fun b => idx b == k) = if n = k then G x else 0 := by
      split
      · rename_i hnk
        rw [← hlen (n, x), List.countP_eq_length]
        intro b hb
        simp [hidx (n, x) b hb, hnk]
      · rename_i hnk
        rw [List.countP_eq_zero]
        intro b hb
        simp [hidx (n, x) b hb, hnk]
    rw [hblock]
    rcases Nat.lt_trichotomy n k with hlt | heq | hgt
    · have h1 : k - n = (k - (n + 1)) + 1 := by omega
      rw [if_neg (by omega), if_pos (by omega), if_pos (by omega), h1, List.getElem?_cons_succ]
      omega
    · subst heq
      simp
    · rw [if_neg (by omega), if_neg (by omega), if_neg (by omega)]

theorem occurrenceBlock_length (ix : Nat × Reminder) :
    (match ix.2.times with
      | none => ([] : List Occurrence)
      | some times =>
        (times.enumFrom 0).flatMap fun it =>
          (List.range' 0 (dayCount ix.2.duration).toNat).map fun i =>
            { reminderIndex := ix.1, reminder := ix.2, timeIndex := it.1, time := it.2,
              dayIndex := i }).length
      = (dayCount ix.2.duration).toNat * (ix.2.times.getD []).length := by
  cases hts : ix.2.times with
  | none => simp
  | some times =>
    simp only [Option.getD_some]
    rw [length_flatMap_enumFrom _ (fun _ => (dayCount ix.2.duration).toNat)]
    · exact sum_map_const_nat _ _
    · intro it
      simp

/-- The number of passes that belong to the reminder at position `k`. -/
theorem countP_occurrences (p : Prescription) (k : Nat) :
    (occurrences p).countP (fun o => o.reminderIndex == k)
      = ((p.reminders[k]?).map fun r =>
          (dayCount r.duration).toNat * (r.times.getD []).length).getD 0 := by
  unfold occurrences
  rw [countP_flatMap_enumFrom _ Occurrence.reminderIndex
    (fun r => (dayCount r.duration).toNat * (r.times.getD []).length) _ occurrenceBlock_length]
  · simp
  · intro ix b hb
    cases hts : ix.2.times with
    | none => rw [hts] at hb; cases hb
    | some times =>
      rw [hts] at hb
      simp only [List.mem_flatMap, List.mem_map] at hb
      obtain ⟨_, _, _, _, rfl⟩ := hb
      rfl

theorem countP_document (now tz : Int) (p : Prescription) (doc : List VEvent)
    (h : calendarDownload now tz (some p) = .ok doc) (k : Nat) :
    doc.countP (fun e => e.reminderIndex == k)
      = (occurrences p).countP (fun o => o.reminderIndex == k) := by
  have hk := map_key_of_forall₂ p.id now tz _ _
    (traverse_forall₂ _ _ _ (calendarDownload_ok now tz p doc h))
  have h1 : doc.countP (fun e => e.reminderIndex == k)
      = (doc.map VEvent.key).countP (fun key => key.1 == k) := by
    rw [List.countP_map]
    rfl
  have h2 : (occurrences p).countP (fun o => o.reminderIndex == k)
      = ((occurrences p).map Occurrence.key).countP (fun key => key.1 == k) := by
    rw [List.countP_map]
    rfl
  rw [h1, h2, hk]

/-! ## Time slots -/

/-- A time with a colon, and a name whose lower-case form is neither a slot nor
an inherited key, come back unchanged. -/
theorem convertToTimeFormat_unchanged (t : String) (hne : t ≠ "")
    (h : includes t ":" = true ∨ timeMapLookup (toLowerCase t) = none) :
    convertToTimeFormat (some t) = .text t := by
  unfold convertToTimeFormat
  simp only [hne, if_false]
  by_cases hc : includes t ":" = true
  · rw [if_pos hc]
  · rw [if_neg hc]
    rcases h with h | h
    · exact absurd h hc
    · rw [h]

/-! ## Searching a text -/

/-- The scan of `includes` finds the pattern exactly when the pattern is a
contiguous block of the text. -/
theorem includesChars_iff (pat cs : List Char) : includesChars pat cs = true ↔ pat <:+: cs := by
  induction cs with
  | nil =>
    simp only [includesChars, List.isPrefixOf_iff_prefix, List.infix_nil, List.prefix_nil]
  | cons c cs ih =>
    simp only [includesChars, Bool.or_eq_true, List.isPrefixOf_iff_prefix, ih, List.infix_cons_iff]

theorem includes_iff (s pat : String) : includes s pat = true ↔ pat.toList <:+: s.toList :=
  includesChars_iff _ _

/-- A pattern of lower-case letters found in a text is found in its lower-case
form as well. -/
theorem includes_toLowerCase (s pat : String) (hpat : pat.toList.map Char.toLower = pat.toList)
    (h : includes s pat = true) : includes (toLowerCase s) pat = true := by
  rw [includes_iff] at h ⊢
  obtain ⟨pre, post, hs⟩ := h
  refine ⟨pre.map Char.toLower, post.map Char.toLower, ?_⟩
  show _ = s.toList.map Char.toLower
  rw [← hs, List.map_append, List.map_append, hpat]

theorem basicTimes_of_not_includes (f : Option String)
    (h : ∀ s, f = some s → includes s "twice" = false ∧ includes s "three" = false) :
    basicTimes f = ["08:00"] := by
  unfold basicTimes
  cases f with
  | none => simp
  | some s =>
    obtain ⟨h1, h2⟩ := h s rfl
    simp [h1, h2]

/-! ## The value of a run of digits -/

theorem readDigits_eq_foldl (cs : List Char) (hcs : ∀ x ∈ cs, isDigit x = true) (acc : Nat) :
    readDigits 10 acc cs = cs.foldl (fun acc c => acc * 10 + (c.toNat - 48)) acc := by
  induction cs generalizing acc with
  | nil => rfl
  | cons c cs ih =>
    simp only [readDigits, digitValue_digit c (hcs c (List.mem_cons_self _ _)), List.foldl_cons]
    exact ih (fun x hx => hcs x (List.mem_cons_of_mem _ hx)) _

/-- The function `parseInt` of the embedding on a non-empty run of decimal digits gives
the number the run denotes (the value JavaScript returns when that number is at
most `2 ^ 53`). -/
theorem parseIntChars_decimal (cs : List Char) (hne : cs ≠ [])
    (hcs : ∀ x ∈ cs, isDigit x = true) :
    parseIntChars cs = some ((decimalValue cs : Nat) : Int) := by
  cases cs with
  | nil => exact absurd rfl hne
  | cons c cs =>
    have hc := hcs c (List.mem_cons_self _ _)
    have hr := fun x hx => hcs x (List.mem_cons_of_mem c hx)
    rw [parseIntChars_digits c cs hc hr, readDigits_eq_foldl cs hr]
    simp only [decimalValue, List.foldl_cons, Nat.zero_mul, Nat.zero_add]

theorem digitValue_not_digit (c : Char) (hc : isDigit c = false) : digitValue 10 c = none := by
  have hc2 : ¬ (48 ≤ c.toNat ∧ c.toNat ≤ 57) := by
    rw [← isDigit_iff, hc]
    simp
  unfold digitValue
  simp only [Bool.and_eq_true, decide_eq_true_eq]
  rw [if_neg hc2]
  by_cases h2 : 97 ≤ c.toNat ∧ c.toNat ≤ 122
  · rw [if_pos h2]
    simp only
    rw [if_neg (by omega)]
  · rw [if_neg h2]
    by_cases h3 : 65 ≤ c.toNat ∧ c.toNat ≤ 90
    · rw [if_pos h3]
      simp only
      rw [if_neg (by omega)]
    · rw [if_neg h3]

theorem parseMagnitude_no_digit (cs : List Char) (h : cs.head?.any isDigit = false) :
    parseMagnitude cs = none := by
  cases cs with
  | nil => rfl
  | cons c cs =>
    have hc : isDigit c = false := by simpa using h
    unfold parseMagnitude
    split
    · rename_i rest heq
      simp only [List.cons.injEq] at heq
      rw [heq.1] at hc
      exact absurd hc (by decide)
    · rename_i rest heq
      simp only [List.cons.injEq] at heq
      rw [heq.1] at hc
      exact absurd hc (by decide)
    · simp only [parseDigits, digitValue_not_digit c hc]

/-- The function `parseInt` on a text that does not start with an integer is `NaN`. -/
theorem parseIntChars_no_integer (cs : List Char) (h : startsWithInteger cs = false) :
    parseIntChars cs = none := by
  unfold startsWithInteger at h
  unfold parseIntChars
  split at h <;> rename_i heq <;> simp only [heq, parseMagnitude_no_digit _ h] <;> rfl

/-- The day count of a duration that is a non-empty run of decimal digits, as
the embedding computes it (the count of the code when the run denotes at most
`2 ^ 53`). -/
theorem dayCount_digits (s : String) (hne : s.toList ≠ [])
    (hcs : ∀ c ∈ s.toList, isDigit c = true) :
    dayCount (some s) =
      if decimalValue s.toList = 0 then 7 else ((decimalValue s.toList : Nat) : Int) := by
  have hp : parseInt (some s) = some ((decimalValue s.toList : Nat) : Int) :=
    parseIntChars_decimal s.toList hne hcs
  unfold dayCount
  rw [hp]
  simp only [Nat.cast_eq_zero]

/-! ## Splitting a clock time at the colon -/

theorem splitColon_cons (c : Char) (cs : List Char) :
    splitColon (c :: cs) =
      match splitColon cs with
      | [] => [[]]
      | p :: ps => if c = ':' then [] :: p :: ps else (c :: p) :: ps := by
  rw [splitColon]

theorem splitColon_ne_nil (cs : List Char) : splitColon cs ≠ [] := by
  cases cs with
  | nil => simp [splitColon]
  | cons c cs =>
    rw [splitColon_cons]
    split
    · simp
    · split_ifs <;> simp

theorem splitColon_no_colon (cs : List Char) (h : ':' ∉ cs) : splitColon cs = [cs] := by
  induction cs with
  | nil => rfl
  | cons c cs ih =>
    have hc : c ≠ ':' := fun e => h (by rw [e]; exact List.mem_cons_self _ _)
    rw [splitColon_cons, ih (fun hm => h (List.mem_cons_of_mem _ hm))]
    simp only [hc, if_false]

theorem splitColon_append (hs rest : List Char) (h : ':' ∉ hs) :
    splitColon (hs ++ ':' :: rest) = hs :: splitColon rest := by
  induction hs with
  | nil =>
    show splitColon (':' :: rest) = [] :: splitColon rest
    rw [splitColon_cons]
    cases hr : splitColon rest with
    | nil => exact absurd hr (splitColon_ne_nil rest)
    | cons p ps => simp
  | cons c cs ih =>
    have hc : c ≠ ':' := fun e => h (by rw [e]; exact List.mem_cons_self _ _)
    rw [List.cons_append, splitColon_cons, ih (fun hm => h (List.mem_cons_of_mem _ hm))]
    simp only [hc, if_false]

theorem not_colon_of_digits (hs : List Char) (hd : ∀ c ∈ hs, isDigit c = true) : ':' ∉ hs :=
  fun hm => absurd (hd ':' hm) (by decide)

/-- The two parts of a text `hours:minutes` with no further colon. -/
theorem splitHoursMinutes_clock (hs ms : List Char) (hh : ':' ∉ hs) (hm : ':' ∉ ms) :
    splitHoursMinutes (String.mk (hs ++ ':' :: ms)) = (some (String.mk hs), some (String.mk ms)) := by
  unfold splitHoursMinutes
  show (((splitColon (hs ++ ':' :: ms))[0]?).map String.mk,
    ((splitColon (hs ++ ':' :: ms))[1]?).map String.mk) = _
  rw [splitColon_append hs ms hh, splitColon_no_colon ms hm]
  rfl

theorem mk_ne_empty (cs : List Char) (h : cs ≠ []) : String.mk cs ≠ "" := by
  intro e
  exact h (congrArg String.toList e)

theorem includes_colon (hs ms : List Char) : includes (String.mk (hs ++ ':' :: ms)) ":" = true := by
  rw [includes_iff]
  exact ⟨hs, ms, by simp⟩

/-! ## Rounding is monotone -/

/-- On a tie `roundHalfEven` picks the even neighbour. -/
theorem roundHalfEven_tie (n d : Nat) (hd : 0 < d) :
    (2 * roundHalfEven n d * d = 2 * n + d → roundHalfEven n d % 2 = 0) ∧
    (2 * n = 2 * roundHalfEven n d * d + d → roundHalfEven n d % 2 = 0) := by
  have h1 := Nat.div_add_mod n d
  have h2 := Nat.mod_lt n hd
  have e1 : 2 * (n / d) * d = 2 * (d * (n / d)) := by ring
  have e2 : 2 * (n / d + 1) * d = 2 * (d * (n / d)) + 2 * d := by ring
  unfold roundHalfEven
  simp only
  split_ifs <;> simp only [e1, e2] <;> constructor <;> omega

/-- A larger quotient never rounds to a smaller integer. -/
theorem roundHalfEven_mono (n d n' d' : Nat) (hd : 0 < d) (hd' : 0 < d')
    (h : n * d' ≤ n' * d) : roundHalfEven n d ≤ roundHalfEven n' d' := by
  obtain ⟨s1, _⟩ := roundHalfEven_spec n d hd
  obtain ⟨_, s2⟩ := roundHalfEven_spec n' d' hd'
  obtain ⟨t1, _⟩ := roundHalfEven_tie n d hd
  obtain ⟨_, t2⟩ := roundHalfEven_tie n' d' hd'
  generalize roundHalfEven n d = m at s1 t1 ⊢
  generalize roundHalfEven n' d' = m' at s2 t2 ⊢
  by_contra hlt
  push_neg at hlt
  have a1 : 2 * m * d * d' ≤ (2 * n + d) * d' := Nat.mul_le_mul_right d' s1
  have a2 : (2 * n + d) * d' ≤ 2 * (n' * d) + d * d' := by
    have : (2 * n + d) * d' = 2 * (n * d') + d * d' := by ring
    omega
  have a3 : 2 * n' * d ≤ (2 * m' * d' + d') * d := Nat.mul_le_mul_right d s2
  have a4 : (2 * m' * d' + d') * d + d * d' = (2 * m' + 2) * (d * d') := by ring
  have a5 : 2 * m * d * d' = 2 * m * (d * d') := by ring
  have a6 : 2 * n' * d = 2 * (n' * d) := by ring
  have hpos : 0 < d * d' := Nat.mul_pos hd hd'
  have b1 : 2 * m * (d * d') ≤ (2 * m' + 2) * (d * d') := by omega
  have b2 : 2 * m ≤ 2 * m' + 2 := Nat.le_of_mul_le_mul_right b1 hpos
  have hm : m = m' + 1 := by omega
  have b3 : 2 * m * (d * d') = (2 * m' + 2) * (d * d') := by rw [hm]; ring
  have c1 : 2 * m * d * d' = (2 * n + d) * d' := by omega
  have c2 : 2 * n' * d = (2 * m' * d' + d') * d := by omega
  have k1 := t1 (Nat.eq_of_mul_eq_mul_right hd' c1)
  have k2 := t2 (Nat.eq_of_mul_eq_mul_right hd c2)
  omega

/-- The value of a binary64 number is its significand times a power of two. -/
theorem Binary64.val_eq (x : Binary64) : x.val = (x.mant : ℚ) * (2 : ℚ) ^ x.exp := by
  unfold Binary64.val Binary64.num Binary64.den
  rw [two_zpow_split x.exp]
  push_cast
  rw [mul_div_assoc]

theorem Binary64.val_nonneg (x : Binary64) : 0 ≤ x.val := by
  rw [Binary64.val_eq]
  positivity

/-- The quotient scaled by the exponent lies between `2 ^ 52` and `2 ^ 53`. -/
theorem scaled_bounds (n d : Nat) (hn : 0 < n) (hd : 0 < d) (e : ℤ)
    (he : floorLog2 n d - 52 = e) :
    2 ^ 52 * (d * 2 ^ e.toNat) ≤ n * 2 ^ (-e).toNat ∧
    n * 2 ^ (-e).toNat < 2 ^ 53 * (d * 2 ^ e.toNat) := by
  obtain ⟨l1, l2⟩ := floorLog2_spec n d hn hd
  have hdq : (0 : ℚ) < d := by exact_mod_cast hd
  have hL : floorLog2 n d = e + 52 := by omega
  have hL2 : floorLog2 n d + 1 = e + 53 := by omega
  rw [hL, zpow_add₀ (by norm_num), two_zpow_split e] at l1
  rw [hL2, zpow_add₀ (by norm_num), two_zpow_split e] at l2
  have h52 : (2 : ℚ) ^ (52 : ℤ) = 2 ^ (52 : ℕ) := by norm_cast
  have h53 : (2 : ℚ) ^ (53 : ℤ) = 2 ^ (53 : ℕ) := by norm_cast
  rw [h52] at l1
  rw [h53] at l2
  have hA : (0 : ℚ) < 2 ^ (-e).toNat := by positivity
  have hB : (0 : ℚ) < 2 ^ e.toNat := by positivity
  constructor
  · have : ((2 ^ 52 * (d * 2 ^ e.toNat) : ℕ) : ℚ) ≤ ((n * 2 ^ (-e).toNat : ℕ) : ℚ) := by
      push_cast
      rw [div_mul_eq_mul_div, div_le_div_iff₀ hA hdq] at l1
      linarith
    exact_mod_cast this
  · have : ((n * 2 ^ (-e).toNat : ℕ) : ℚ) < ((2 ^ 53 * (d * 2 ^ e.toNat) : ℕ) : ℚ) := by
      push_cast
      rw [div_mul_eq_mul_div, div_lt_div_iff₀ hdq hA] at l2
      linarith
    exact_mod_cast this

/-- The significand of a rounded positive quotient has 53 binary digits, or is
`2 ^ 53` itself. -/
theorem roundToDouble_mant (n d : Nat) (hn : 0 < n) (hd : 0 < d) :
    (roundToDouble n d).exp = floorLog2 n d - 52 ∧
    2 ^ 52 ≤ (roundToDouble n d).mant ∧ (roundToDouble n d).mant ≤ 2 ^ 53 := by
  unfold roundToDouble
  rw [if_neg (by omega)]
  simp only
  refine ⟨trivial, ?_⟩
  generalize he : floorLog2 n d - 52 = e
  obtain ⟨b1, b2⟩ := scaled_bounds n d hn hd e he
  have hD : 0 < d * 2 ^ e.toNat := by positivity
  obtain ⟨r1, r2⟩ := roundHalfEven_spec (n * 2 ^ (-e).toNat) (d * 2 ^ e.toNat) hD
  generalize roundHalfEven (n * 2 ^ (-e).toNat) (d * 2 ^ e.toNat) = m at r1 r2
  generalize n * 2 ^ (-e).toNat = N at *
  generalize d * 2 ^ e.toNat = D at *
  constructor
  · by_contra hlt
    push_neg at hlt
    have : 2 * m + 1 ≤ 2 ^ 53 - 1 := by omega
    have h3 : (2 * m + 1) * D ≤ (2 ^ 53 - 1) * D := Nat.mul_le_mul_right D this
    have h4 : (2 * m + 1) * D = 2 * m * D + D := by ring
    have h5 : (2 ^ 53 - 1) * D + D = 2 * (2 ^ 52 * D) := by
      have : (2 ^ 53 - 1 + 1) * D = 2 * (2 ^ 52 * D) := by norm_num; ring
      rw [← this]
      ring
    omega
  · by_contra hlt
    push_neg at hlt
    have : 2 ^ 54 + 2 ≤ 2 * m := by omega
    have h3 : (2 ^ 54 + 2) * D ≤ 2 * m * D := Nat.mul_le_mul_right D this
    have h4 : (2 ^ 54 + 2) * D = 2 * (2 ^ 53 * D) + 2 * D := by ring
    omega

theorem floorLog2_mono (n d n' d' : Nat) (hn : 0 < n) (hd : 0 < d) (hn' : 0 < n') (hd' : 0 < d')
    (h : n * d' ≤ n' * d) : floorLog2 n d ≤ floorLog2 n' d' := by
  obtain ⟨l1, _⟩ := floorLog2_spec n d hn hd
  obtain ⟨_, l2⟩ := floorLog2_spec n' d' hn' hd'
  have hdq : (0 : ℚ) < d := by exact_mod_cast hd
  have hdq' : (0 : ℚ) < d' := by exact_mod_cast hd'
  have hq : (n : ℚ) / d ≤ (n' : ℚ) / d' := by
    rw [div_le_div_iff₀ hdq hdq']
    exact_mod_cast h
  have hlt : (2 : ℚ) ^ floorLog2 n d < (2 : ℚ) ^ (floorLog2 n' d' + 1) := by linarith
  have := (zpow_right_strictMono₀ (by norm_num : (1 : ℚ) < 2)).lt_iff_lt.mp hlt
  omega

/-- Rounding to binary64 is monotone: a larger quotient never rounds to a
smaller number. -/
theorem roundToDouble_mono (n d n' d' : Nat) (hd : 0 < d) (hd' : 0 < d')
    (h : n * d' ≤ n' * d) : (roundToDouble n d).val ≤ (roundToDouble n' d').val := by
  by_cases hn : n = 0
  · have h0 : (roundToDouble n d).val = 0 := by
      rw [hn]
      simp [roundToDouble, Binary64.val, Binary64.num]
    rw [h0]
    exact Binary64.val_nonneg _
  · have hn0 : 0 < n := Nat.pos_of_ne_zero hn
    have hn' : 0 < n' := by
      by_contra h0
      have h1 : n' = 0 := by omega
      rw [h1, Nat.zero_mul] at h
      have := Nat.mul_pos hn0 hd'
      omega
    have hL := floorLog2_mono n d n' d' hn0 hd hn' hd' h
    obtain ⟨e1, m1, m2⟩ := roundToDouble_mant n d hn0 hd
    obtain ⟨e1', m1', m2'⟩ := roundToDouble_mant n' d' hn' hd'
    rw [Binary64.val_eq, Binary64.val_eq]
    by_cases hLL : floorLog2 n d = floorLog2 n' d'
    · have hm : (roundToDouble n d).mant ≤ (roundToDouble n' d').mant := by
        unfold roundToDouble
        rw [if_neg hn, if_neg (by omega)]
        simp only
        rw [hLL]
        apply roundHalfEven_mono _ _ _ _ (by positivity) (by positivity)
        calc n * 2 ^ (-(floorLog2 n' d' - 52)).toNat * (d' * 2 ^ (floorLog2 n' d' - 52).toNat)
            = (n * d') * (2 ^ (-(floorLog2 n' d' - 52)).toNat * 2 ^ (floorLog2 n' d' - 52).toNat) := by
              ring
          _ ≤ (n' * d) * (2 ^ (-(floorLog2 n' d' - 52)).toNat * 2 ^ (floorLog2 n' d' - 52).toNat) :=
              Nat.mul_le_mul_right _ h
          _ = n' * 2 ^ (-(floorLog2 n' d' - 52)).toNat * (d * 2 ^ (floorLog2 n' d' - 52).toNat) := by
              ring
      rw [e1, e1', hLL]
      have hmq : ((roundToDouble n d).mant : ℚ) ≤ (roundToDouble n' d').mant := by
        exact_mod_cast hm
      exact mul_le_mul_of_nonneg_right hmq (by positivity)
    · have hlt : floorLog2 n d + 1 ≤ floorLog2 n' d' := by omega
      have u1 : ((roundToDouble n d).mant : ℚ) ≤ 2 ^ (53 : ℤ) := by
        have h53 : (2 : ℚ) ^ (53 : ℤ) = ((2 ^ 53 : ℕ) : ℚ) := by norm_cast
        rw [h53]
        exact_mod_cast m2
      have u2 : (2 : ℚ) ^ (52 : ℤ) ≤ ((roundToDouble n' d').mant : ℚ) := by
        have h52 : (2 : ℚ) ^ (52 : ℤ) = ((2 ^ 52 : ℕ) : ℚ) := by norm_cast
        rw [h52]
        exact_mod_cast m1'
      calc ((roundToDouble n d).mant : ℚ) * 2 ^ (roundToDouble n d).exp
          ≤ 2 ^ (53 : ℤ) * 2 ^ (roundToDouble n d).exp :=
            mul_le_mul_of_nonneg_right u1 (by positivity)
        _ = 2 ^ (53 + (roundToDouble n d).exp) := by rw [zpow_add₀ (by norm_num)]
        _ ≤ 2 ^ (52 + (roundToDouble n' d').exp) :=
            zpow_le_zpow_right₀ (by norm_num) (by omega)
        _ = 2 ^ (52 : ℤ) * 2 ^ (roundToDouble n' d').exp := by rw [zpow_add₀ (by norm_num)]
        _ ≤ ((roundToDouble n' d').mant : ℚ) * 2 ^ (roundToDouble n' d').exp :=
            mul_le_mul_of_nonneg_right u2 (by positivity)

theorem Binary64.den_pos (x : Binary64) : 0 < x.den := by
  unfold Binary64.den
  positivity

/-- The product with a whole number is monotone in the other factor. -/
theorem fmul_mono (x y : Binary64) (k : Nat) (h : x.val ≤ y.val) :
    (fmul x k).val ≤ (fmul y k).val := by
  unfold fmul
  apply roundToDouble_mono _ _ _ _ x.den_pos y.den_pos
  have hx : (0 : ℚ) < x.den := by exact_mod_cast x.den_pos
  have hy : (0 : ℚ) < y.den := by exact_mod_cast y.den_pos
  unfold Binary64.val at h
  rw [div_le_div_iff₀ hx hy] at h
  have h2 : x.num * y.den ≤ y.num * x.den := by exact_mod_cast h
  calc x.num * k * y.den = x.num * y.den * k := by ring
    _ ≤ y.num * x.den * k := Nat.mul_le_mul_right k h2
    _ = y.num * k * x.den := by ring

theorem mathRound_mono (x y : Binary64) (h : x.val ≤ y.val) : mathRound x ≤ mathRound y := by
  rw [mathRound_ge_iff]
  have := (mathRound_ge_iff x (mathRound x)).mp le_rfl
  linarith

/-- The rate never falls when more doses are counted against the same total. -/
theorem adherenceRate_mono (a a' b v : Nat) (h : a ≤ a') :
    adherenceRate a b v ≤ adherenceRate a' b v := by
  unfold adherenceRate
  simp only
  by_cases hb : b > 0
  · rw [if_pos hb, if_pos hb]
    apply min_le_min_right
    apply mathRound_mono
    apply fmul_mono
    exact roundToDouble_mono a b a' b hb hb (Nat.mul_le_mul_right b h)
  · rw [if_neg hb, if_neg hb]

/-- A whole number of at most `2 ^ 53` is a binary64 number: rounding leaves it
as it is. -/
theorem roundToDouble_exact (n : Nat) (h : n ≤ 2 ^ 53) : (roundToDouble n 1).val = n := by
  by_cases hn : n = 0
  · subst hn
    simp [roundToDouble, Binary64.val, Binary64.num]
  · have hn0 : 0 < n := Nat.pos_of_ne_zero hn
    obtain ⟨l1, _⟩ := floorLog2_spec n 1 hn0 (by norm_num)
    rw [Nat.cast_one, div_one] at l1
    have hq : (n : ℚ) ≤ (2 : ℚ) ^ (53 : ℤ) := by
      have h53 : (2 : ℚ) ^ (53 : ℤ) = ((2 ^ 53 : ℕ) : ℚ) := by norm_cast
      rw [h53]
      exact_mod_cast h
    have hL : floorLog2 n 1 ≤ 53 :=
      (zpow_right_strictMono₀ (by norm_num : (1 : ℚ) < 2)).le_iff_le.mp (le_trans l1 hq)
    rw [Binary64.val_eq]
    unfold roundToDouble
    rw [if_neg hn]
    simp only
    generalize he : floorLog2 n 1 - 52 = e at *
    by_cases hle : e ≤ 0
    · have h0 : e.toNat = 0 := by omega
      have hr : roundHalfEven (n * 2 ^ (-e).toNat) 1 = n * 2 ^ (-e).toNat := by
        unfold roundHalfEven
        simp only [Nat.mod_one, Nat.div_one]
        rw [if_pos (by norm_num)]
      rw [h0, pow_zero, mul_one, hr, two_zpow_split e, h0]
      push_cast
      field_simp
    · have he1 : e = 1 := by omega
      have hL53 : floorLog2 n 1 = 53 := by omega
      rw [hL53] at l1
      have hn53 : n = 2 ^ 53 := by
        have h53 : (2 : ℚ) ^ (53 : ℤ) = ((2 ^ 53 : ℕ) : ℚ) := by norm_cast
        rw [h53] at l1
        have : 2 ^ 53 ≤ n := by exact_mod_cast l1
        omega
      subst he1 hn53
      have hr : roundHalfEven (2 ^ 53 * 2 ^ (-(1 : ℤ)).toNat) (1 * 2 ^ (1 : ℤ).toNat) = 2 ^ 52 := by
        decide
      rw [hr]
      norm_num

/-- The whole number `2 ^ 53 + 1` is not a binary64 number: it rounds to `2 ^ 53`. -/
theorem roundToDouble_inexact : roundToDouble 9007199254740993 1 = ⟨4503599627370496, 1⟩ := by
  decide

/-- One more entry in the log never lowers a day's count. -/
theorem windowTaken_le_append (tz now : Int) (data : List TakenEvent) (e : TakenEvent) (i : Nat) :
    windowTaken tz now data i ≤ windowTaken tz now (data ++ [e]) i := by
  rw [windowTaken_append]
  exact Nat.le_add_right _ _

/-! # The claims -/

/-- C1, the code at the failing input: the frequency text `Twice daily for 7 days`
contains the word twice with a capital letter; the builder looks for the
lower-case `twice` only, does not find it, and gives the single time 08:00
instead of 08:00 and 20:00. -/
theorem C1_capital_twice_gives_one_time :
    (basicReminder ⟨some "Amoxicillin", some "500mg", some "Twice daily for 7 days",
        some "7 days", some "take with food"⟩).times = some ["08:00"] := by
  decide

/-- C2, as stated, fails: a reminder with a times list and the positive day
count 7 whose only time is the phrase `as needed` makes both routes answer with
status 500 and no event, where the claim counts 7 × 1 = 7 events. -/
theorem C2_phrase_time_no_events :
    (asNeeded.reminders.all fun r =>
        r.times.isSome && decide (0 < (parseInt r.duration).getD 0)) = true ∧
      (asNeeded.reminders.map fun r =>
        ((parseInt r.duration).getD 0).toNat * (r.times.getD []).length).sum = 7 ∧
      calendarDownload 1700000000000 0 (some asNeeded)
        = .error 500 "Failed to generate calendar" ∧
      calendarJson 1700000000000 0 (some asNeeded) = .error 500 "Failed to generate events" := by
  decide

/-- C2, amended: when every reminder has a positive parsed day count and every
event date exists (the hour and minute parts of each time parse as numbers and
the dates are in the range of `Date`), the JSON route returns, and the download
route returns when there is at least one reminder, exactly
`Σ_i dayCount_i × len(times_i)` events, a reminder without a times list
having no times; with no reminder the download route answers 400 and the sum is 0. -/
theorem C2_event_count (now tz : Int) (p : Prescription)
    (hpos : ∀ r ∈ p.reminders, 0 < (parseInt r.duration).getD 0)
    (hdates : ∀ r ∈ p.reminders, ∀ t ∈ r.times.getD [],
      ∀ i ∈ List.range (dayCount r.duration).toNat, schedulable now tz t i = true) :
    (∃ events, calendarJson now tz (some p) = .ok events ∧
      events.length = (p.reminders.map fun r =>
        ((parseInt r.duration).getD 0).toNat * (r.times.getD []).length).sum) ∧
    (p.reminders ≠ [] → ∃ doc, calendarDownload now tz (some p) = .ok doc ∧
      doc.length = (p.reminders.map fun r =>
        ((parseInt r.duration).getD 0).toNat * (r.times.getD []).length).sum) ∧
    (p.reminders = [] → calendarDownload now tz (some p) = .error 400 "No reminders found" ∧
      (p.reminders.map fun r =>
        ((parseInt r.duration).getD 0).toNat * (r.times.getD []).length).sum = 0) := by
  have hsum : (p.reminders.map fun r =>
        ((parseInt r.duration).getD 0).toNat * (r.times.getD []).length).sum
      = (occurrences p).length := by
    rw [occurrences_length]
    congr 1
    apply List.map_congr_left
    intro r hr
    have h := hpos r hr
    unfold dayCount
    cases hp : parseInt r.duration with
    | none => rw [hp] at h; simp at h
    | some n =>
      rw [hp] at h
      simp only [Option.getD_some] at h ⊢
      rw [if_neg (by omega)]
  have hsched : ∀ o ∈ occurrences p, schedulable now tz o.time o.dayIndex = true := by
    intro o ho
    obtain ⟨hr, ts, hts, ht, hi⟩ := mem_occurrences p o ho
    exact hdates o.reminder hr o.time (by rw [hts]; exact ht) o.dayIndex (List.mem_range.2 hi)
  refine ⟨?_, ?_, ?_⟩
  · obtain ⟨events, hev⟩ := traverse_ok_of_forall (Occurrence.calendarEvent now tz)
      (occurrences p) fun o ho => buildCalendarEvent_ok now tz _ _ _ _ (hsched o ho)
    refine ⟨events, ?_, ?_⟩
    · simp only [calendarJson, jsonEvents_eq_traverse, hev]
    · rw [hsum]
      exact traverse_length _ _ _ hev
  · intro hne
    obtain ⟨doc, hdoc⟩ := traverse_ok_of_forall (Occurrence.vevent p.id now tz)
      (occurrences p) fun o ho => buildVEvent_ok _ now tz _ _ _ _ _ _ (hsched o ho)
    refine ⟨doc, ?_, ?_⟩
    · have hlen : ¬ p.reminders.length = 0 := by
        intro h0
        exact hne (List.length_eq_zero.1 h0)
      simp only [calendarDownload, if_neg hlen, downloadEvents_eq_traverse, hdoc]
    · rw [hsum]
      exact traverse_length _ _ _ hdoc
  · intro hnil
    simp [calendarDownload, hnil]

/-- C2 at a reminder with two clock times and two days: four events on both routes. -/
theorem C2_event_count_witness :
    (∃ events, calendarJson 1700000000000 0 (some twoByTwo) = .ok events ∧
      events.length = (twoByTwo.reminders.map fun r =>
        ((parseInt r.duration).getD 0).toNat * (r.times.getD []).length).sum) ∧
    (twoByTwo.reminders ≠ [] → ∃ doc, calendarDownload 1700000000000 0 (some twoByTwo) = .ok doc ∧
      doc.length = (twoByTwo.reminders.map fun r =>
        ((parseInt r.duration).getD 0).toNat * (r.times.getD []).length).sum) ∧
    (twoByTwo.reminders = [] →
      calendarDownload 1700000000000 0 (some twoByTwo) = .error 400 "No reminders found" ∧
      (twoByTwo.reminders.map fun r =>
        ((parseInt r.duration).getD 0).toNat * (r.times.getD []).length).sum = 0) :=
  C2_event_count 1700000000000 0 twoByTwo (by decide) (by decide)

/-- C3, as stated, fails: for one reminder with the times 08:00 and 20:00 and
two days, both routes list the two days of 08:00 first and the two days of 20:00
after them, so the second event (day offset 1) comes before the third
(day offset 0, the same reminder). -/
theorem C3_day_offset_not_ascending :
    ((calendarDownload 1700000000000 0 (some twoByTwo)).events.map fun e =>
        (e.reminderIndex, e.dayIndex, e.dtstart))
      = [(0, 0, 1699948800000), (0, 1, 1700035200000), (0, 0, 1699992000000),
         (0, 1, 1700078400000)] ∧
    ((calendarJson 1700000000000 0 (some twoByTwo)).events.map fun e => e.start)
      = [1699948800000, 1700035200000, 1699992000000, 1700078400000] := by
  decide

/-- C3, amended: the events of the calendar export appear grouped by reminder in
input order, then by the position of the time in the reminder's times list, then
by day offset ascending.  For the download route the loop variables of its
components are strictly increasing in that order; for the JSON route the k-th
event is the event of the k-th pass of the loops, and the passes are strictly
increasing in that order. -/
theorem C3_loop_order (now tz : Int) (p : Prescription) :
    (∀ doc, calendarDownload now tz (some p) = .ok doc →
      doc.Pairwise fun a b => loopOrder a.key b.key) ∧
    (∀ events, calendarJson now tz (some p) = .ok events →
      List.Forall₂ (fun o e => o.calendarEvent now tz = .ok e) (occurrences p) events ∧
      (occurrences p).Pairwise fun a b => loopOrder a.key b.key) := by
  constructor
  · intro doc h
    have hdoc : traverse (Occurrence.vevent p.id now tz) (occurrences p) = .ok doc := by
      unfold calendarDownload at h
      simp only at h
      split at h
      · cases h
      · rw [downloadEvents_eq_traverse] at h
        cases ht : traverse (Occurrence.vevent p.id now tz) (occurrences p) with
        | error e => rw [ht] at h; cases h
        | ok ics =>
          rw [ht] at h
          simp only [Response.ok.injEq] at h
          rw [h]
    have hf := traverse_forall₂ _ _ _ hdoc
    have hkeys : doc.map VEvent.key = (occurrences p).map Occurrence.key :=
      map_key_of_forall₂ p.id now tz _ _ hf
    have hp := occurrences_pairwise p
    rw [← List.pairwise_map (f := Occurrence.key) (R := loopOrder), ← hkeys,
      List.pairwise_map] at hp
    exact hp
  · intro events h
    have hev : traverse (Occurrence.calendarEvent now tz) (occurrences p) = .ok events := by
      unfold calendarJson at h
      simp only at h
      rw [jsonEvents_eq_traverse] at h
      cases ht : traverse (Occurrence.calendarEvent now tz) (occurrences p) with
      | error e => rw [ht] at h; cases h
      | ok evs =>
        rw [ht] at h
        simp only [Response.ok.injEq] at h
        rw [h]
    exact ⟨traverse_forall₂ _ _ _ hev, occurrences_pairwise p⟩

/-- C3 at a reminder with two clock times and two days. -/
theorem C3_loop_order_witness :
    ((calendarDownload 1700000000000 0 (some twoByTwo)).events.Pairwise
        fun a b => loopOrder a.key b.key) ∧
    (List.Forall₂ (fun o e => o.calendarEvent 1700000000000 0 = .ok e) (occurrences twoByTwo)
        (calendarJson 1700000000000 0 (some twoByTwo)).events ∧
      (occurrences twoByTwo).Pairwise fun a b => loopOrder a.key b.key) :=
  ⟨(C3_loop_order 1700000000000 0 twoByTwo).1 _ (by decide),
   (C3_loop_order 1700000000000 0 twoByTwo).2 _ (by decide)⟩

/-- C4: for every reminder list, start, log and clock, the adherence rate is a
whole number between 0 and 100, and it is 0 whenever `totalExpected` is 0. -/
theorem C4_rate_bounds (tz now : Int) (analysis : Option Analysis) (data : List TakenEvent) :
    0 ≤ (updateAdherenceTracker tz now analysis data).adherenceRate ∧
    (updateAdherenceTracker tz now analysis data).adherenceRate ≤ 100 ∧
    ((updateAdherenceTracker tz now analysis data).totalExpected = 0 →
      (updateAdherenceTracker tz now analysis data).adherenceRate = 0) := by
  refine ⟨Nat.zero_le _, ?_, ?_⟩
  · exact Nat.min_le_right _ _
  · intro h
    simp only [updateAdherenceTracker] at h ⊢
    simp [adherenceRate, h]

/-- C5, as stated, fails: with eight doses a day, five valid days and 23 doses
taken on them, `23 / 40` is the double `0.575`, its product with 100 is the double
`57.49999999999999`, and the rate is 57, where `100 × 23 / 40 = 57.5` rounds
half up to 58 in exact arithmetic. -/
theorem C5_double_rounds_below_half :
    (updateAdherenceTracker 0 1700000000000 (some eightADay) log23).totalTaken = 23 ∧
    (updateAdherenceTracker 0 1700000000000 (some eightADay) log23).totalExpected = 40 ∧
    (updateAdherenceTracker 0 1700000000000 (some eightADay) log23).adherenceRate = 57 ∧
    exactRate 23 40 = 58 := by
  decide

/-- C5, amended: whenever `totalExpected > 0` the rate is `Math.round` of the
double-precision product `(totalTaken / totalExpected) * 100`, at most 100.  It
is exactly 100 whenever `totalTaken ≥ totalExpected`.  When
`totalTaken ≤ totalExpected ≤ 2^43` it is the exact `100 × totalTaken /
totalExpected` rounded half up, except that when this value lies halfway between
two integers the rate may be the lower one. -/
theorem C5_rate_of_totals (tz now : Int) (analysis : Option Analysis) (data : List TakenEvent)
    (hpos : 0 < (updateAdherenceTracker tz now analysis data).totalExpected) :
    (updateAdherenceTracker tz now analysis data).adherenceRate =
      min (mathRound (fmul (fdiv (updateAdherenceTracker tz now analysis data).totalTaken
        (updateAdherenceTracker tz now analysis data).totalExpected) 100)) 100 ∧
    ((updateAdherenceTracker tz now analysis data).totalExpected ≤
        (updateAdherenceTracker tz now analysis data).totalTaken →
      (updateAdherenceTracker tz now analysis data).adherenceRate = 100) ∧
    ((updateAdherenceTracker tz now analysis data).totalTaken ≤
        (updateAdherenceTracker tz now analysis data).totalExpected →
      (updateAdherenceTracker tz now analysis data).totalExpected ≤ 2 ^ 43 →
      (updateAdherenceTracker tz now analysis data).adherenceRate =
          exactRate (updateAdherenceTracker tz now analysis data).totalTaken
            (updateAdherenceTracker tz now analysis data).totalExpected ∨
        ((200 * (updateAdherenceTracker tz now analysis data).totalTaken +
            (updateAdherenceTracker tz now analysis data).totalExpected) %
            (2 * (updateAdherenceTracker tz now analysis data).totalExpected) = 0 ∧
          (updateAdherenceTracker tz now analysis data).adherenceRate + 1 =
            exactRate (updateAdherenceTracker tz now analysis data).totalTaken
              (updateAdherenceTracker tz now analysis data).totalExpected)) := by
  have hrate : (updateAdherenceTracker tz now analysis data).adherenceRate =
      adherenceRate (updateAdherenceTracker tz now analysis data).totalTaken
        (updateAdherenceTracker tz now analysis data).totalExpected
        (updateAdherenceTracker tz now analysis data).validDaysCount := rfl
  rw [hrate]
  refine ⟨?_, ?_, ?_⟩
  · unfold adherenceRate
    simp only [gt_iff_lt, hpos, if_true]
  · intro h
    exact adherenceRate_full _ _ _ hpos h
  · intro h hbig
    exact adherenceRate_near_exact _ _ _ hpos h hbig

/-- C5 at 23 doses taken of 40 expected, where the exact value 57.5 is a tie. -/
theorem C5_rate_of_totals_witness :
    (updateAdherenceTracker 0 1700000000000 (some eightADay) log23).adherenceRate =
        exactRate (updateAdherenceTracker 0 1700000000000 (some eightADay) log23).totalTaken
          (updateAdherenceTracker 0 1700000000000 (some eightADay) log23).totalExpected ∨
      ((200 * (updateAdherenceTracker 0 1700000000000 (some eightADay) log23).totalTaken +
          (updateAdherenceTracker 0 1700000000000 (some eightADay) log23).totalExpected) %
          (2 * (updateAdherenceTracker 0 1700000000000 (some eightADay) log23).totalExpected) = 0 ∧
        (updateAdherenceTracker 0 1700000000000 (some eightADay) log23).adherenceRate + 1 =
          exactRate (updateAdherenceTracker 0 1700000000000 (some eightADay) log23).totalTaken
            (updateAdherenceTracker 0 1700000000000 (some eightADay) log23).totalExpected) :=
  (C5_rate_of_totals 0 1700000000000 (some eightADay) log23 (by decide)).2.2
    (by decide) (by decide)

/-- C6: `totalExpected` is the daily dose count times the number of valid days;
the valid days are the days `d` among `today - 6 … today` with
`start ≤ d ≤ today`, that is `min 7 (max 0 (today - start + 1))` of them; the
result does not change when the durations of the reminders do.  A prescription
that starts today has one valid day, and with two doses a day and one entry
taken today the rate is 50; one that started six or more days ago has seven. -/
theorem C6_expected_total (tz now : Int) (analysis : Option Analysis) (data : List TakenEvent) :
    (updateAdherenceTracker tz now analysis data).totalExpected =
      getDailyExpectedDoses analysis *
        (updateAdherenceTracker tz now analysis data).validDaysCount ∧
    (updateAdherenceTracker tz now analysis data).validDaysCount =
      ((List.range 7).filter fun i : Nat =>
        decide (localDay tz (prescriptionStart now analysis) ≤ localDay tz now - i ∧
          localDay tz now - i ≤ localDay tz now)).length ∧
    ((updateAdherenceTracker tz now analysis data).validDaysCount : Int) =
      min 7 (max 0 (localDay tz now - localDay tz (prescriptionStart now analysis) + 1)) ∧
    (∀ f : Reminder → Option String,
      updateAdherenceTracker tz now (analysis.map (Analysis.withDurations f)) data =
        updateAdherenceTracker tz now analysis data) ∧
    (localDay tz (prescriptionStart now analysis) = localDay tz now →
      (updateAdherenceTracker tz now analysis data).validDaysCount = 1 ∧
      (getDailyExpectedDoses analysis = 2 →
        (data.filter fun e => localDay tz e.takenAt == localDay tz now).length = 1 →
        (updateAdherenceTracker tz now analysis data).totalExpected = 2 ∧
        (updateAdherenceTracker tz now analysis data).totalTaken = 1 ∧
        (updateAdherenceTracker tz now analysis data).adherenceRate = 50)) ∧
    (localDay tz (prescriptionStart now analysis) ≤ localDay tz now - 6 →
      (updateAdherenceTracker tz now analysis data).validDaysCount = 7) := by
  obtain ⟨h1, h2, h3⟩ := adherenceLoop_totals tz now
    (startOfDay tz (prescriptionStart now analysis)) (startOfDay tz now)
    (getDailyExpectedDoses analysis) data 6 ⟨0, 0, 0, []⟩
  have hc := countP_windowValid tz now (prescriptionStart now analysis)
  simp only [Nat.zero_add] at h1 h2 h3
  have hv : (updateAdherenceTracker tz now analysis data).validDaysCount =
      (List.range 7).countP (windowValid tz now
        (startOfDay tz (prescriptionStart now analysis)) (startOfDay tz now)) := h1
  have he : (updateAdherenceTracker tz now analysis data).totalExpected =
      getDailyExpectedDoses analysis * (List.range 7).countP (windowValid tz now
        (startOfDay tz (prescriptionStart now analysis)) (startOfDay tz now)) := h2
  have ht : (updateAdherenceTracker tz now analysis data).totalTaken =
      (((List.range 7).filter (windowValid tz now
        (startOfDay tz (prescriptionStart now analysis)) (startOfDay tz now))).map
          (windowTaken tz now data)).sum := h3
  refine ⟨by rw [he, hv], ?_, by rw [hv]; exact hc, ?_, ?_, ?_⟩
  · rw [hv, List.countP_eq_length_filter]
    congr 1
    apply List.filter_congr
    intro i _
    rw [Bool.eq_iff_iff, windowValid_iff, decide_eq_true_eq]
    omega
  · intro f
    unfold updateAdherenceTracker
    rw [getDailyExpectedDoses_withDurations, prescriptionStart_withDurations]
  · intro hs
    have hv1 : (updateAdherenceTracker tz now analysis data).validDaysCount = 1 := by
      have : ((updateAdherenceTracker tz now analysis data).validDaysCount : Int) = 1 := by
        rw [hv, hc, hs]
        omega
      exact_mod_cast this
    refine ⟨hv1, ?_⟩
    intro hd htoday
    have hfilter : (List.range 7).filter (windowValid tz now
        (startOfDay tz (prescriptionStart now analysis)) (startOfDay tz now)) = [0] := by
      have hr : List.range 7 = [0, 1, 2, 3, 4, 5, 6] := by decide
      have hw : ∀ i : Nat, windowValid tz now (startOfDay tz (prescriptionStart now analysis))
          (startOfDay tz now) i = decide (i = 0) := by
        intro i
        rw [Bool.eq_iff_iff, windowValid_iff, decide_eq_true_eq, hs]
        omega
      simp [hr, List.filter_cons, hw]
    have hexp : (updateAdherenceTracker tz now analysis data).totalExpected = 2 := by
      rw [he, ← hv, hv1, hd]
    have htk : (updateAdherenceTracker tz now analysis data).totalTaken = 1 := by
      rw [ht, hfilter]
      simp only [List.map_cons, List.map_nil, List.sum_cons, List.sum_nil, Nat.add_zero]
      unfold windowTaken toDateString
      simp only [localDay_startOfDay, Nat.cast_zero, zero_mul, sub_zero]
      exact htoday
    refine ⟨hexp, htk, ?_⟩
    have hrate : (updateAdherenceTracker tz now analysis data).adherenceRate =
        adherenceRate (updateAdherenceTracker tz now analysis data).totalTaken
          (updateAdherenceTracker tz now analysis data).totalExpected
          (updateAdherenceTracker tz now analysis data).validDaysCount := rfl
    rw [hrate, hexp, htk, hv1]
    decide
  · intro hs
    have : ((updateAdherenceTracker tz now analysis data).validDaysCount : Int) = 7 := by
      rw [hv, hc]
      omega
    exact_mod_cast this

/-- C6 at a prescription that starts today, two doses a day, one taken today. -/
theorem C6_expected_total_witness :
    (updateAdherenceTracker 0 1700000000000 (some startsToday)
        [⟨"p1", some "Paracetamol", some "08:00", 1700000000001⟩]).validDaysCount = 1 ∧
    (updateAdherenceTracker 0 1700000000000 (some startsToday)
        [⟨"p1", some "Paracetamol", some "08:00", 1700000000001⟩]).totalExpected = 2 ∧
    (updateAdherenceTracker 0 1700000000000 (some startsToday)
        [⟨"p1", some "Paracetamol", some "08:00", 1700000000001⟩]).totalTaken = 1 ∧
    (updateAdherenceTracker 0 1700000000000 (some startsToday)
        [⟨"p1", some "Paracetamol", some "08:00", 1700000000001⟩]).adherenceRate = 50 :=
  have h := (C6_expected_total 0 1700000000000 (some startsToday)
    [⟨"p1", some "Paracetamol", some "08:00", 1700000000001⟩]).2.2.2.2.1 (by decide)
  have h2 := h.2 (by decide) (by decide)
  ⟨h.1, h2.1, h2.2.1, h2.2.2⟩

/-- C7, as stated, fails: with one reminder that has no times list and one with
two times the function returns 3, where the larger of 1 and the sum of the
lengths of the times lists is 2. -/
theorem C7_missing_times_counts_one :
    getDailyExpectedDoses (some oneWithoutTimes) = 3 ∧
    max 1 ((((some oneWithoutTimes).bind Analysis.reminders).getD []).map fun r =>
      (r.times.getD []).length).sum = 2 := by
  decide

/-- C7, amended: `getDailyExpectedDoses` returns the larger of 1 and the sum over
the reminders of the length of the reminder's times list, a reminder without a
times list counting 1; for an empty or missing reminder list it returns 1, and
the result is never 0. -/
theorem C7_daily_expected_doses (analysis : Option Analysis) :
    getDailyExpectedDoses analysis =
      (match analysis.bind Analysis.reminders with
       | none => 1
       | some rs => max 1 (rs.map fun r =>
           match r.times with
           | some times => times.length
           | none => 1).sum) ∧
    (analysis.bind Analysis.reminders = none → getDailyExpectedDoses analysis = 1) ∧
    (analysis.bind Analysis.reminders = some [] → getDailyExpectedDoses analysis = 1) ∧
    1 ≤ getDailyExpectedDoses analysis := by
  unfold getDailyExpectedDoses
  cases analysis.bind Analysis.reminders with
  | none => simp
  | some rs =>
    simp only [foldl_add_eq_sum, Nat.zero_add]
    refine ⟨Nat.max_comm _ _, by simp, ?_, Nat.le_max_right _ _⟩
    intro h
    simp only [Option.some.injEq] at h
    subst h
    rfl

/-- C8: the result of the tracker depends on the log only through the days of
its entries, counted with multiplicity: two logs whose lists of days are
permutations of each other (a permuted log, or one with the medicine or the
scheduled time of entries changed) give the same per-day counts, the same
totals and the same rate. -/
theorem C8_log_order_irrelevant (tz now : Int) (analysis : Option Analysis)
    (log1 log2 : List TakenEvent)
    (h : (log1.map fun e => toDateString tz e.takenAt).Perm
      (log2.map fun e => toDateString tz e.takenAt)) :
    updateAdherenceTracker tz now analysis log1 = updateAdherenceTracker tz now analysis log2 := by
  have hw : ∀ i, windowTaken tz now log1 i = windowTaken tz now log2 i := by
    intro i
    rw [windowTaken_eq_count, windowTaken_eq_count]
    exact h.count_eq _
  unfold updateAdherenceTracker
  simp only [adherenceLoop_congr tz now _ _ _ log1 log2 hw]

/-- C8 at a log of two entries, swapped and with other medicines and slots. -/
theorem C8_log_order_irrelevant_witness :
    updateAdherenceTracker 0 1700000000000 (some startsToday)
        [⟨"p1", some "Paracetamol", some "08:00", 1700000000001⟩,
         ⟨"p1", some "Paracetamol", some "20:00", 1699900000000⟩]
      = updateAdherenceTracker 0 1700000000000 (some startsToday)
        [⟨"p1", some "Ibuprofen", some "night", 1699900000000⟩,
         ⟨"p1", none, none, 1700000000001⟩] :=
  C8_log_order_irrelevant 0 1700000000000 (some startsToday) _ _ (by decide)

/-- C9: an entry whose day is not a valid day of the strip (before the day of
the start, more than six days before today, or after today), added to the log,
leaves `totalTaken`, `totalExpected`, the number of valid days and the rate as
they were. -/
theorem C9_invalid_day_ignored (tz now : Int) (analysis : Option Analysis)
    (log : List TakenEvent) (e : TakenEvent)
    (h : localDay tz e.takenAt < localDay tz (prescriptionStart now analysis) ∨
      localDay tz e.takenAt < localDay tz now - 6 ∨ localDay tz now < localDay tz e.takenAt) :
    (updateAdherenceTracker tz now analysis (log ++ [e])).totalTaken =
      (updateAdherenceTracker tz now analysis log).totalTaken ∧
    (updateAdherenceTracker tz now analysis (log ++ [e])).totalExpected =
      (updateAdherenceTracker tz now analysis log).totalExpected ∧
    (updateAdherenceTracker tz now analysis (log ++ [e])).validDaysCount =
      (updateAdherenceTracker tz now analysis log).validDaysCount ∧
    (updateAdherenceTracker tz now analysis (log ++ [e])).adherenceRate =
      (updateAdherenceTracker tz now analysis log).adherenceRate := by
  obtain ⟨a1, a2, a3⟩ := adherenceLoop_totals tz now
    (startOfDay tz (prescriptionStart now analysis)) (startOfDay tz now)
    (getDailyExpectedDoses analysis) (log ++ [e]) 6 ⟨0, 0, 0, []⟩
  obtain ⟨b1, b2, b3⟩ := adherenceLoop_totals tz now
    (startOfDay tz (prescriptionStart now analysis)) (startOfDay tz now)
    (getDailyExpectedDoses analysis) log 6 ⟨0, 0, 0, []⟩
  have hsum : (((List.range (6 + 1)).filter (windowValid tz now
        (startOfDay tz (prescriptionStart now analysis)) (startOfDay tz now))).map
          (windowTaken tz now (log ++ [e]))).sum =
      (((List.range (6 + 1)).filter (windowValid tz now
        (startOfDay tz (prescriptionStart now analysis)) (startOfDay tz now))).map
          (windowTaken tz now log)).sum := by
    congr 1
    apply List.map_congr_left
    intro i hi
    rw [List.mem_filter, List.mem_range, windowValid_iff] at hi
    rw [windowTaken_append, if_neg (by omega)]
    rfl
  have t1 : (updateAdherenceTracker tz now analysis (log ++ [e])).totalTaken =
      (updateAdherenceTracker tz now analysis log).totalTaken := by
    show (adherenceLoop _ _ _ _ _ _ 6 _).totalTaken = (adherenceLoop _ _ _ _ _ _ 6 _).totalTaken
    rw [a3, b3, hsum]
  have t2 : (updateAdherenceTracker tz now analysis (log ++ [e])).totalExpected =
      (updateAdherenceTracker tz now analysis log).totalExpected := by
    show (adherenceLoop _ _ _ _ _ _ 6 _).totalExpected =
      (adherenceLoop _ _ _ _ _ _ 6 _).totalExpected
    rw [a2, b2]
  have t3 : (updateAdherenceTracker tz now analysis (log ++ [e])).validDaysCount =
      (updateAdherenceTracker tz now analysis log).validDaysCount := by
    show (adherenceLoop _ _ _ _ _ _ 6 _).validDaysCount =
      (adherenceLoop _ _ _ _ _ _ 6 _).validDaysCount
    rw [a1, b1]
  refine ⟨t1, t2, t3, ?_⟩
  show adherenceRate _ _ _ = adherenceRate _ _ _
  have u1 := t1
  have u2 := t2
  have u3 := t3
  simp only [updateAdherenceTracker] at u1 u2 u3
  rw [u1, u2, u3]

/-- C9 at an entry taken the day before the prescription starts. -/
theorem C9_invalid_day_ignored_witness :
    (updateAdherenceTracker 0 1700000000000 (some startsToday)
        ([⟨"p1", some "Paracetamol", some "08:00", 1700000000001⟩] ++
          [⟨"p1", some "Paracetamol", some "20:00", 1699900000000⟩])).totalTaken =
      (updateAdherenceTracker 0 1700000000000 (some startsToday)
        [⟨"p1", some "Paracetamol", some "08:00", 1700000000001⟩]).totalTaken ∧
    (updateAdherenceTracker 0 1700000000000 (some startsToday)
        ([⟨"p1", some "Paracetamol", some "08:00", 1700000000001⟩] ++
          [⟨"p1", some "Paracetamol", some "20:00", 1699900000000⟩])).totalExpected =
      (updateAdherenceTracker 0 1700000000000 (some startsToday)
        [⟨"p1", some "Paracetamol", some "08:00", 1700000000001⟩]).totalExpected ∧
    (updateAdherenceTracker 0 1700000000000 (some startsToday)
        ([⟨"p1", some "Paracetamol", some "08:00", 1700000000001⟩] ++
          [⟨"p1", some "Paracetamol", some "20:00", 1699900000000⟩])).validDaysCount =
      (updateAdherenceTracker 0 1700000000000 (some startsToday)
        [⟨"p1", some "Paracetamol", some "08:00", 1700000000001⟩]).validDaysCount ∧
    (updateAdherenceTracker 0 1700000000000 (some startsToday)
        ([⟨"p1", some "Paracetamol", some "08:00", 1700000000001⟩] ++
          [⟨"p1", some "Paracetamol", some "20:00", 1699900000000⟩])).adherenceRate =
      (updateAdherenceTracker 0 1700000000000 (some startsToday)
        [⟨"p1", some "Paracetamol", some "08:00", 1700000000001⟩]).adherenceRate :=
  C9_invalid_day_ignored 0 1700000000000 (some startsToday)
    [⟨"p1", some "Paracetamol", some "08:00", 1700000000001⟩]
    ⟨"p1", some "Paracetamol", some "20:00", 1699900000000⟩ (by decide)

/-- C10: for every duration text, the duration of the reminder built by the
fallback builder is the first maximal run of decimal digits of the text when it
has a digit, and `7` otherwise or when the text is missing; the builder gives a
result in every case. -/
theorem C10_duration_first_digit_run (med : MedicationRecord) :
    (basicReminder med).duration = some (specDuration med.duration) := by
  unfold basicReminder basicDuration specDuration
  cases med.duration with
  | none => rfl
  | some s =>
    simp only [matchDigits_eq]
    cases s.toList.any isDigit <;> rfl

/-- C11, as stated, fails: for the duration text `0 days` the builder gives the
duration `0`, which is not at least 1. -/
theorem C11_zero_days_duration :
    (basicReminder ⟨some "Cetirizine", none, none, some "0 days", none⟩).duration = some "0" ∧
    parseInt (basicReminder ⟨some "Cetirizine", none, none, some "0 days", none⟩).duration
      = some 0 := by
  decide

/-- C11, amended: for every duration text, the duration of the reminder built by
the fallback builder reads as a whole number that is not negative, and it is 0
exactly when the built text (the first digit run of the duration) consists of
zeros only; otherwise it is at least 1. -/
theorem C11_duration_nonnegative (med : MedicationRecord) :
    ∃ n : Nat, parseInt (basicReminder med).duration = some (n : Int) ∧
      (n = 0 ↔ ∀ c ∈ (basicDuration med.duration).toList, c = '0') ∧
      (1 ≤ n ∨ ∀ c ∈ (basicDuration med.duration).toList, c = '0') := by
  obtain ⟨c, cs, hrun, hc, hcs⟩ := basicDuration_digits med.duration
  have hzero : readDigits 10 (c.toNat - 48) cs = 0 ↔
      ∀ x ∈ (basicDuration med.duration).toList, x = '0' := by
    rw [hrun, readDigits_eq_zero cs hcs]
    have h0 : c = '0' ↔ c.toNat = 48 := by
      constructor
      · intro h
        rw [h]
        rfl
      · intro h
        rw [← Char.ofNat_toNat c, h]
    rw [isDigit_iff] at hc
    simp only [List.mem_cons, forall_eq_or_imp, h0]
    constructor
    · rintro ⟨h1, h2⟩
      exact ⟨by omega, h2⟩
    · rintro ⟨h1, h2⟩
      exact ⟨by omega, h2⟩
  refine ⟨readDigits 10 (c.toNat - 48) cs, ?_, hzero, ?_⟩
  · show parseIntChars (jsToString (some (basicDuration med.duration))).toList = _
    simp only [jsToString, hrun]
    exact parseIntChars_digits c cs hc hcs
  · rcases Nat.eq_zero_or_pos (readDigits 10 (c.toNat - 48) cs) with h | h
    · exact Or.inr (hzero.1 h)
    · exact Or.inl h

/-- C12, as stated, fails: for a reminder with the duration `0` and one time, both
routes emit seven events. -/
theorem C12_zero_duration_seven_events :
    (calendarDownload 1700000000000 0 (some zeroDuration)).events.length = 7 ∧
    (calendarJson 1700000000000 0 (some zeroDuration)).events.length = 7 := by
  decide

/-- C12, amended: a reminder whose duration reads 0 gets the default of 7 days.
Seven passes of the loops per time belong to it; the download document has
that many components with its index, the events of the JSON route are the
events of the passes, and both routes answer with their events whenever every
pass of the prescription has its dates. -/
theorem C12_zero_duration_defaults (now tz : Int) (p : Prescription) (k : Nat) (r : Reminder)
    (hr : p.reminders[k]? = some r) (hzero : parseInt r.duration = some 0) :
    dayCount r.duration = 7 ∧
    (occurrences p).countP (fun o => o.reminderIndex == k) = 7 * (r.times.getD []).length ∧
    (∀ doc, calendarDownload now tz (some p) = .ok doc →
      doc.countP (fun e => e.reminderIndex == k) = 7 * (r.times.getD []).length) ∧
    (∀ events, calendarJson now tz (some p) = .ok events →
      List.Forall₂ (fun o e => o.calendarEvent now tz = .ok e) (occurrences p) events) ∧
    ((∀ o ∈ occurrences p, schedulable now tz o.time o.dayIndex = true) →
      (∃ doc, calendarDownload now tz (some p) = .ok doc) ∧
      ∃ events, calendarJson now tz (some p) = .ok events) := by
  have hd : dayCount r.duration = 7 := by
    unfold dayCount
    rw [hzero]
    rfl
  have hcount : (occurrences p).countP (fun o => o.reminderIndex == k)
      = 7 * (r.times.getD []).length := by
    rw [countP_occurrences, hr]
    simp only [Option.map_some', Option.getD_some, hd]
    rfl
  refine ⟨hd, hcount, ?_, ?_, ?_⟩
  · intro doc h
    rw [countP_document now tz p doc h, hcount]
  · intro events h
    exact traverse_forall₂ _ _ _ (calendarJson_ok now tz p events h)
  · intro hs
    obtain ⟨doc, hdoc⟩ := traverse_ok_of_forall (Occurrence.vevent p.id now tz)
      (occurrences p) fun o ho => buildVEvent_ok _ now tz _ _ _ _ _ _ (hs o ho)
    obtain ⟨events, hev⟩ := traverse_ok_of_forall (Occurrence.calendarEvent now tz)
      (occurrences p) fun o ho => buildCalendarEvent_ok now tz _ _ _ _ (hs o ho)
    have hlen : ¬ p.reminders.length = 0 := by
      intro h0
      rw [List.length_eq_zero.1 h0] at hr
      cases hr
    constructor
    · exact ⟨doc, by simp only [calendarDownload, if_neg hlen, downloadEvents_eq_traverse, hdoc]⟩
    · exact ⟨events, by simp only [calendarJson, jsonEvents_eq_traverse, hev]⟩

/-- C12 at a reminder with the duration `0` and the single time 08:00. -/
theorem C12_zero_duration_defaults_witness :
    dayCount (some "0") = 7 ∧
    (calendarDownload 1700000000000 0 (some zeroDuration)).events.countP
      (fun e => e.reminderIndex == 0) = 7 * 1 :=
  have h := C12_zero_duration_defaults 1700000000000 0 zeroDuration 0
    ⟨some "Cetirizine", some ["08:00"], false, some "0"⟩ (by decide) (by decide)
  ⟨h.1, h.2.2.1 _ (by decide)⟩

/-- C13: whenever the document of a stored prescription is generated at two
clock instants (in any zones), the two documents carry the same sequence of
UIDs, and each UID is the text made of the prescription id, the reminder index,
the time index and the day index. -/
theorem C13_uids_independent_of_clock (now1 tz1 now2 tz2 : Int) (p : Prescription)
    (doc1 doc2 : List VEvent)
    (h1 : calendarDownload now1 tz1 (some p) = .ok doc1)
    (h2 : calendarDownload now2 tz2 (some p) = .ok doc2) :
    doc1.map VEvent.uid = doc2.map VEvent.uid ∧
    doc1.map VEvent.uid = (occurrences p).map (fun o => uidOf p.id o.key) ∧
    (∀ e ∈ doc1, e.uid = uidOf p.id (e.reminderIndex, e.timeIndex, e.dayIndex)) := by
  have f1 := traverse_forall₂ _ _ _ (calendarDownload_ok now1 tz1 p doc1 h1)
  have f2 := traverse_forall₂ _ _ _ (calendarDownload_ok now2 tz2 p doc2 h2)
  have u1 := map_uid_of_forall₂ p.id now1 tz1 _ _ f1
  have u2 := map_uid_of_forall₂ p.id now2 tz2 _ _ f2
  refine ⟨by rw [u1, u2], u1, ?_⟩
  intro e he
  obtain ⟨o, _, ho⟩ := mem_document now1 tz1 p doc1 h1 e he
  rw [buildVEvent_uid _ _ _ _ _ ho, ← buildVEvent_key _ _ _ _ _ ho]
  rfl

/-- C13 at the document of `twoByTwo`, generated at an instant and again eleven
days and some hours later in another zone. -/
theorem C13_uids_independent_of_clock_witness :
    (calendarDownload 1700000000000 0 (some twoByTwo)).events.map VEvent.uid
      = (calendarDownload 1701000000000 19800000 (some twoByTwo)).events.map VEvent.uid :=
  (C13_uids_independent_of_clock 1700000000000 0 1701000000000 19800000 twoByTwo
    (calendarDownload 1700000000000 0 (some twoByTwo)).events
    (calendarDownload 1701000000000 19800000 (some twoByTwo)).events
    (by decide) (by decide)).1

/-- C14: within the document of a prescription no two components share a UID,
and components with equal UIDs have the same reminder index, time index and day
index; two documents of prescriptions with different ids, neither containing a
dash, have no UID in common. -/
theorem C14_uids_unique (now1 tz1 now2 tz2 : Int) (p1 p2 : Prescription)
    (doc1 doc2 : List VEvent)
    (h1 : calendarDownload now1 tz1 (some p1) = .ok doc1)
    (h2 : calendarDownload now2 tz2 (some p2) = .ok doc2) :
    (doc1.map VEvent.uid).Nodup ∧
    (∀ a ∈ doc1, ∀ b ∈ doc1, a.uid = b.uid →
      a.reminderIndex = b.reminderIndex ∧ a.timeIndex = b.timeIndex ∧
        a.dayIndex = b.dayIndex) ∧
    ('-' ∉ p1.id.toList → '-' ∉ p2.id.toList → p1.id ≠ p2.id →
      ∀ a ∈ doc1, ∀ b ∈ doc2, a.uid ≠ b.uid) := by
  have huid1 : ∀ e ∈ doc1, e.uid = uidOf p1.id e.key := by
    intro e he
    obtain ⟨o, _, ho⟩ := mem_document now1 tz1 p1 doc1 h1 e he
    rw [buildVEvent_uid _ _ _ _ _ ho, buildVEvent_key _ _ _ _ _ ho]
  have huid2 : ∀ e ∈ doc2, e.uid = uidOf p2.id e.key := by
    intro e he
    obtain ⟨o, _, ho⟩ := mem_document now2 tz2 p2 doc2 h2 e he
    rw [buildVEvent_uid _ _ _ _ _ ho, buildVEvent_key _ _ _ _ _ ho]
  refine ⟨?_, ?_, ?_⟩
  · rw [map_uid_of_forall₂ p1.id now1 tz1 _ _
      (traverse_forall₂ _ _ _ (calendarDownload_ok now1 tz1 p1 doc1 h1))]
    unfold List.Nodup
    rw [List.pairwise_map]
    refine (occurrences_pairwise p1).imp ?_
    intro a b hab heq
    exact loopOrder_ne _ _ hab (uidOf_key_inj _ _ _ heq)
  · intro a ha b hb hab
    rw [huid1 a ha, huid1 b hb] at hab
    have hk := uidOf_key_inj _ _ _ hab
    unfold VEvent.key at hk
    simp only [Prod.mk.injEq] at hk
    exact hk
  · intro hd1 hd2 hne a ha b hb hab
    rw [huid1 a ha, huid2 b hb] at hab
    exact hne (uidOf_id_inj _ _ _ _ hd1 hd2 hab)

/-- C14 at the documents of `twoByTwo` and of `zeroDuration`. -/
theorem C14_uids_unique_witness :
    ((calendarDownload 1700000000000 0 (some twoByTwo)).events.map VEvent.uid).Nodup :=
  (C14_uids_unique 1700000000000 0 1700000000000 0 twoByTwo zeroDuration
    (calendarDownload 1700000000000 0 (some twoByTwo)).events
    (calendarDownload 1700000000000 0 (some zeroDuration)).events
    (by decide) (by decide)).1

/-- C15: every component of the calendar document ends exactly 15 minutes after
it starts and carries an alarm with the trigger `-PT15M`, 15 minutes before
the start; the start is the local midnight of the generation date, plus the day
offset of the component in days, plus the hours and the minutes read from the
time at the component's position in its reminder's times list. -/
theorem C15_component_instants (now tz : Int) (p : Prescription) (doc : List VEvent)
    (h : calendarDownload now tz (some p) = .ok doc) (e : VEvent) (he : e ∈ doc) :
    e.dtend = e.dtstart + 15 * 60000 ∧ e.alarmTrigger = "-PT15M" ∧
    ∃ r times t hours minutes,
      p.reminders[e.reminderIndex]? = some r ∧ r.times = some times ∧
      times[e.timeIndex]? = some t ∧
      parseInt (splitHoursMinutes t).1 = some hours ∧
      parseInt (splitHoursMinutes t).2 = some minutes ∧
      e.dtstart = startOfDay tz now + (e.dayIndex : Int) * msPerDay +
        hours * 3600000 + minutes * 60000 := by
  obtain ⟨o, hmem, ho⟩ := mem_document now tz p doc h e he
  obtain ⟨hstart, hend, htrig, _, _⟩ := vevent_fields _ _ _ _ _ ho
  obtain ⟨hours, minutes, hh, hm, hs⟩ := eventDate_some _ _ _ _ _ hstart
  obtain ⟨hr, ts, hts, ht⟩ := mem_occurrences_index p o hmem
  have hk := buildVEvent_key _ _ _ _ _ ho
  unfold VEvent.key Occurrence.key at hk
  simp only [Prod.mk.injEq] at hk
  obtain ⟨k1, k2, k3⟩ := hk
  refine ⟨hend, htrig, o.reminder, ts, o.time, hours, minutes, ?_, hts, ?_, hh, hm, ?_⟩
  · rw [k1]; exact hr
  · rw [k2]; exact ht
  · rw [k3]; exact hs

/-- C15 at the first component of the document of `twoByTwo`: it starts at
08:00 of the generation day and ends at 08:15. -/
theorem C15_component_instants_witness :
    firstComponent.dtend = firstComponent.dtstart + 15 * 60000 ∧
    firstComponent.alarmTrigger = "-PT15M" ∧
    ∃ r times t hours minutes,
      twoByTwo.reminders[firstComponent.reminderIndex]? = some r ∧ r.times = some times ∧
      times[firstComponent.timeIndex]? = some t ∧
      parseInt (splitHoursMinutes t).1 = some hours ∧
      parseInt (splitHoursMinutes t).2 = some minutes ∧
      firstComponent.dtstart = startOfDay 0 1700000000000 +
        (firstComponent.dayIndex : Int) * msPerDay + hours * 3600000 + minutes * 60000 :=
  C15_component_instants 1700000000000 0 twoByTwo
    (calendarDownload 1700000000000 0 (some twoByTwo)).events (by decide)
    firstComponent (by decide)

/-- C16, as stated, fails: the description of the first component of the
document has the line `Dosage: Take as prescribed`, the description of the
first event of the JSON list has not. -/
theorem C16_descriptions_differ :
    ((calendarDownload 1700000000000 0 (some twoByTwo)).events.map VEvent.description).head?
      = some "Medication: Paracetamol\nDosage: Take as prescribed\nWith food: Yes\nDay 1 of 2" ∧
    ((calendarJson 1700000000000 0 (some twoByTwo)).events.map CalendarEvent.description).head?
      = some "Medication: Paracetamol\nWith food: Yes\nDay 1 of 2" := by
  decide

/-- C16, amended: a prescription with at least one reminder all of whose passes
have their dates gets a document; and whenever the download route answers with
a document, the JSON route answers with an event list of the same length in the
same order, whose k-th event has the title and the start instant of the k-th
component, and the description of the k-th component without its line
`Dosage: Take as prescribed`. -/
theorem C16_same_events (now tz : Int) (p : Prescription) :
    (p.reminders ≠ [] → (∀ o ∈ occurrences p, schedulable now tz o.time o.dayIndex = true) →
      ∃ doc, calendarDownload now tz (some p) = .ok doc) ∧
    (∀ doc, calendarDownload now tz (some p) = .ok doc →
      ∃ events, calendarJson now tz (some p) = .ok events ∧ events.length = doc.length ∧
        List.Forall₂ (fun e c => e.title = c.summary ∧ e.start = c.dtstart ∧
          ∃ m rest, c.description = "Medication: " ++ m ++ "\nDosage: Take as prescribed" ++ rest ∧
            e.description = "Medication: " ++ m ++ rest) events doc) := by
  constructor
  · intro hne hs
    obtain ⟨doc, hdoc⟩ := traverse_ok_of_forall (Occurrence.vevent p.id now tz)
      (occurrences p) fun o ho => buildVEvent_ok _ now tz _ _ _ _ _ _ (hs o ho)
    have hlen : ¬ p.reminders.length = 0 := fun h0 => hne (List.length_eq_zero.1 h0)
    exact ⟨doc, by simp only [calendarDownload, if_neg hlen, downloadEvents_eq_traverse, hdoc]⟩
  · intro doc h
    have hf := traverse_forall₂ _ _ _ (calendarDownload_ok now tz p doc h)
    have key : ∀ (os : List Occurrence) (cs : List VEvent),
        List.Forall₂ (fun o c => o.vevent p.id now tz = .ok c) os cs →
        ∃ events, traverse (Occurrence.calendarEvent now tz) os = .ok events ∧
          List.Forall₂ (fun e c => e.title = c.summary ∧ e.start = c.dtstart ∧
            ∃ m rest, c.description = "Medication: " ++ m ++ "\nDosage: Take as prescribed" ++ rest ∧
              e.description = "Medication: " ++ m ++ rest) events cs := by
      intro os cs hos
      induction hos with
      | nil => exact ⟨[], rfl, List.Forall₂.nil⟩
      | @cons o c os cs hoc _ ih =>
        obtain ⟨events, hev, hrel⟩ := ih
        obtain ⟨hstart, _, _, hsum, hdesc⟩ := vevent_fields _ _ _ _ _ hoc
        obtain ⟨ev, hce, htitle, hst, hd⟩ : ∃ ev, o.calendarEvent now tz = .ok ev ∧
            ev.title = "💊 Take " ++ jsToString o.reminder.medicine ∧ ev.start = c.dtstart ∧
            ev.description = "Medication: " ++ jsToString o.reminder.medicine ++
              "\nWith food: " ++ (if o.reminder.withFood then "Yes" else "No") ++
              "\nDay " ++ toString (o.dayIndex + 1) ++ " of " ++
              toString (dayCount o.reminder.duration) :=
          ⟨_, calendarEvent_of_eventDate now tz o c.dtstart hstart, rfl, rfl, rfl⟩
        refine ⟨ev :: events, by simp only [traverse, hce, hev], List.Forall₂.cons ?_ hrel⟩
        refine ⟨htitle.trans hsum.symm, hst, jsToString o.reminder.medicine,
          "\nWith food: " ++ (if o.reminder.withFood then "Yes" else "No") ++
            "\nDay " ++ toString (o.dayIndex + 1) ++ " of " ++
            toString (dayCount o.reminder.duration), ?_, ?_⟩
        · rw [hdesc]
          have hsplit : "\nDosage: Take as prescribed\nWith food: "
              = "\nDosage: Take as prescribed" ++ "\nWith food: " := by decide
          rw [hsplit]
          simp only [String.append_assoc]
        · rw [hd]
          simp only [String.append_assoc]
    obtain ⟨events, hev, hrel⟩ := key _ _ hf
    refine ⟨events, ?_, hrel.length_eq, hrel⟩
    simp only [calendarJson, jsonEvents_eq_traverse, hev]

/-- C16 at `twoByTwo`: the download route answers with a document. -/
theorem C16_same_events_witness :
    ∃ doc, calendarDownload 1700000000000 0 (some twoByTwo) = .ok doc :=
  (C16_same_events 1700000000000 0 twoByTwo).1 (by decide) (by decide)

/-- C17, as stated, fails: for a stored prescription without reminders the
download route answers with the error status 400. -/
theorem C17_download_refuses_no_reminders :
    calendarDownload 1700000000000 0 (some noReminders) = .error 400 "No reminders found" := by
  decide

/-- C17, amended: for a stored prescription with zero reminders the JSON route
answers with the empty event list and no error, and the download route answers
with the status 400 and the message `No reminders found`. -/
theorem C17_no_reminders (now tz : Int) (id : String) :
    calendarJson now tz (some ⟨id, []⟩) = .ok [] ∧
    calendarDownload now tz (some ⟨id, []⟩) = .error 400 "No reminders found" := by
  constructor <;> rfl

/-- C18, the code at the failing input: the today view turns the slot `morning`
into 08:00, while both export routes read hours and minutes from the text
`morning` itself, find none, and answer with the status 500 and no event. -/
theorem C18_named_slot_breaks_export :
    convertToTimeFormat (some "morning") = .text "08:00" ∧
    calendarDownload 1700000000000 0 (some namedSlot)
      = .error 500 "Failed to generate calendar" ∧
    calendarJson 1700000000000 0 (some namedSlot) = .error 500 "Failed to generate events" := by
  decide

/-- C19: `convertToTimeFormat` maps the named slots morning, afternoon, evening
and night to 08:00, 14:00, 18:00 and 20:00. -/
theorem C19_named_slots :
    convertToTimeFormat (some "morning") = .text "08:00" ∧
    convertToTimeFormat (some "afternoon") = .text "14:00" ∧
    convertToTimeFormat (some "evening") = .text "18:00" ∧
    convertToTimeFormat (some "night") = .text "20:00" := by
  decide

/-- C20, the code at the failing input: the name `constructor` is none of the
four slots, yet `convertToTimeFormat` does not return it unchanged: the lookup
finds the inherited property of that name and returns the function `Object`. -/
theorem C20_inherited_key_not_unchanged :
    convertToTimeFormat (some "constructor") = .objectConstructor ∧
    convertToTimeFormat (some "__proto__") = .objectPrototype := by
  decide

/-- C21: a medication record whose frequency text is missing, empty, or has
neither `twice` nor `three` in it in any letter case gets the times
`["08:00"]` from the fallback builder, which is a total function and so never
fails. -/
theorem C21_other_frequency_gives_morning (med : MedicationRecord)
    (h : med.frequency = none ∨ med.frequency = some "" ∨
      ∃ f, med.frequency = some f ∧ includes (toLowerCase f) "twice" = false ∧
        includes (toLowerCase f) "three" = false) :
    (basicReminder med).times = some ["08:00"] := by
  show some (basicTimes med.frequency) = some ["08:00"]
  rw [basicTimes_of_not_includes]
  intro s hs
  rcases h with h | h | ⟨f, hf, h1, h2⟩
  · rw [h] at hs
    exact absurd hs (by simp)
  · rw [h] at hs
    obtain rfl : "" = s := Option.some.inj hs
    exact ⟨by decide, by decide⟩
  · rw [hf] at hs
    obtain rfl : f = s := Option.some.inj hs
    constructor
    · cases hc : includes f "twice" with
      | false => rfl
      | true => rw [includes_toLowerCase f "twice" (by decide) hc] at h1; exact absurd h1 (by simp)
    · cases hc : includes f "three" with
      | false => rfl
      | true => rw [includes_toLowerCase f "three" (by decide) hc] at h2; exact absurd h2 (by simp)

/-- C21, at a record with the frequency `Once DAILY at bedtime`. -/
theorem C21_other_frequency_gives_morning_witness :
    (basicReminder ⟨some "Atorvastatin", none, some "Once DAILY at bedtime", none, none⟩).times
      = some ["08:00"] :=
  C21_other_frequency_gives_morning _ (Or.inr (Or.inr ⟨_, rfl, by decide, by decide⟩))

/-- C22: the `withFood` of a built reminder is true exactly when the
instructions are present and their lower-case form has `food` in it as a
contiguous block; with the instructions absent it is false. -/
theorem C22_with_food (med : MedicationRecord) :
    ((basicReminder med).withFood = true ↔
      ∃ s, med.instructions = some s ∧ "food".toList <:+: (toLowerCase s).toList) ∧
    (med.instructions = none → (basicReminder med).withFood = false) := by
  show (basicWithFood med.instructions = true ↔ _) ∧
    (med.instructions = none → basicWithFood med.instructions = false)
  cases med.instructions with
  | none => simp [basicWithFood]
  | some s => simp [basicWithFood, includes_iff]

/-- C23: the times of a reminder built by the fallback builder are a
non-empty list of 24-hour `HH:MM` texts without a duplicate. -/
theorem C23_times_well_formed (med : MedicationRecord) :
    ∃ ts, (basicReminder med).times = some ts ∧ ts ≠ [] ∧
      (∀ t ∈ ts, isClockTime t = true) ∧ ts.Nodup := by
  refine ⟨basicTimes med.frequency, rfl, ?_⟩
  unfold basicTimes
  split_ifs
  · exact ⟨by decide, by decide, by decide⟩
  · exact ⟨by decide, by decide, by decide⟩
  · exact ⟨by decide, by decide, by decide⟩

/-- C24, the counterexample: the reminder built from a record without a name
has no medicine at all, not the placeholder `Medication`; the today view labels
it `Unknown Medicine`, and only the medication list shows `Medication`. -/
theorem C24_absent_name_no_placeholder :
    (basicReminder unnamed).medicine = none ∧
    (basicReminder unnamed).medicine ≠ some "Medication" ∧
    reminderLabel (basicReminder unnamed) = "Unknown Medicine" ∧
    medicationLabel unnamed = "Medication" := by
  decide

/-- C24, amended: the medicine of a built reminder is the name of the record
as it is, absent when the name is absent; the today view then labels the
reminder `Unknown Medicine`, and labels it with the name when there is a
non-empty one. -/
theorem C24_medicine_is_name (med : MedicationRecord) :
    (basicReminder med).medicine = med.name ∧
    (med.name = none → reminderLabel (basicReminder med) = "Unknown Medicine") ∧
    (∀ name, med.name = some name → name ≠ "" → reminderLabel (basicReminder med) = name) := by
  refine ⟨rfl, ?_, ?_⟩
  · intro h
    simp [reminderLabel, basicReminder, h]
  · intro name h hne
    simp [reminderLabel, basicReminder, h, hne]

/-- C25, the code at the failing input: a request without an `Authorization`
header, and one with a token that does not verify, get the prescription of the
user `u1` in full; only a signed-in user other than the owner is refused. -/
theorem C25_anonymous_request_gets_prescription :
    authenticateToken verifyOne none = none ∧
    getPrescription (authenticateToken verifyOne none) (some ⟨some "u1", twoByTwo⟩)
      = .ok ⟨some "u1", twoByTwo⟩ ∧
    authenticateToken verifyOne (some "Bearer forged") = none ∧
    getPrescription (authenticateToken verifyOne (some "Bearer forged"))
        (some ⟨some "u1", twoByTwo⟩)
      = .ok ⟨some "u1", twoByTwo⟩ ∧
    authenticateToken verifyOne (some "Bearer token-of-u2") = some "u2" ∧
    getPrescription (authenticateToken verifyOne (some "Bearer token-of-u2"))
        (some ⟨some "u1", twoByTwo⟩)
      = .error 403 "Access denied" := by
  decide

/-- C26, the code at the failing input: a request without any user empties both
collections, here one prescription and 23 adherence records. -/
theorem C26_anonymous_cleanup_deletes_all :
    cleanupAll (authenticateToken verifyOne none) oneOwner
      = ({ prescriptions := [], adherence := [] }, .ok ⟨true, 1, 23⟩) := by
  decide

/-- C27: for a time `HH:MM` whose hour is a run of digits with value at most 23,
`formatTime` gives `h:MM AM` or `h:MM PM` with the minutes unchanged, `h` between
1 and 12 and congruent to the hour modulo 12, and `PM` exactly from hour 12 on;
for a missing or empty value, and for one whose converted text has an empty
hour part or no minute part, it gives `8:00 AM`. -/
theorem C27_format_time (hs ms : List Char) (hhs : hs ≠ []) (hd : ∀ c ∈ hs, isDigit c = true)
    (h23 : decimalValue hs ≤ 23) (hms : ms ≠ []) (hcolon : ':' ∉ ms) :
    (∃ h : Nat, formatTime (some (String.mk (hs ++ ':' :: ms))) =
        toString h ++ ":" ++ String.mk ms ++ " " ++
          (if 12 ≤ decimalValue hs then "PM" else "AM") ∧
      1 ≤ h ∧ h ≤ 12 ∧ h % 12 = decimalValue hs % 12) ∧
    formatTime none = "8:00 AM" ∧ formatTime (some "") = "8:00 AM" ∧
    ∀ t : String,
      (splitHoursMinutes (timeFormatToString (convertToTimeFormat (some t)))).1 = some "" ∨
      (splitHoursMinutes (timeFormatToString (convertToTimeFormat (some t)))).2 = none ∨
      (splitHoursMinutes (timeFormatToString (convertToTimeFormat (some t)))).2 = some "" →
      formatTime (some t) = "8:00 AM" := by
  refine ⟨?_, rfl, rfl, ?_⟩
  · have hne : String.mk (hs ++ ':' :: ms) ≠ "" := mk_ne_empty _ (by simp)
    have hconv : convertToTimeFormat (some (String.mk (hs ++ ':' :: ms))) =
        .text (String.mk (hs ++ ':' :: ms)) :=
      convertToTimeFormat_unchanged _ hne (Or.inl (includes_colon hs ms))
    have hp : parseInt (some (String.mk hs)) = some ((decimalValue hs : Nat) : Int) :=
      parseIntChars_decimal hs hhs hd
    have hf : formatTime (some (String.mk (hs ++ ':' :: ms))) =
        toString (if ((decimalValue hs : Nat) : Int).tmod 12 = 0 then (12 : Int)
            else ((decimalValue hs : Nat) : Int).tmod 12) ++ ":" ++ String.mk ms ++ " " ++
          (if ((decimalValue hs : Nat) : Int) ≥ 12 then "PM" else "AM") := by
      unfold formatTime
      simp only [hne, if_false, hconv, timeFormatToString,
        splitHoursMinutes_clock hs ms (not_colon_of_digits hs hd) hcolon, hp,
        mk_ne_empty hs hhs, mk_ne_empty ms hms, or_self]
    rw [hf]
    generalize decimalValue hs = H at h23
    refine ⟨if H % 12 = 0 then 12 else H % 12, ?_, ?_, ?_, ?_⟩
    · interval_cases H <;> rfl
    · split_ifs <;> omega
    · split_ifs <;> omega
    · split_ifs <;> omega
  · intro t h
    unfold formatTime
    by_cases ht : t = ""
    · simp only [ht, if_true]
    · simp only [ht, if_false]
      generalize splitHoursMinutes (timeFormatToString (convertToTimeFormat (some t))) = hm at h
      obtain ⟨a, b⟩ := hm
      simp only at h ⊢
      rcases h with rfl | rfl | rfl
      · cases b <;> simp
      · cases a <;> rfl
      · cases a <;> simp

/-- C27, at the times `00:05`, `12:30`, `23:59` and at the slot name `bedtime`. -/
theorem C27_format_time_witness :
    formatTime (some "00:05") = "12:05 AM" ∧ formatTime (some "12:30") = "12:30 PM" ∧
    formatTime (some "23:59") = "11:59 PM" ∧ formatTime (some "bedtime") = "8:00 AM" := by
  have a := C27_format_time ['0', '0'] ['0', '5'] (by decide) (by decide) (by decide)
    (by decide) (by decide)
  exact ⟨by decide, by decide, by decide, a.2.2.2 "bedtime" (by decide)⟩

/-- C28: the rate is monotone in the log.  For every analysis (reminders and
start of the prescription), zone, clock and log, the rate
`updateAdherenceTracker` computes after one more taken-event is appended is at
least the rate before, in the double-precision arithmetic of the code. -/
theorem C28_rate_monotone_in_log (tz now : Int) (analysis : Option Analysis)
    (log : List TakenEvent) (e : TakenEvent) :
    (updateAdherenceTracker tz now analysis log).adherenceRate ≤
      (updateAdherenceTracker tz now analysis (log ++ [e])).adherenceRate := by
  unfold updateAdherenceTracker
  simp only
  obtain ⟨v1, x1, t1⟩ := adherenceLoop_totals tz now (startOfDay tz (prescriptionStart now analysis))
    (startOfDay tz now) (getDailyExpectedDoses analysis) log 6 ⟨0, 0, 0, []⟩
  obtain ⟨v2, x2, t2⟩ := adherenceLoop_totals tz now (startOfDay tz (prescriptionStart now analysis))
    (startOfDay tz now) (getDailyExpectedDoses analysis) (log ++ [e]) 6 ⟨0, 0, 0, []⟩
  rw [v1, x1, t1, v2, x2, t2]
  apply adherenceRate_mono
  apply Nat.add_le_add_left
  apply List.sum_le_sum
  intro i _
  exact windowTaken_le_append tz now log e i

/-- C29: for a duration that is a non-empty run of decimal digits denoting at
most `2 ^ 53` (up to there the number is a binary64 number, so `parseInt` returns
it as it is) the day count of both calendar routes is at least 1: the number
the run denotes when that is not zero, and 7 when it is zero.  For a missing
duration, and for one that does not start with an integer, the day count is 7.
The duration of a reminder made by the fallback builder is a run of digits, so
within the same bound its day count is at least 1. -/
theorem C29_day_count (s : String) (hne : s.toList ≠ [])
    (hcs : ∀ c ∈ s.toList, isDigit c = true) (hexact : decimalValue s.toList ≤ 2 ^ 53) :
    (roundToDouble (decimalValue s.toList) 1).val = decimalValue s.toList ∧
    1 ≤ dayCount (some s) ∧
    (decimalValue s.toList ≠ 0 → dayCount (some s) = decimalValue s.toList) ∧
    (decimalValue s.toList = 0 → dayCount (some s) = 7) ∧
    dayCount none = 7 ∧
    (∀ t : String, startsWithInteger t.toList = false → dayCount (some t) = 7) ∧
    ∀ med : MedicationRecord, decimalValue (basicDuration med.duration).toList ≤ 2 ^ 53 →
      1 ≤ dayCount (basicReminder med).duration := by
  have hd := dayCount_digits s hne hcs
  refine ⟨roundToDouble_exact _ hexact, ?_, ?_, ?_, by decide, ?_, ?_⟩
  · rw [hd]
    split_ifs <;> omega
  · intro h0
    rw [hd, if_neg h0]
  · intro h0
    rw [hd, if_pos h0]
  · intro t ht
    have hn : parseInt (some t) = none := parseIntChars_no_integer t.toList ht
    unfold dayCount
    rw [hn]
  · intro med _
    obtain ⟨c, cs, hl, hc, hr⟩ := basicDuration_digits med.duration
    have hall : ∀ x ∈ (basicDuration med.duration).toList, isDigit x = true := by
      rw [hl]
      intro x hx
      rcases List.mem_cons.mp hx with rfl | hx
      · exact hc
      · exact hr x hx
    show 1 ≤ dayCount (some (basicDuration med.duration))
    rw [dayCount_digits _ (by rw [hl]; simp) hall]
    split_ifs <;> omega

/-- C29, at the durations `10`, `0` and `9007199254740992` (the bound `2 ^ 53`), and
at the text `a week`. -/
theorem C29_day_count_witness :
    dayCount (some "10") = 10 ∧ dayCount (some "0") = 7 ∧
    dayCount (some "9007199254740992") = 9007199254740992 ∧
    dayCount (some "a week") = 7 := by
  have h10 := C29_day_count "10" (by decide) (by decide) (by decide)
  have h0 := C29_day_count "0" (by decide) (by decide) (by decide)
  have h53 := C29_day_count "9007199254740992" (by decide) (by decide) (by decide)
  exact ⟨h10.2.2.1 (by decide), h0.2.2.2.1 (by decide), h53.2.2.1 (by decide),
    h0.2.2.2.2.2.1 "a week" (by decide)⟩

/-- C30: with notifications on, for a time `HH:MM` (hour at most 23, minute at most
59) and a clock `now` not within two days of the ends of the range of `Date`,
`scheduleNotification` sets a timer whose delay is positive and at most 24 hours:
the distance to today's `HH:MM` when that is still ahead, to tomorrow's when
today's is at or before `now`; so the timer fires at the next instant whose
local time of day is `HH:MM`. -/
theorem C30_delay_to_next_occurrence (tz now : Int) (hs ms : List Char)
    (hhs : hs ≠ []) (hd : ∀ c ∈ hs, isDigit c = true) (h23 : decimalValue hs ≤ 23)
    (hms : ms ≠ []) (hmd : ∀ c ∈ ms, isDigit c = true) (h59 : decimalValue ms ≤ 59)
    (hnow : -8639999827200000 ≤ now ∧ now ≤ 8639999827200000) :
    ∃ delay : Int,
      scheduleNotification true tz now (String.mk (hs ++ ':' :: ms)) = some (some delay) ∧
      0 < delay ∧ delay ≤ 86400000 ∧
      (now + delay + tz) % msPerDay =
        (decimalValue hs : Int) * 3600000 + (decimalValue ms : Int) * 60000 ∧
      (delay = 86400000 ↔ (now + tz) % msPerDay =
        (decimalValue hs : Int) * 3600000 + (decimalValue ms : Int) * 60000) := by
  have hph : parseInt (some (String.mk hs)) = some ((decimalValue hs : Nat) : Int) :=
    parseIntChars_decimal hs hhs hd
  have hpm : parseInt (some (String.mk ms)) = some ((decimalValue ms : Nat) : Int) :=
    parseIntChars_decimal ms hms hmd
  unfold scheduleNotification
  simp only [Bool.not_true, Bool.false_eq_true, if_false,
    splitHoursMinutes_clock hs ms (not_colon_of_digits hs hd) (not_colon_of_digits ms hmd),
    hph, hpm, setHours]
  generalize decimalValue hs = H at h23 ⊢
  generalize decimalValue ms = M at h59 ⊢
  have hday : localDay tz now * msPerDay ≤ now + tz ∧ now + tz < localDay tz now * msPerDay + msPerDay := by
    unfold localDay msPerDay
    omega
  have hmod : (now + tz) % msPerDay = now + tz - localDay tz now * msPerDay := by
    unfold localDay msPerDay
    omega
  generalize localDay tz now = day at hday hmod ⊢
  unfold msPerDay at hday hmod ⊢
  have hclip : timeClip (day * 86400000 + ((H : Int) * 3600000 + (M : Int) * 60000) - tz) =
      some (day * 86400000 + ((H : Int) * 3600000 + (M : Int) * 60000) - tz) := by
    unfold timeClip
    rw [if_pos (by omega)]
  rw [hclip]
  simp only
  by_cases hle : day * 86400000 + ((H : Int) * 3600000 + (M : Int) * 60000) - tz ≤ now
  · rw [if_pos hle]
    have hclip2 : addDays (some (day * 86400000 + ((H : Int) * 3600000 + (M : Int) * 60000) - tz)) 1 =
        some (day * 86400000 + ((H : Int) * 3600000 + (M : Int) * 60000) - tz + 86400000) := by
      unfold addDays timeClip msPerDay
      simp only [one_mul]
      rw [if_pos (by omega)]
    rw [hclip2]
    refine ⟨day * 86400000 + ((H : Int) * 3600000 + (M : Int) * 60000) - tz + 86400000 - now,
      rfl, by omega, by omega, by omega, by omega⟩
  · rw [if_neg hle]
    refine ⟨day * 86400000 + ((H : Int) * 3600000 + (M : Int) * 60000) - tz - now,
      rfl, by omega, by omega, by omega, by omega⟩

/-- C30, at the time `08:00` with the clock at `1700000000000` (22:13:20 UTC) in the
zone UTC: the timer is set for 08:00 of the next day, 35 200 000 ms ahead. -/
theorem C30_delay_to_next_occurrence_witness :
    ∃ delay : Int,
      scheduleNotification true 0 1700000000000 "08:00" = some (some delay) ∧
      0 < delay ∧ delay ≤ 86400000 ∧
      (1700000000000 + delay + 0) % msPerDay =
        (decimalValue ['0', '8'] : Int) * 3600000 + (decimalValue ['0', '0'] : Int) * 60000 ∧
      (delay = 86400000 ↔ (1700000000000 + 0) % msPerDay =
        (decimalValue ['0', '8'] : Int) * 3600000 + (decimalValue ['0', '0'] : Int) * 60000) :=
  C30_delay_to_next_occurrence 0 1700000000000 ['0', '8'] ['0', '0'] (by decide) (by decide)
    (by decide) (by decide) (by decide) (by decide) (by decide)

end MediMind
